import Mathlib

/-!
# Project scaffolding generator: embedding and verified properties

A shallow embedding of `src/libs/fileHelper.js`, `src/src/initializeProject.js`
and `src/index.js`.

Modelling conventions.

* JavaScript strings are Lean strings.  `toLowerCase` / `toUpperCase` are the
  JavaScript functions on ASCII strings only (they act on the ASCII letters and
  leave every other character unchanged); statements about case conversion are
  made for ASCII strings.
* A path is the list of its components below the filesystem root (what
  `path.join` / `path.resolve` return, cut at the separators); `path.basename`
  is the last component.
* The filesystem is a finite map from paths to entries (regular file with its
  content, or directory); the root directory `[]` always exists.  Symbolic
  links, permissions and devices are outside the model.
* A file written with `JSON.stringify` is stored as the value it serialises;
  `JSON.parse` of such a file gives the value back and fails on any other
  content.
* A synchronous call that throws is a result carrying the error together with
  the filesystem as it was when the error was raised.
* The external tools (`npm init -y`, `tsc --init`) are parameters of the model:
  the environment says whether the tool runs and which template it leaves.
-/

namespace Scaffold

/-! ## Strings -/

/-- JavaScript `String.prototype.toLowerCase` on ASCII strings, where it maps
`A`-`Z` to `a`-`z` and nothing else.  Outside ASCII the JavaScript function
follows the Unicode case mappings, which this definition does not; the theorems
about lower-casing are stated for ASCII strings. -/
def toLowerCase (s : String) : String := String.mk (s.data.map Char.toLower)

/-- JavaScript `String.prototype.toUpperCase` on ASCII strings, where it maps
`a`-`z` to `A`-`Z` and nothing else.  Outside ASCII the JavaScript function
follows the Unicode case mappings (and can change the length), which this
definition does not; the theorems about upper-casing are stated for ASCII
strings. -/
def toUpperCase (s : String) : String := String.mk (s.data.map Char.toUpper)

/-- Split a character list at every occurrence of `sep`. -/
def splitChars (sep : Char) : List Char → List (List Char)
  | [] => [[]]
  | c :: cs =>
    if c = sep then [] :: splitChars sep cs
    else
      match splitChars sep cs with
      | [] => [[c]]
      | seg :: segs => (c :: seg) :: segs

/-- JavaScript `s.split("-")`. -/
def splitDash (s : String) : List String := (splitChars '-' s.data).map String.mk

/-- JavaScript `xs.join(sep)`. -/
def join (sep : String) : List String → String
  | [] => ""
  | [x] => x
  | x :: y :: rest => x ++ sep ++ join sep (y :: rest)

/-- JavaScript `s.includes("-")`. -/
def includesDash (s : String) : Bool := s.data.contains '-'

/-- Replace the first occurrence of `a` by `b` in a character list. -/
def replaceFirstChar (a b : Char) : List Char → List Char
  | [] => []
  | c :: cs => if c = a then b :: cs else c :: replaceFirstChar a b cs

/-- JavaScript `replace` with the one-dash regular expression and the slash
as replacement: only the first dash is replaced. -/
def replaceFirstDash (s : String) : String := String.mk (replaceFirstChar '-' '/' s.data)

/-- The characters matched by the regular expression class `\s`. -/
def isJsWhitespace (c : Char) : Bool :=
  c.toNat = 9 || c.toNat = 10 || c.toNat = 11 || c.toNat = 12 || c.toNat = 13 ||
  c.toNat = 32 || c.toNat = 160 || c.toNat = 5760 || (8192 ≤ c.toNat && c.toNat ≤ 8202) ||
  c.toNat = 8232 || c.toNat = 8233 || c.toNat = 8239 || c.toNat = 8287 || c.toNat = 12288 ||
  c.toNat = 65279

/-- JavaScript `item.replace(/^\S/, (s) => s.toUpperCase())`. -/
def upperFirstNonSpace (item : String) : String :=
  match item.data with
  | [] => item
  | c :: cs =>
    if isJsWhitespace c then item
    else toUpperCase (String.singleton c) ++ String.mk cs

/-- JavaScript truthiness of an optional string (`undefined` and `""` are falsy). -/
def truthy : Option String → Bool
  | none => false
  | some s => s ≠ ""

/-! ## Data model -/

/-- Modelled from the spec: the layout mode constants `PACKAGE` (Single) and
`PACKAGES` (Multi) of `src/constants`, which is not among the sources; the code
only compares them for equality. -/
inductive Mode
  | PACKAGE
  | PACKAGES
  deriving DecidableEq, Repr

/-- The options record received by the generators. -/
structure Options where
  projectScoped : Option String
  projectName : String
  projectDescription : String
  projectAuthor : String
  isNeedTest : Bool
  deriving DecidableEq, Repr

/-- The options record received by `init`, whose `projectName` is optional. -/
structure InitOptions where
  projectScoped : Option String
  projectName : Option String
  projectDescription : String
  projectAuthor : String
  isNeedTest : Bool
  deriving DecidableEq, Repr

/-- A JavaScript object with string keys and values, in insertion order. -/
abbrev StrObj := List (String × String)

/-- Assignment `obj[key] = value` on an object with string values. -/
def StrObj.set (obj : StrObj) (key value : String) : StrObj :=
  if obj.any (fun kv => kv.1 = key) then
    obj.map (fun kv => if kv.1 = key then (key, value) else kv)
  else obj ++ [(key, value)]

/-- The parsed content of a `package.json`. -/
structure PackageJson where
  name : String
  version : String
  description : String
  author : String
  scripts : Option StrObj
  isPrivate : Option Bool
  type : Option String
  main : Option String
  types : Option String
  dependencies : Option StrObj
  files : Option (List String)
  others : StrObj
  deriving DecidableEq, Repr

/-- A value of a compiler option. -/
inductive OptionValue
  | str (s : String)
  | bool (b : Bool)
  | strs (xs : List String)
  deriving DecidableEq, Repr

/-- The compiler options object of a `tsconfig.json`. -/
abbrev CompilerOptions := List (String × OptionValue)

/-- Assignment `compilerOptions[key] = value`. -/
def CompilerOptions.set (obj : CompilerOptions) (key : String) (value : OptionValue) :
    CompilerOptions :=
  if obj.any (fun kv => kv.1 = key) then
    obj.map (fun kv => if kv.1 = key then (key, value) else kv)
  else obj ++ [(key, value)]

/-- The parsed content of a compiler configuration file.  A field that the
object literal does not mention is `none`; `references` lists the `path` of each
reference object. -/
structure Tsconfig where
  extends_ : Option String
  compilerOptions : Option CompilerOptions
  files : Option (List String)
  include_ : Option (List String)
  exclude : Option (List String)
  references : Option (List String)
  deriving DecidableEq, Repr

/-- What a regular file holds. -/
inductive Content
  | text (s : String)
  | packageJson (p : PackageJson)
  | tsconfig (t : Tsconfig)
  | prettierrc
  deriving DecidableEq, Repr

/-! ## Paths and the filesystem -/

/-- A path, as the list of its components below the filesystem root. -/
abbrev Path := List String

/-- Split a relative path string at the separators. -/
def pathSegments (rel : String) : List String := (splitChars '/' rel.data).map String.mk

/-- Node `path.join(base, rel)` (also `path.resolve` with a relative second
argument, and the template strings that put a separator between the two):
empty and `.` segments are dropped, `..` removes the last component. -/
def joinPath (base : Path) (rel : String) : Path :=
  (pathSegments rel).foldl
    (fun acc seg =>
      if seg = "" ∨ seg = "." then acc
      else if seg = ".." then acc.dropLast
      else acc ++ [seg])
    base

/-- Node `path.basename(p)`. -/
def pathBasename (p : Path) : String := p.getLastD ""

/-- An entry of the filesystem. -/
inductive Entry
  | file (c : Content)
  | dir
  deriving DecidableEq, Repr

/-- A filesystem state: the entries below the root directory. -/
abbrev FS := List (Path × Entry)

/-- The errors a synchronous call can throw. -/
inductive JsError
  | ENOENT
  | ENOTDIR
  | EISDIR
  | ENOTEMPTY
  | EBUSY
  | stackOverflow
  | syntaxError
  | typeError
  | execFailed
  | error (msg : String)
  deriving DecidableEq, Repr

/-- The result of running a piece of synchronous code on a filesystem. -/
inductive Outcome
  | ok (fs : FS)
  | threw (e : JsError) (fs : FS)
  deriving DecidableEq, Repr

/-- The filesystem an outcome leaves. -/
def Outcome.fs : Outcome → FS
  | .ok fs => fs
  | .threw _ fs => fs

/-- Whether the run completed without throwing. -/
def Outcome.isOk : Outcome → Bool
  | .ok _ => true
  | .threw _ _ => false

/-- Sequencing: the next statement runs only if the previous one did not throw. -/
def Outcome.andThen (r : Outcome) (next : FS → Outcome) : Outcome :=
  match r with
  | .ok fs => next fs
  | .threw e fs => .threw e fs

/-- The entry stored under a key. -/
def findEntry : FS → Path → Option Entry
  | [], _ => none
  | (k, e) :: rest, p => if k = p then some e else findEntry rest p

/-- The entry at a path; the root directory always exists. -/
def stat (fs : FS) (p : Path) : Option Entry :=
  if p = [] then some .dir else findEntry fs p

/-- The name under which `k` is a direct child of `p`, if it is one. -/
def childOf (p k : Path) : Option String :=
  if p <+: k then
    match k.drop p.length with
    | [x] => some x
    | _ => none
  else none

/-- The names of the direct children of `p`. -/
def childNames (fs : FS) (p : Path) : List String :=
  fs.filterMap (fun kv => childOf p kv.1)

/-- Remove the entry stored at `p`. -/
def eraseEntry (fs : FS) (p : Path) : FS := fs.filter (fun kv => decide (kv.1 ≠ p))

/-- Store an entry at `p`, replacing what was there. -/
def setEntry (fs : FS) (p : Path) (e : Entry) : FS := eraseEntry fs p ++ [(p, e)]

/-- Node `fs.existsSync`. -/
def existsSync (fs : FS) (p : Path) : Bool := (stat fs p).isSome

/-- Node `fs.readdirSync`. -/
def readdirSync (fs : FS) (p : Path) : Except JsError (List String) :=
  match stat fs p with
  | none => .error .ENOENT
  | some (.file _) => .error .ENOTDIR
  | some .dir => .ok (childNames fs p)

/-- Node `fs.unlinkSync`. -/
def unlinkSync (fs : FS) (p : Path) : Outcome :=
  match stat fs p with
  | none => .threw .ENOENT fs
  | some .dir => .threw .EISDIR fs
  | some (.file _) => .ok (eraseEntry fs p)

/-- Node `fs.rmdirSync`. -/
def rmdirSync (fs : FS) (p : Path) : Outcome :=
  match stat fs p with
  | none => .threw .ENOENT fs
  | some (.file _) => .threw .ENOTDIR fs
  | some .dir =>
    if p = [] then .threw .EBUSY fs
    else if childNames fs p = [] then .ok (eraseEntry fs p)
    else .threw .ENOTEMPTY fs

/-- The loop of `fs.mkdirSync(p, { recursive: true })`: `done` is the part of
the path already known to be a directory, `todo` the components still to visit. -/
def mkdirFrom : FS → Path → List String → Outcome
  | fs, _, [] => .ok fs
  | fs, done, x :: todo =>
    match stat fs (done ++ [x]) with
    | some (.file _) => .threw .ENOTDIR fs
    | some .dir => mkdirFrom fs (done ++ [x]) todo
    | none => mkdirFrom (fs ++ [(done ++ [x], .dir)]) (done ++ [x]) todo

/-- Node `fs.mkdirSync(p, { recursive: true })`. -/
def mkdirSyncRecursive (fs : FS) (p : Path) : Outcome := mkdirFrom fs [] p

/-- Node `fs.writeFileSync`: the parent must be a directory and the target must
not be one. -/
def writeFileSync (fs : FS) (p : Path) (c : Content) : Outcome :=
  if p = [] then .threw .EISDIR fs
  else
    match stat fs p.dropLast with
    | none => .threw .ENOENT fs
    | some (.file _) => .threw .ENOTDIR fs
    | some .dir =>
      match stat fs p with
      | some .dir => .threw .EISDIR fs
      | _ => .ok (setEntry fs p (.file c))

/-- Node `fs.readFileSync`. -/
def readFileSync (fs : FS) (p : Path) : Except JsError Content :=
  match stat fs p with
  | none => .error .ENOENT
  | some .dir => .error .EISDIR
  | some (.file c) => .ok c

/-- Well-formed filesystem states: no key is stored twice, the root is not
stored, and every proper ancestor of a stored key is a directory. -/
def FS.wf (fs : FS) : Bool :=
  decide (fs.map Prod.fst).Nodup &&
  fs.all (fun kv =>
    decide (kv.1 ≠ []) &&
    kv.1.inits.all (fun q => decide (q = kv.1) || stat fs q == some Entry.dir))

/-- The length of the longest stored path. -/
def maxDepth (fs : FS) : Nat := (fs.map (fun kv => kv.1.length)).foldr max 0

/-! ## `libs/fileHelper.js` -/

/-- The function `deleteFolder(targetPath, include)`; the first argument bounds
the depth of the JavaScript call stack. -/
def deleteFolderAux : Nat → FS → Path → Bool → Outcome
  | 0, fs, _, _ => .threw .stackOverflow fs
  | depth + 1, fs, targetPath, include_ =>
    if !existsSync fs targetPath then .ok fs
    else
      match stat fs targetPath with
      | some (.file _) => unlinkSync fs targetPath
      | _ =>
        match readdirSync fs targetPath with
        | .error e => .threw e fs
        | .ok files =>
          (files.foldl
            (fun (r : Outcome) (file : String) =>
              r.andThen fun fs =>
                let curPath := targetPath ++ [file]
                match stat fs curPath with
                | none => .threw .ENOENT fs
                | some .dir => deleteFolderAux depth fs curPath true
                | some (.file _) => unlinkSync fs curPath)
            (.ok fs)).andThen fun fs =>
              if !include_ then .ok fs else rmdirSync fs targetPath

/-- The function `deleteFolder`, with a call stack deeper than any stored path
(`deleteFolder_clear` shows that this depth is never exhausted on a well-formed
filesystem). -/
def deleteFolder (fs : FS) (targetPath : Path) (include_ : Bool) : Outcome :=
  deleteFolderAux (maxDepth fs + 1) fs targetPath include_

/-- The function `checkFolderWithInitOrClear(targetPath)`. -/
def checkFolderWithInitOrClear (fs : FS) (targetPath : Path) : Outcome :=
  if !existsSync fs targetPath then mkdirSyncRecursive fs targetPath
  else deleteFolder fs targetPath false

/-- A call that a generator makes on the filesystem. -/
inductive FsCall
  | checkFolderWithInitOrClear (targetPath : Path)
  | writeFileSync (p : Path) (c : Content)
  deriving DecidableEq, Repr

/-- Run one call. -/
def FsCall.run (fs : FS) : FsCall → Outcome
  | .checkFolderWithInitOrClear targetPath => Scaffold.checkFolderWithInitOrClear fs targetPath
  | .writeFileSync p c => Scaffold.writeFileSync fs p c

/-- Run a sequence of calls in order; the first one that throws ends the run. -/
def runCalls (fs : FS) (calls : List FsCall) : Outcome :=
  calls.foldl (fun (r : Outcome) (call : FsCall) => r.andThen fun fs => call.run fs) (.ok fs)

/-! ## External tools -/

/-- How a run of an external initializer ends: the command fails, or it
completes and leaves (or does not leave) its output file. -/
inductive ToolRun (α : Type)
  | crashed
  | ran (out : Option α)
  deriving DecidableEq, Repr

/-- The environment of a run: what `npm init -y` and `tsc --init` do. -/
structure Env where
  npmInit : ToolRun PackageJson
  tscInit : ToolRun Tsconfig

/-- The call `execSync("cd rootPath && <tool>")`, for a tool that leaves its
output in `fileName`. -/
def execInit (tool : ToolRun Content) (fs : FS) (rootPath : Path) (fileName : String) :
    Outcome :=
  match stat fs rootPath with
  | some .dir =>
    match tool with
    | .crashed => .threw .execFailed fs
    | .ran none => .ok fs
    | .ran (some c) =>
      match writeFileSync fs (joinPath rootPath fileName) c with
      | .ok fs1 => .ok fs1
      | .threw _ _ => .threw .execFailed fs
  | _ => .threw .execFailed fs

/-- The template of a tool as file content. -/
def ToolRun.content {α : Type} (f : α → Content) : ToolRun α → ToolRun Content
  | .crashed => .crashed
  | .ran out => .ran (out.map f)

/-- The call `JSON.parse(fs.readFileSync(p).toString())` on a manifest. -/
def readPackageJson (fs : FS) (p : Path) : Except JsError PackageJson :=
  match readFileSync fs p with
  | .error e => .error e
  | .ok (.packageJson pkg) => .ok pkg
  | .ok _ => .error .syntaxError

/-- The call `JSON5.parse(fs.readFileSync(p).toString())` on a compiler
configuration. -/
def readTsconfig (fs : FS) (p : Path) : Except JsError Tsconfig :=
  match readFileSync fs p with
  | .error e => .error e
  | .ok (.tsconfig t) => .ok t
  | .ok _ => .error .syntaxError

/-! ## `src/initializeProject.js` -/

/-- Lines 36-40 of `initPackageJson`: the manifest name. -/
def manifestName (options : Options) : String :=
  let name := ""
  let name :=
    match options.projectScoped with
    | some scope => if scope ≠ "" then name ++ ("@" ++ scope ++ "/") else name
    | none => name
  name ++ toLowerCase options.projectName

/-- Lines 35-46 of `initPackageJson`: the manifest written back. -/
def initPackageJsonManifest (packageJson : PackageJson) (options : Options) (mode : Mode) :
    PackageJson :=
  let packageJson := { packageJson with name := manifestName options }
  let packageJson :=
    if options.projectAuthor ≠ "" then { packageJson with author := options.projectAuthor }
    else packageJson
  let packageJson :=
    if options.projectDescription ≠ "" then
      { packageJson with description := options.projectDescription }
    else packageJson
  if mode = Mode.PACKAGES then { packageJson with isPrivate := some true } else packageJson

/-- The method `initPackageJson(rootPath, options, mode)`. -/
def initPackageJson (env : Env) (fs : FS) (rootPath : Path) (options : Option Options)
    (mode : Mode) : Outcome :=
  (execInit (env.npmInit.content Content.packageJson) fs rootPath "package.json").andThen
    fun fs =>
      let packageJsonPath := joinPath rootPath "/package.json"
      if !existsSync fs packageJsonPath then .threw (.error "package.json 不存在") fs
      else
        match options with
        | none => .ok fs
        | some options =>
          match readPackageJson fs packageJsonPath with
          | .error e => .threw e fs
          | .ok packageJson =>
            writeFileSync fs packageJsonPath
              (.packageJson (initPackageJsonManifest packageJson options mode))

/-- The method `initGitignore(rootPath)`. -/
def initGitignore (fs : FS) (rootPath : Path) : Outcome :=
  writeFileSync fs (joinPath rootPath ".gitignore")
    (.text ".vscode\n.cache\n.idea\n.project\nnode_modules\nsrc/**/.*\nbuild")

/-- The method `initPrettierrc(rootPath)`. -/
def initPrettierrc (fs : FS) (rootPath : Path) : Outcome :=
  writeFileSync fs (joinPath rootPath ".prettierrc") .prettierrc

/-- Lines 141-145 of `copyPackageJson`: the folder of the main manifest. -/
def realProjectName (options : Options) : String :=
  if truthy options.projectScoped then options.projectName
  else if includesDash options.projectName then
    join "-" ((splitDash options.projectName).drop 1)
  else options.projectName

/-- Lines 109-159 of `copyPackageJson`: the calls of `writeFileSync`, in order,
each with its path relative to the root and the manifest it serialises. -/
def copyPackageJsonWrites (packageJson : PackageJson) (options : Options) :
    List (String × PackageJson) :=
  let packageJson := { packageJson with scripts := none, isPrivate := none }
  let basename := packageJson.name
  let packageJson :=
    { packageJson with
      type := some "commonjs"
      main := some "build/cjs/index.js"
      types := some "build/cjs/index.d.ts"
      dependencies := some []
      files := some ["build"]
      name := basename ++ "-typings" }
  let typingsName := packageJson.name
  let write1 := ("packages/typings/package.json", packageJson)
  let packageJson :=
    { packageJson with
      dependencies := some (StrObj.set [] typingsName ("^" ++ packageJson.version)) }
  let packageJson := { packageJson with name := basename ++ "-helpers" }
  let helpersName := packageJson.name
  let packageJson :=
    { packageJson with
      dependencies := some (StrObj.set [] typingsName ("^" ++ packageJson.version)) }
  let write2 := ("packages/helpers/package.json", packageJson)
  let packageJson := { packageJson with name := basename }
  let mainName := packageJson.name
  let packageJson :=
    { packageJson with
      dependencies :=
        some ((StrObj.set [] helpersName ("^" ++ packageJson.version)).set typingsName
          ("^" ++ packageJson.version)) }
  let write3 := ("packages/" ++ realProjectName options ++ "/package.json", packageJson)
  if options.isNeedTest then
    let packageJson := { packageJson with name := basename ++ "-test" }
    let packageJson :=
      { packageJson with
        dependencies := some (StrObj.set [] mainName ("^" ++ packageJson.version)) }
    [write1, write2, write3, ("packages/test/package.json", packageJson)]
  else [write1, write2, write3]

/-- The method `copyPackageJson(rootPath, options, mode)`. -/
def copyPackageJson (fs : FS) (rootPath : Path) (options : Options) (mode : Mode) :
    Outcome :=
  if mode = Mode.PACKAGE then .ok fs
  else
    match readPackageJson fs (joinPath rootPath "package.json") with
    | .error e => .threw e fs
    | .ok packageJson =>
      runCalls fs
        ((copyPackageJsonWrites packageJson options).map
          (fun w => FsCall.writeFileSync (joinPath rootPath w.1) (.packageJson w.2)))

/-- Lines 178-209 of `initTsconfigJson`: the assignments to the compiler
options of the template. -/
def baseCompilerOptions (co : CompilerOptions) : CompilerOptions :=
  let co := co.set "target" (.str "ESNEXT")
  let co := co.set "module" (.str "commonjs")
  let co :=
    co.set "lib"
      (.strs ["ES5", "ES2015", "ES2016", "ES2017", "ES2018", "ES2019", "ES2020", "ES2021",
        "ESNEXT"])
  let co := co.set "composite" (.bool true)
  let co := co.set "incremental" (.bool true)
  let co := co.set "declaration" (.bool true)
  let co := co.set "declarationMap" (.bool true)
  let co := co.set "sourceMap" (.bool true)
  let co := co.set "downlevelIteration" (.bool true)
  let co := co.set "removeComments" (.bool true)
  let co := co.set "forceConsistentCasingInFileNames" (.bool true)
  let co := co.set "importsNotUsedAsValues" (.str "error")
  let co := co.set "strict" (.bool true)
  let co := co.set "strictNullChecks" (.bool true)
  let co := co.set "strictBindCallApply" (.bool true)
  let co := co.set "strictPropertyInitialization" (.bool true)
  let co := co.set "moduleResolution" (.str "node")
  let co := co.set "esModuleInterop" (.bool true)
  let co := co.set "allowSyntheticDefaultImports" (.bool true)
  let co := co.set "experimentalDecorators" (.bool true)
  let co := co.set "emitDecoratorMetadata" (.bool true)
  co.set "newLine" (.str "lf")

/-- The compiler options of a directory configuration. -/
def dirOptions (rootDir outDir : String) : CompilerOptions :=
  [("rootDir", .str rootDir), ("outDir", .str outDir)]

/-- Lines 211-330 of `initTsconfigJson`: the calls of `writeFileSync` that
follow the shared base configuration, in order, each with its path relative to
the root and the configuration it serialises. -/
def tsconfigWrites (basename : String) (isNeedTest : Bool) (mode : Mode) :
    List (String × Tsconfig) :=
  if mode = Mode.PACKAGE then
    let tsconfig : Tsconfig :=
      { extends_ := none, compilerOptions := none, files := some [], include_ := some [],
        exclude := some ["build"], references := some ["./src", "./test"] }
    let srcTsconfig : Tsconfig :=
      { extends_ := some "../tsconfig.base"
        compilerOptions := some (dirOptions "./" "../build/src")
        files := some ["@types.ts", "index.ts"], include_ := none, exclude := none,
        references := none }
    if isNeedTest then
      let testTsconfig : Tsconfig :=
        { extends_ := some "../tsconfig.base"
          compilerOptions := some (dirOptions "./" "../build/test")
          files := some ["index.ts"], include_ := none, exclude := none,
          references := some ["../src"] }
      [("tsconfig.json", tsconfig), ("src/tsconfig.json", srcTsconfig),
        ("test/tsconfig.json", testTsconfig)]
    else [("tsconfig.json", tsconfig), ("src/tsconfig.json", srcTsconfig)]
  else
    let references := ["./packages/" ++ basename ++ "/tsconfig.json"]
    let references :=
      if isNeedTest then references ++ ["./packages/test/tsconfig.json"] else references
    let tsconfig : Tsconfig :=
      { extends_ := none, compilerOptions := none, files := some [], include_ := some [],
        exclude := none, references := some references }
    let typingsTsconfig : Tsconfig :=
      { extends_ := some "../../tsconfig.base"
        compilerOptions := some (dirOptions "./src" "./build/cjs")
        files := some ["src/@types.ts", "src/index.ts"], include_ := none, exclude := none,
        references := none }
    let helpersTsconfig : Tsconfig :=
      { extends_ := some "../../tsconfig.base"
        compilerOptions := some (dirOptions "./src" "./build/cjs")
        references := some ["../typings/tsconfig.json"]
        files := some ["src/@types.ts", "src/index.ts"], include_ := none, exclude := none }
    let mainTsconfig : Tsconfig :=
      { extends_ := some "../../tsconfig.base"
        compilerOptions := some (dirOptions "./src" "./build/cjs")
        references := some ["../helpers/tsconfig.json", "../typings/tsconfig.json"]
        files := some ["src/@types.ts", "src/index.ts"], include_ := none, exclude := none }
    let writes :=
      [("tsconfig.json", tsconfig), ("packages/typings/tsconfig.json", typingsTsconfig),
        ("packages/helpers/tsconfig.json", helpersTsconfig),
        ("packages/" ++ basename ++ "/tsconfig.json", mainTsconfig)]
    if isNeedTest then
      let testTsconfig : Tsconfig :=
        { extends_ := some "../../tsconfig.base"
          compilerOptions := some (dirOptions "./src" "./build/cjs")
          references := some ["../" ++ basename ++ "/tsconfig.json"]
          files := some [], include_ := none, exclude := none }
      writes ++ [("packages/test/tsconfig.json", testTsconfig)]
    else writes

/-- The method `initTsconfigJson(rootPath, isNeedTest, mode)`. -/
def initTsconfigJson (env : Env) (fs : FS) (rootPath : Path) (isNeedTest : Bool)
    (mode : Mode) : Outcome :=
  (execInit (env.tscInit.content Content.tsconfig) fs rootPath "tsconfig.json").andThen
    fun fs =>
      let tsconfigPath := joinPath rootPath "/tsconfig.json"
      if !existsSync fs tsconfigPath then .threw (.error "tsconfig.json 不存在") fs
      else
        match readTsconfig fs tsconfigPath with
        | .error e => .threw e fs
        | .ok tsconfigBase =>
          match tsconfigBase.compilerOptions with
          | none => .threw .typeError fs
          | some co =>
            let tsconfigBase :=
              { tsconfigBase with compilerOptions := some (baseCompilerOptions co) }
            (writeFileSync fs (joinPath rootPath "tsconfig.base.json")
              (.tsconfig tsconfigBase)).andThen fun fs =>
                runCalls fs
                  ((tsconfigWrites (pathBasename rootPath) isNeedTest mode).map
                    (fun w => FsCall.writeFileSync (joinPath rootPath w.1) (.tsconfig w.2)))

/-- Lines 349-356 of `initDirectory`: the namespace identifier. -/
def projectNamespace (options : Options) : String :=
  let formatProjectName := join "" ((splitDash options.projectName).map upperFirstNonSpace)
  let projectNamespace := formatProjectName
  match options.projectScoped with
  | some scope => if scope ≠ "" then toUpperCase scope ++ projectNamespace
    else projectNamespace
  | none => projectNamespace

/-- Lines 390-394 of `initDirectory`: the constant `packageBaseBame`. -/
def packageBaseBame (options : Options) : String :=
  if truthy options.projectScoped then
    "@" ++ options.projectScoped.getD "" ++ "/" ++ toLowerCase options.projectName
  else if includesDash options.projectName then
    "@" ++ toLowerCase (replaceFirstDash options.projectName)
  else toLowerCase options.projectName

/-- Line 396 of `initDirectory`: the module specifier of the first import of
the helpers and main entry files. -/
def importTypingsSpecifier (options : Options) : String := packageBaseBame options ++ "-typings"

/-- Line 396 of `initDirectory`: the text of the helpers and main entry files. -/
def importTypings (options : Options) : String :=
  "import \"" ++ importTypingsSpecifier options ++ "\";\n\nimport \"./@types\";"

/-- Lines 385-388 of `initDirectory`: the local function `initDir`. -/
def initDir (targetRootPath : Path) : FsCall :=
  let srcPath := joinPath targetRootPath "/src"
  .checkFolderWithInitOrClear srcPath

/-- Line 358 of `initDirectory`: the text of the declaration placeholder. -/
def typesDeclaration (options : Options) : String :=
  "declare namespace " ++ projectNamespace options ++ " \x7b\x7d"

/-- The calls that `initDirectory(rootPath, options, mode)` makes on the
filesystem, in order. -/
def initDirectoryCalls (rootPath : Path) (options : Options) (mode : Mode) : List FsCall :=
  let scripts := FsCall.checkFolderWithInitOrClear (joinPath rootPath "/scripts")
  let types := typesDeclaration options
  if mode = Mode.PACKAGE then
    let srcPath := joinPath rootPath "/src"
    let calls :=
      [scripts, .checkFolderWithInitOrClear srcPath,
        .writeFileSync (joinPath srcPath "/@types.ts") (.text types),
        .writeFileSync (joinPath srcPath "index.ts") (.text "import \"./@types\";")]
    if options.isNeedTest then
      let testPath := joinPath rootPath "/test"
      calls ++
        [.checkFolderWithInitOrClear testPath,
          .writeFileSync (joinPath testPath "index.ts")
            (.text "欲渡黄河冰塞川，将登太行雪满山")]
    else calls
  else
    let packagesRootPath := joinPath rootPath "/packages"
    let typingsPath := joinPath packagesRootPath "typings"
    let helpersPath := joinPath packagesRootPath "helpers"
    let basename := pathBasename rootPath
    let mainPath := joinPath packagesRootPath basename
    let calls :=
      [scripts, .checkFolderWithInitOrClear packagesRootPath,
        initDir typingsPath,
        .writeFileSync (joinPath typingsPath "src/@types.ts") (.text types),
        .writeFileSync (joinPath typingsPath "src/index.ts") (.text "import \"./@types\";"),
        initDir helpersPath,
        .writeFileSync (joinPath helpersPath "src/@types.ts") (.text types),
        .writeFileSync (joinPath helpersPath "src/index.ts") (.text (importTypings options)),
        initDir mainPath,
        .writeFileSync (joinPath mainPath "src/@types.ts") (.text types),
        .writeFileSync (joinPath mainPath "src/index.ts") (.text (importTypings options))]
    if options.isNeedTest then calls ++ [initDir (joinPath packagesRootPath "test")]
    else calls

/-- The method `initDirectory(rootPath, options, mode)`. -/
def initDirectory (fs : FS) (rootPath : Path) (options : Options) (mode : Mode) : Outcome :=
  runCalls fs (initDirectoryCalls rootPath options mode)

/-- Lines 440-444 of `init`: the options record as `init` leaves it to its
caller, and the local variable `basename`. -/
def initScope (rootPath : Path) (options : InitOptions) : InitOptions × String :=
  let basename := pathBasename rootPath
  if !truthy options.projectScoped && includesDash basename then
    ({ options with projectScoped := some ((splitDash basename).headD "") },
      join "-" ((splitDash basename).drop 1))
  else (options, basename)

/-- Lines 448-452 of `init`: the record `opts` handed to the generators. -/
def initOpts (rootPath : Path) (options : InitOptions) : Options :=
  let split := initScope rootPath options
  { projectScoped := split.1.projectScoped
    projectName := if truthy split.1.projectName then split.1.projectName.getD "" else split.2
    projectDescription := split.1.projectDescription
    projectAuthor := split.1.projectAuthor
    isNeedTest := split.1.isNeedTest }

/-- Lines 454-472 of `init`: the generators, run in order on the record `opts`. -/
def runGenerators (env : Env) (fs : FS) (rootPath : Path) (opts : Options)
    (isNeedTest : Bool) (mode : Mode) : Outcome :=
  (initPackageJson env fs rootPath (some opts) mode).andThen fun fs =>
  (initGitignore fs rootPath).andThen fun fs =>
  (initPrettierrc fs rootPath).andThen fun fs =>
  (initDirectory fs rootPath opts mode).andThen fun fs =>
  (initTsconfigJson env fs rootPath isNeedTest mode).andThen fun fs =>
  copyPackageJson fs rootPath opts mode

/-- The method `init(rootPath, options, mode)`. -/
def init (env : Env) (fs : FS) (rootPath : Path) (options : InitOptions) (mode : Mode) :
    Outcome :=
  (checkFolderWithInitOrClear fs rootPath).andThen fun fs =>
  runGenerators env fs rootPath (initOpts rootPath options)
    (initScope rootPath options).1.isNeedTest mode

/-! ## `src/index.js` -/

/-- The answers collected by the prompts. -/
structure Answers where
  projectScoped : String
  projectName : String
  projectAuthor : String
  projectDescription : String
  isNeedTest : Bool
  codeOrganization : Mode
  deriving DecidableEq, Repr

/-- The body of the `try` block of `index.js` once the prompts are answered;
`cwd` is `process.cwd()`.  A thrown error is the one the `catch` clause logs. -/
def main (env : Env) (fs : FS) (cwd : Path) (answers : Answers) : Outcome :=
  if answers.projectName = "" then .threw (.error "必须填写项目名称") fs
  else
    init env fs (joinPath cwd answers.projectName)
      { projectScoped := some answers.projectScoped
        projectName := some answers.projectName
        projectDescription := answers.projectDescription
        projectAuthor := answers.projectAuthor
        isNeedTest := answers.isNeedTest }
      answers.codeOrganization

/-! ## Vocabulary of the specification and sample inputs -/

/-- Whether every character of the string is ASCII. -/
def isAsciiString (s : String) : Bool := s.data.all (fun c => decide (c.toNat < 128))

/-- Lower-casing of an ASCII character: `A`-`Z` move 32 code points up. -/
def asciiLowerChar (c : Char) : Char :=
  if 65 ≤ c.toNat ∧ c.toNat ≤ 90 then Char.ofNat (c.toNat + 32) else c

/-- Upper-casing of an ASCII character: `a`-`z` move 32 code points down. -/
def asciiUpperChar (c : Char) : Char :=
  if 97 ≤ c.toNat ∧ c.toNat ≤ 122 then Char.ofNat (c.toNat - 32) else c

/-- The lower-case form of an ASCII string, as the specification means it. -/
def asciiLowerCase (s : String) : String := String.mk (s.data.map asciiLowerChar)

/-- The upper-case form of an ASCII string, as the specification means it. -/
def asciiUpperCase (s : String) : String := String.mk (s.data.map asciiUpperChar)

/-- The wording of the specification for one segment of the namespace
identifier: the segment with its first character upper-cased. -/
def capitalizeFirst (seg : String) : String :=
  match seg.data with
  | [] => ""
  | c :: cs => String.mk (asciiUpperChar c :: cs)

/-- The wording of the specification for the namespace identifier: the
upper-cased scope, when the scope is non-empty, followed by the dash-separated
segments of the name, each with its first character upper-cased. -/
def namespaceIdentifier (options : Options) : String :=
  (if truthy options.projectScoped then asciiUpperCase (options.projectScoped.getD "")
    else "") ++
    join "" ((splitDash options.projectName).map capitalizeFirst)

/-- The wording of the specification for the manifest base name. -/
def manifestBaseName (options : Options) : String :=
  (if truthy options.projectScoped then "@" ++ options.projectScoped.getD "" ++ "/" else "") ++
    asciiLowerCase options.projectName

/-- An options record with a scope and upper-case letters in scope and name. -/
def sampleScopedOptions : Options :=
  { projectScoped := some "Acme", projectName := "My-Widget", projectDescription := "",
    projectAuthor := "", isNeedTest := true }


/-- The sub-packages of the Multi layout. -/
inductive SubPackage
  | typings
  | helpers
  | main
  | test
  deriving DecidableEq, Repr

/-- The sub-packages generated for a given value of `isNeedTest`, in
generation order. -/
def SubPackage.generated (isNeedTest : Bool) : List SubPackage :=
  if isNeedTest then [.typings, .helpers, .main, .test] else [.typings, .helpers, .main]

/-- The dependency graph the specification states: the sub-packages each
sub-package points to. -/
def SubPackage.upstream : SubPackage → List SubPackage
  | .typings => []
  | .helpers => [.typings]
  | .main => [.helpers, .typings]
  | .test => [.main]

/-- The manifest name of a sub-package, for the base manifest name `b`. -/
def SubPackage.manifestName (b : String) : SubPackage → String
  | .typings => b ++ "-typings"
  | .helpers => b ++ "-helpers"
  | .main => b
  | .test => b ++ "-test"

/-- The folder of a sub-package below `packages`, for the main folder `m`. -/
def SubPackage.folder (m : String) : SubPackage → String
  | .typings => "typings"
  | .helpers => "helpers"
  | .main => m
  | .test => "test"

/-- A manifest template as `npm init -y` leaves it. -/
def sampleManifest : PackageJson :=
  { name := "widget", version := "1.0.0", description := "", author := "",
    scripts := some [("test", "exit 1")], isPrivate := none, type := none,
    main := some "index.js", types := none, dependencies := none, files := none,
    others := [("license", "ISC")] }

/-- A compiler configuration template as `tsc --init` leaves it. -/
def sampleTsconfig : Tsconfig :=
  { extends_ := none, compilerOptions := some [("target", .str "es2016")], files := none,
    include_ := none, exclude := none, references := none }

/-- An environment in which both external tools run and leave their template. -/
def sampleEnv : Env :=
  { npmInit := .ran (some sampleManifest), tscInit := .ran (some sampleTsconfig) }

/-- An options record without scope. -/
def sampleOptions : Options :=
  { projectScoped := none, projectName := "acme-widget", projectDescription := "",
    projectAuthor := "", isNeedTest := true }

/-- A filesystem holding a project root with its base manifest. -/
def sampleRootFs : FS :=
  [(["work"], .dir), (["work", "widget"], .dir),
    (["work", "widget", "package.json"], .file (.packageJson sampleManifest))]

/-- The options of a call of `init` that leaves out name and scope. -/
def omittedNameOptions : InitOptions :=
  { projectScoped := none, projectName := none, projectDescription := "",
    projectAuthor := "", isNeedTest := false }

/-- The options of a call of `init` with an empty project name. -/
def emptyNameOptions : InitOptions :=
  { projectScoped := none, projectName := some "", projectDescription := "",
    projectAuthor := "", isNeedTest := false }

/-- The options of a call of `init` with a hyphenated project name and no scope. -/
def hyphenatedNameOptions : InitOptions :=
  { projectScoped := none, projectName := some "acme-widget", projectDescription := "",
    projectAuthor := "", isNeedTest := false }

/-- The answers of a prompt session whose project name was left empty. -/
def emptyNameAnswers : Answers :=
  { projectScoped := "", projectName := "", projectAuthor := "", projectDescription := "",
    isNeedTest := true, codeOrganization := Mode.PACKAGE }

/-- No component of the path, the path itself included, is a regular file. -/
def noFileAlong (fs : FS) (p : Path) : Bool :=
  p.inits.all (fun q =>
    match stat fs q with
    | some (.file _) => false
    | _ => true)

/-- A filesystem with a nested project tree. -/
def sampleTreeFs : FS :=
  [(["work"], .dir), (["work", "proj"], .dir), (["work", "proj", "src"], .dir),
    (["work", "proj", "src", "index.ts"], .file (.text "import \"./@types\";")),
    (["work", "proj", "package.json"], .file (.packageJson sampleManifest)),
    (["work", "notes.txt"], .file (.text "todo"))]

/-- The representation invariant `FS.wf` as a proposition. -/
structure WF (fs : FS) : Prop where
  nodup : (fs.map Prod.fst).Nodup
  ne_nil : ∀ kv ∈ fs, kv.1 ≠ []
  ancestors : ∀ kv ∈ fs, ∀ q, q <+: kv.1 → q ≠ kv.1 → stat fs q = some Entry.dir

/-- The body of the loop of `deleteFolder` over the directory listing. -/
def deleteFolderStep (depth : Nat) (targetPath : Path) (r : Outcome) (file : String) :
    Outcome :=
  r.andThen fun fs =>
    let curPath := targetPath ++ [file]
    match stat fs curPath with
    | none => .threw .ENOENT fs
    | some .dir => deleteFolderAux depth fs curPath true
    | some (.file _) => unlinkSync fs curPath

/-- The entries that remain once everything at or below the children `files`
of `p` is removed. -/
def withoutChildren (fs : FS) (p : Path) (files : List String) : FS :=
  fs.filter (fun kv => files.all (fun x => !decide ((p ++ [x]) <+: kv.1)))

/-- The entries that remain once everything at or below `p` is removed. -/
def withoutTree (fs : FS) (p : Path) : FS :=
  fs.filter (fun kv => !decide (p <+: kv.1))

/-- A filesystem holding one regular file below the root. -/
def sampleFileFs : FS := [(["notes"], .file (.text "todo"))]

/-- A name that is a single path component: not empty, not `.` or `..`, and
without separator. -/
def isPlainName (name : String) : Bool :=
  decide (name ≠ "") && decide (name ≠ ".") && decide (name ≠ "..") &&
    !name.data.contains '/'

/-- The directory `src` exists and holds the declaration placeholder `@types.ts`
with the text `types` and an entry file `index.ts`. -/
def hasSources (fs : FS) (src : Path) (types : String) : Prop :=
  stat fs src = some Entry.dir ∧
    stat fs (src ++ ["@types.ts"]) = some (Entry.file (Content.text types)) ∧
    ∃ entry, stat fs (src ++ ["index.ts"]) = some (Entry.file (Content.text entry))

/-- The directory `src` exists and is empty. -/
def isEmptyDir (fs : FS) (src : Path) : Prop :=
  stat fs src = some Entry.dir ∧ readdirSync fs src = .ok []

/-- The state of the `packages` folder `pk` between the steps of `initDirectory`:
the filesystem is well formed, `pk` is a directory, and no sub-package folder
or `src` folder below it is a regular file. -/
def PackagesReady (fs : FS) (pk : Path) : Prop :=
  WF fs ∧ stat fs pk = some Entry.dir ∧
    (∀ g c, stat fs (pk ++ [g]) ≠ some (Entry.file c)) ∧
    (∀ g c, stat fs (pk ++ [g, "src"]) ≠ some (Entry.file c))

/-- The three calls that generate the sources of one sub-package folder. -/
def sourcesBlock (src : Path) (types entry : String) : List FsCall :=
  [.checkFolderWithInitOrClear src, .writeFileSync (src ++ ["@types.ts"]) (.text types),
    .writeFileSync (src ++ ["index.ts"]) (.text entry)]

/-- The filesystem after a sequence of successful `writeFileSync` calls. -/
def applyWrites (fs : FS) : List (Path × Content) → FS
  | [] => fs
  | w :: ws => applyWrites (setEntry fs w.1 (.file w.2)) ws

/-- The content that the last call of a sequence of `writeFileSync` calls
addressed to `q` wrote there, if any call did. -/
def lastWrite : List (Path × Content) → Path → Option Content
  | [], _ => none
  | w :: ws, q =>
    match lastWrite ws q with
    | some c => some c
    | none => if w.1 = q then some w.2 else none

/-- A file can be written at `p`: its parent is a directory and `p` itself is
not one. -/
def writable (fs : FS) (p : Path) : Bool :=
  decide (p ≠ []) && decide (stat fs p.dropLast = some Entry.dir) &&
    decide (stat fs p ≠ some Entry.dir)

/-- The path of the manifest of a sub-package, as `copyPackageJson` addresses it. -/
def SubPackage.manifestPath (rootPath : Path) (options : Options) : SubPackage → Path
  | .typings => joinPath rootPath "packages/typings/package.json"
  | .helpers => joinPath rootPath "packages/helpers/package.json"
  | .main => joinPath rootPath ("packages/" ++ realProjectName options ++ "/package.json")
  | .test => joinPath rootPath "packages/test/package.json"

/-- The path of the configuration of a sub-package, as `initTsconfigJson`
addresses it. -/
def SubPackage.configPath (rootPath : Path) : SubPackage → Path
  | .typings => joinPath rootPath "packages/typings/tsconfig.json"
  | .helpers => joinPath rootPath "packages/helpers/tsconfig.json"
  | .main => joinPath rootPath ("packages/" ++ pathBasename rootPath ++ "/tsconfig.json")
  | .test => joinPath rootPath "packages/test/tsconfig.json"

/-- A project root with its base manifest and the folders of the four
sub-packages. -/
def samplePackagesFs : FS :=
  [(["work"], .dir), (["work", "widget"], .dir),
    (["work", "widget", "package.json"], .file (.packageJson sampleManifest)),
    (["work", "widget", "packages"], .dir),
    (["work", "widget", "packages", "typings"], .dir),
    (["work", "widget", "packages", "helpers"], .dir),
    (["work", "widget", "packages", "widget"], .dir),
    (["work", "widget", "packages", "test"], .dir)]

/-- The manifest of a sub-package as the specification describes it: the base
manifest without `scripts` and `private`, with the fixed build entries, the
sub-package's name, and one dependency on each upstream sub-package at the caret
range of the base version. -/
def SubPackage.manifest (pkg : PackageJson) (s : SubPackage) : PackageJson :=
  { pkg with
    scripts := none
    isPrivate := none
    type := some "commonjs"
    main := some "build/cjs/index.js"
    types := some "build/cjs/index.d.ts"
    files := some ["build"]
    name := s.manifestName pkg.name
    dependencies :=
      some (s.upstream.map (fun u => (u.manifestName pkg.name, "^" ++ pkg.version))) }

/-- The configuration of a sub-package as the specification describes it: it
extends the shared base, compiles `./src` into the fixed build directory, and
references the configuration of each upstream sub-package (no `references` key
for typings, no files for test). -/
def SubPackage.config (basename : String) (s : SubPackage) : Tsconfig :=
  { extends_ := some "../../tsconfig.base"
    compilerOptions := some (dirOptions "./src" "./build/cjs")
    files := if s = .test then some [] else some ["src/@types.ts", "src/index.ts"]
    include_ := none
    exclude := none
    references :=
      if s = .typings then none
      else some (s.upstream.map (fun u => "../" ++ u.folder basename ++ "/tsconfig.json")) }

/-- The Multi-mode root configuration written by `initTsconfigJson`. -/
def multiRootConfig (basename : String) (isNeedTest : Bool) : Tsconfig :=
  { extends_ := none
    compilerOptions := none
    files := some []
    include_ := some []
    exclude := none
    references :=
      some (if isNeedTest then
        ["./packages/" ++ basename ++ "/tsconfig.json", "./packages/test/tsconfig.json"]
      else ["./packages/" ++ basename ++ "/tsconfig.json"]) }

/-- A sub-package whose file is not overwritten by the file of another
generated sub-package. -/
def SubPackage.keepsPath (path : SubPackage → Path) (isNeedTest : Bool) (s : SubPackage) :
    Prop :=
  ∀ other ∈ SubPackage.generated isNeedTest, other ≠ s → path other ≠ path s

/-! ## Strings and objects -/

theorem append_ne_append_left (b : String) {x y : String} (h : x ≠ y) : b ++ x ≠ b ++ y := by
  intro hxy
  apply h
  have := congrArg String.data hxy
  simp only [String.data_append] at this
  exact String.ext (List.append_cancel_left this)

theorem empty_append (s : String) : "" ++ s = s := String.ext (by simp)

theorem StrObj.set_nil (k v : String) : StrObj.set [] k v = [(k, v)] := by
  simp [StrObj.set]

theorem StrObj.set_singleton_ne {k k2 v v2 : String} (h : k ≠ k2) :
    StrObj.set [(k, v)] k2 v2 = [(k, v), (k2, v2)] := by
  simp [StrObj.set, h]

theorem toUpper_of_isJsWhitespace {c : Char} (h : isJsWhitespace c = true) : c.toUpper = c := by
  unfold Char.toUpper
  simp only [isJsWhitespace, Bool.or_eq_true, decide_eq_true_eq, Bool.and_eq_true] at h
  have : ¬ (c.toNat ≥ 97 ∧ c.toNat ≤ 122) := by omega
  simp [this]

theorem toLowerCase_eq_ascii (s : String) : toLowerCase s = asciiLowerCase s := by
  unfold toLowerCase asciiLowerCase
  congr 1

theorem toUpperCase_eq_ascii (s : String) : toUpperCase s = asciiUpperCase s := by
  unfold toUpperCase asciiUpperCase
  congr 1

theorem upperFirstNonSpace_eq (item : String) : upperFirstNonSpace item = capitalizeFirst item := by
  unfold upperFirstNonSpace capitalizeFirst
  rcases h : item.data with _ | ⟨c, cs⟩
  · exact String.ext (by simp [h])
  · by_cases hw : isJsWhitespace c = true
    · simp only [hw, if_true]
      apply String.ext
      have hc : asciiUpperChar c = c := toUpper_of_isJsWhitespace hw
      simp [h, hc]
    · simp only [hw]
      apply String.ext
      simp [toUpperCase, String.singleton]
      rfl

theorem manifestName_eq (options : Options) : manifestName options = manifestBaseName options := by
  unfold manifestName manifestBaseName
  rw [toLowerCase_eq_ascii]
  rcases hs : options.projectScoped with _ | scope
  · simp [truthy, empty_append]
  · by_cases hne : scope = ""
    · simp [truthy, hne, empty_append]
    · apply String.ext
      simp [truthy, hne]

theorem projectNamespace_eq (options : Options) :
    projectNamespace options = namespaceIdentifier options := by
  have hmap : (splitDash options.projectName).map upperFirstNonSpace =
      (splitDash options.projectName).map capitalizeFirst :=
    List.map_congr_left (fun s _ => upperFirstNonSpace_eq s)
  unfold projectNamespace namespaceIdentifier
  rw [hmap]
  rcases hs : options.projectScoped with _ | scope
  · simp [truthy, empty_append]
  · by_cases hne : scope = ""
    · simp [truthy, hne, empty_append]
    · simp [truthy, hne, toUpperCase_eq_ascii]

/-! ## Filesystem primitives -/

theorem findEntry_filter (fs : FS) (P : Path → Bool) (q : Path) :
    findEntry (fs.filter (fun kv => P kv.1)) q = if P q = true then findEntry fs q else none := by
  induction fs with
  | nil => simp [findEntry]
  | cons kv rest ih =>
    obtain ⟨k, e⟩ := kv
    by_cases hk : P k = true
    · simp only [List.filter_cons, hk, if_true, findEntry]
      by_cases hkq : k = q
      · subst hkq; simp [hk]
      · simp [hkq, ih]
    · simp only [List.filter_cons, hk, findEntry]
      by_cases hkq : k = q
      · subst hkq; simp [hk, ih]
      · simp [hkq, ih]

theorem findEntry_append (a b : FS) (q : Path) :
    findEntry (a ++ b) q = (findEntry a q).orElse (fun _ => findEntry b q) := by
  induction a with
  | nil => simp [findEntry]
  | cons kv rest ih =>
    obtain ⟨k, e⟩ := kv
    by_cases hkq : k = q
    · simp [findEntry, hkq]
    · simp [findEntry, hkq, ih]

theorem findEntry_eraseEntry (fs : FS) (p q : Path) :
    findEntry (eraseEntry fs p) q = if q = p then none else findEntry fs q := by
  unfold eraseEntry
  rw [findEntry_filter fs (fun k => decide (k ≠ p)) q]
  by_cases h : q = p <;> simp [h]

theorem findEntry_setEntry (fs : FS) (p : Path) (e : Entry) (q : Path) :
    findEntry (setEntry fs p e) q = if q = p then some e else findEntry fs q := by
  unfold setEntry
  rw [findEntry_append, findEntry_eraseEntry]
  by_cases h : q = p
  · subst h; simp [findEntry]
  · have h2 : ¬ p = q := fun h3 => h h3.symm
    simp [h, h2, findEntry]

theorem stat_setEntry {p : Path} (hp : p ≠ []) (fs : FS) (e : Entry) (q : Path) :
    stat (setEntry fs p e) q = if q = p then some e else stat fs q := by
  unfold stat
  by_cases hq : q = []
  · subst hq
    have : ¬ ([] : Path) = p := fun h => hp h.symm
    simp [this]
  · simp [hq, findEntry_setEntry]

theorem writeFileSync_ok {fs : FS} {p : Path} (c : Content) (hp : p ≠ [])
    (hparent : stat fs p.dropLast = some Entry.dir) (hnotdir : stat fs p ≠ some Entry.dir) :
    writeFileSync fs p c = .ok (setEntry fs p (.file c)) := by
  unfold writeFileSync
  simp only [hp, if_false, hparent]

theorem joinPath_packageJson (rootPath : Path) :
    joinPath rootPath "/package.json" = rootPath ++ ["package.json"] := by
  have h : pathSegments "/package.json" = ["", "package.json"] := by decide
  simp [joinPath, h]

theorem joinPath_packageJson_rel (rootPath : Path) :
    joinPath rootPath "package.json" = rootPath ++ ["package.json"] := by
  have h : pathSegments "package.json" = ["package.json"] := by decide
  simp [joinPath, h]

/-! ## Splitting at dashes -/

theorem splitChars_dash_spec (cs : List Char) :
    ∃ h t, splitChars '-' cs = h :: t ∧ '-' ∉ h ∧
      (join "-" ((h :: t).map String.mk)).data = cs ∧ (t = [] ↔ '-' ∉ cs) := by
  induction cs with
  | nil => exact ⟨[], [], rfl, by simp, rfl, by simp⟩
  | cons c cs ih =>
    obtain ⟨h, t, hsplit, hh, hjoin, ht⟩ := ih
    by_cases hc : c = '-'
    · subst hc
      refine ⟨[], h :: t, by simp [splitChars, hsplit], by simp, ?_, by simp⟩
      simp only [List.map_cons, join, String.data_append] at hjoin ⊢
      rw [hjoin]
      rfl
    · refine ⟨c :: h, t, by simp [splitChars, hsplit, hc], ?_, ?_, ?_⟩
      · simp only [List.mem_cons, not_or]
        exact ⟨fun h2 => hc h2.symm, hh⟩
      · cases t with
        | nil =>
          simp only [List.map_cons, List.map_nil, join] at hjoin ⊢
          simp [← hjoin]
        | cons y r =>
          simp only [List.map_cons, join, String.data_append] at hjoin ⊢
          simp [← hjoin]
      · rw [ht]
        simp only [List.mem_cons, not_or]
        constructor
        · intro h2; exact ⟨fun h3 => hc h3.symm, h2⟩
        · intro h2; exact h2.2

theorem splitDash_of_includesDash {s : String} (hs : includesDash s = true) :
    ∃ lead rest, splitDash s = lead :: rest ∧ includesDash lead = false ∧
      s = lead ++ "-" ++ join "-" rest := by
  obtain ⟨h, t, hsplit, hh, hjoin, ht⟩ := splitChars_dash_spec s.data
  have hmem : '-' ∈ s.data := by simpa [includesDash] using hs
  have htne : t ≠ [] := fun h2 => (ht.mp h2) hmem
  refine ⟨String.mk h, t.map String.mk, by simp [splitDash, hsplit], ?_, ?_⟩
  · simpa [includesDash] using hh
  · apply String.ext
    rw [← hjoin]
    cases t with
    | nil => exact absurd rfl htne
    | cons y r => simp [join]

theorem importTypingsSpecifier_eq (options : Options)
    (h : truthy options.projectScoped = true ∨ includesDash options.projectName = false) :
    importTypingsSpecifier options = manifestName options ++ "-typings" := by
  unfold importTypingsSpecifier packageBaseBame manifestName
  rcases hs : options.projectScoped with _ | scope
  · rcases h with h | h
    · simp [hs, truthy] at h
    · simp [truthy, h, empty_append]
  · by_cases hne : scope = ""
    · rcases h with h | h
      · simp [hs, truthy, hne] at h
      · simp [truthy, hne, h, empty_append]
    · congr 1
      apply String.ext
      simp [truthy, hne]

theorem initScope_fields (rootPath : Path) (options : InitOptions) :
    (initScope rootPath options).1.projectName = options.projectName ∧
      (initScope rootPath options).1.projectDescription = options.projectDescription ∧
      (initScope rootPath options).1.projectAuthor = options.projectAuthor ∧
      (initScope rootPath options).1.isNeedTest = options.isNeedTest := by
  unfold initScope
  by_cases h : (!truthy options.projectScoped && includesDash (pathBasename rootPath)) = true
  · simp [h]
  · simp [h]

theorem initScope_of_split {rootPath : Path} {options : InitOptions}
    (hs : truthy options.projectScoped = false)
    (hd : includesDash (pathBasename rootPath) = true) :
    initScope rootPath options =
      ({ options with projectScoped := some ((splitDash (pathBasename rootPath)).headD "") },
        join "-" ((splitDash (pathBasename rootPath)).drop 1)) := by
  have h : (!truthy options.projectScoped && includesDash (pathBasename rootPath)) = true := by
    rw [hs, hd]; rfl
  simp only [initScope, h, if_true]

theorem initScope_of_keep {rootPath : Path} {options : InitOptions}
    (h : truthy options.projectScoped = true ∨ includesDash (pathBasename rootPath) = false) :
    initScope rootPath options = (options, pathBasename rootPath) := by
  have h2 : ¬ (!truthy options.projectScoped && includesDash (pathBasename rootPath)) = true := by
    rcases h with h | h <;> simp [h]
  simp only [initScope, h2]
  rfl

/-! ## Well-formed filesystems -/

theorem WF.of_wf {fs : FS} (h : fs.wf = true) : WF fs := by
  simp only [FS.wf, Bool.and_eq_true, decide_eq_true_eq, List.all_eq_true, Bool.or_eq_true,
    beq_iff_eq, List.mem_inits] at h
  refine ⟨h.1, fun kv hkv => (h.2 kv hkv).1, fun kv hkv q hq hne => ?_⟩
  rcases (h.2 kv hkv).2 q hq with h1 | h1
  · exact absurd h1 hne
  · exact h1

theorem findEntry_mem {fs : FS} {k : Path} {e : Entry} (h : findEntry fs k = some e) :
    (k, e) ∈ fs := by
  induction fs with
  | nil => simp [findEntry] at h
  | cons kv rest ih =>
    obtain ⟨k2, e2⟩ := kv
    by_cases hk : k2 = k
    · subst hk
      simp only [findEntry, if_true, Option.some.injEq] at h
      subst h
      exact List.mem_cons_self _ _
    · simp only [findEntry, hk, if_false] at h
      exact List.mem_cons_of_mem _ (ih h)

theorem findEntry_of_mem {fs : FS} (hnd : (fs.map Prod.fst).Nodup) {k : Path} {e : Entry}
    (h : (k, e) ∈ fs) : findEntry fs k = some e := by
  induction fs with
  | nil => simp at h
  | cons kv rest ih =>
    obtain ⟨k2, e2⟩ := kv
    simp only [List.map_cons, List.nodup_cons, List.mem_map, not_exists, not_and] at hnd
    rcases List.mem_cons.mp h with h1 | h1
    · cases h1
      simp [findEntry]
    · have hk : k2 ≠ k := fun h2 => hnd.1 (k, e) h1 h2.symm
      simp only [findEntry, hk, if_false]
      exact ih hnd.2 h1

theorem childOf_eq_some {p k : Path} {x : String} : childOf p k = some x ↔ k = p ++ [x] := by
  unfold childOf
  constructor
  · intro h
    by_cases hp : p <+: k
    · obtain ⟨r, rfl⟩ := hp
      simp only [List.prefix_append, if_true, List.drop_left] at h
      match r, h with
      | [y], h => simp only [Option.some.injEq] at h; rw [h]
    · simp [hp] at h
  · intro h
    subst h
    simp

theorem mem_childNames {fs : FS} {p : Path} {x : String} :
    x ∈ childNames fs p ↔ ∃ e, (p ++ [x], e) ∈ fs := by
  unfold childNames
  simp only [List.mem_filterMap, childOf_eq_some]
  constructor
  · rintro ⟨⟨k, e⟩, hmem, hk⟩
    exact ⟨e, by simpa [← hk] using hmem⟩
  · rintro ⟨e, hmem⟩
    exact ⟨(p ++ [x], e), hmem, rfl⟩

theorem childNames_nodup {fs : FS} (hnd : (fs.map Prod.fst).Nodup) (p : Path) :
    (childNames fs p).Nodup := by
  induction fs with
  | nil => simp [childNames]
  | cons kv rest ih =>
    obtain ⟨k, e⟩ := kv
    simp only [List.map_cons, List.nodup_cons, List.mem_map, not_exists, not_and] at hnd
    have ih2 := ih hnd.2
    unfold childNames at ih2 ⊢
    rw [List.filterMap_cons]
    rcases hc : childOf p k with _ | x
    · exact ih2
    · simp only
      rw [List.nodup_cons]
      refine ⟨fun hx => ?_, ih2⟩
      obtain ⟨e2, hmem⟩ := (@mem_childNames rest p x).mp hx
      rw [childOf_eq_some] at hc
      exact hnd.1 (p ++ [x], e2) hmem hc.symm

theorem stat_of_ne_nil {fs : FS} {p : Path} (hp : p ≠ []) : stat fs p = findEntry fs p := by
  simp [stat, hp]

theorem stat_filter (fs : FS) (P : Path → Bool) (q : Path) (hq : P q = true) :
    stat (fs.filter (fun kv => P kv.1)) q = stat fs q := by
  unfold stat
  by_cases h : q = []
  · simp [h]
  · simp [h, findEntry_filter, hq]

theorem WF.filter {fs : FS} (hwf : WF fs) (P : Path → Bool)
    (hclosed : ∀ k q, P k = true → q <+: k → P q = true) :
    WF (fs.filter (fun kv => P kv.1)) := by
  refine ⟨?_, ?_, ?_⟩
  · exact hwf.nodup.sublist ((List.filter_sublist fs).map Prod.fst)
  · intro kv hkv
    exact hwf.ne_nil kv (List.mem_filter.mp hkv).1
  · intro kv hkv q hq hne
    have h1 := List.mem_filter.mp hkv
    rw [stat_filter fs P q (hclosed kv.1 q h1.2 hq)]
    exact hwf.ancestors kv h1.1 q hq hne

theorem WF.no_entry_below_file {fs : FS} (hwf : WF fs) {p : Path} {c : Content}
    (hp : stat fs p = some (Entry.file c)) {kv : Path × Entry} (hkv : kv ∈ fs)
    (hpre : p <+: kv.1) : kv.1 = p := by
  by_contra hne
  have := hwf.ancestors kv hkv p hpre (fun h => hne h.symm)
  rw [hp] at this
  cases this

theorem WF.no_entry_below_absent {fs : FS} (hwf : WF fs) {p : Path}
    (hp : stat fs p = none) {kv : Path × Entry} (hkv : kv ∈ fs) : ¬ p <+: kv.1 := by
  intro hpre
  by_cases hne : p = kv.1
  · have hnil : p ≠ [] := hne ▸ hwf.ne_nil kv hkv
    rw [stat_of_ne_nil hnil, hne, findEntry_of_mem hwf.nodup (show (kv.1, kv.2) ∈ fs from hkv)]
      at hp
    cases hp
  · have := hwf.ancestors kv hkv p hpre hne
    rw [hp] at this
    cases this

/-! ## `deleteFolder` -/

theorem deleteFolderAux_succ_dir (depth : Nat) (fs : FS) (p : Path) (include_ : Bool)
    (hdir : stat fs p = some Entry.dir) :
    deleteFolderAux (depth + 1) fs p include_ =
      ((childNames fs p).foldl (deleteFolderStep depth p) (.ok fs)).andThen fun fs1 =>
        if !include_ then .ok fs1 else rmdirSync fs1 p := by
  simp only [deleteFolderAux, existsSync, hdir, readdirSync, Option.isSome_some,
    Bool.not_true, Bool.false_eq_true, if_false]
  rfl

theorem withoutTree_wf {fs : FS} (hwf : WF fs) (p : Path) : WF (withoutTree fs p) := by
  apply WF.filter hwf (fun k => !decide (p <+: k))
  intro k q hk hq
  simp only [Bool.not_eq_true', decide_eq_false_iff_not] at hk ⊢
  exact fun h => hk (h.trans hq)

theorem unlinkSync_file {fs : FS} (hwf : WF fs) {p : Path} {c : Content}
    (hp : stat fs p = some (Entry.file c)) : unlinkSync fs p = .ok (withoutTree fs p) := by
  simp only [unlinkSync, hp, eraseEntry, withoutTree]
  congr 1
  apply List.filter_congr
  intro kv hkv
  by_cases h : p <+: kv.1
  · have := hwf.no_entry_below_file hp hkv h
    simp [h, this]
  · have : kv.1 ≠ p := fun h2 => h (h2 ▸ List.prefix_refl _)
    simp [h, this]

theorem concat_prefix_concat {p : Path} {x y : String} (h : (p ++ [x]) <+: (p ++ [y])) :
    x = y := by
  rw [List.prefix_append_right_inj] at h
  obtain ⟨r, hr⟩ := h
  have h2 : x = y ∧ r = [] := by simpa using hr
  exact h2.1

theorem foldl_deleteFolderStep (depth : Nat) (p : Path)
    (ih : ∀ fs q, WF fs → q ≠ [] → stat fs q = some Entry.dir →
      (∀ kv ∈ fs, q <+: kv.1 → kv.1.length < q.length + depth) →
      deleteFolderAux depth fs q true = .ok (withoutTree fs q)) :
    ∀ (files : List String) (fs : FS), WF fs → files.Nodup →
      (∀ x ∈ files, stat fs (p ++ [x]) ≠ none) →
      (∀ kv ∈ fs, p <+: kv.1 → kv.1.length < p.length + (depth + 1)) →
      files.foldl (deleteFolderStep depth p) (.ok fs) = .ok (withoutChildren fs p files) := by
  intro files
  induction files with
  | nil =>
    intro fs _ _ _ _
    simp [withoutChildren]
  | cons x rest ihr =>
    intro fs hwf hnd hex hbound
    rw [List.nodup_cons] at hnd
    have hstep : deleteFolderStep depth p (.ok fs) x = .ok (withoutTree fs (p ++ [x])) := by
      simp only [deleteFolderStep, Outcome.andThen]
      rcases hs : stat fs (p ++ [x]) with _ | e
      · exact absurd hs (hex x (List.mem_cons_self _ _))
      · cases e with
        | file c => exact unlinkSync_file hwf hs
        | dir =>
          apply ih fs (p ++ [x]) hwf (by simp) hs
          intro kv hkv hpre
          have := hbound kv hkv ((List.prefix_append p [x]).trans hpre)
          simp only [List.length_append, List.length_singleton]
          omega
    rw [List.foldl_cons, hstep]
    rw [ihr (withoutTree fs (p ++ [x])) (withoutTree_wf hwf _) hnd.2]
    · simp only [withoutChildren, withoutTree, List.filter_filter, List.all_cons]
      congr 1
      apply List.filter_congr
      intro kv _
      rw [Bool.and_comm]
    · intro y hy
      have hxy : ¬ (p ++ [x]) <+: (p ++ [y]) := by
        intro h
        have := concat_prefix_concat h
        exact hnd.1 (this ▸ hy)
      rw [withoutTree, stat_filter fs (fun k => !decide ((p ++ [x]) <+: k)) _ (by simpa using hxy)]
      exact hex y (List.mem_cons_of_mem _ hy)
    · intro kv hkv hpre
      exact hbound kv (List.mem_filter.mp hkv).1 hpre

theorem stat_children {fs : FS} (hwf : WF fs) (p : Path) :
    ∀ x ∈ childNames fs p, stat fs (p ++ [x]) ≠ none := by
  intro x hx
  obtain ⟨e, hmem⟩ := mem_childNames.mp hx
  rw [stat_of_ne_nil (by simp), findEntry_of_mem hwf.nodup hmem]
  simp

theorem stat_withoutChildren (fs : FS) (p : Path) (files : List String) :
    stat (withoutChildren fs p files) p = stat fs p := by
  apply stat_filter fs (fun k => files.all (fun x => !decide ((p ++ [x]) <+: k)))
  simp only [List.all_eq_true, Bool.not_eq_true', decide_eq_false_iff_not]
  intro x _ h
  have := h.length_le
  simp at this

theorem childNames_withoutChildren (fs : FS) (p : Path) :
    childNames (withoutChildren fs p (childNames fs p)) p = [] := by
  rw [List.eq_nil_iff_forall_not_mem]
  intro x hx
  obtain ⟨e, hmem⟩ := mem_childNames.mp hx
  have h1 := List.mem_filter.mp hmem
  have hx2 : x ∈ childNames fs p := mem_childNames.mpr ⟨e, h1.1⟩
  have h2 := h1.2
  simp only [List.all_eq_true, Bool.not_eq_true', decide_eq_false_iff_not] at h2
  exact h2 x hx2 (List.prefix_refl _)

theorem withoutChildren_erase {fs : FS} (hwf : WF fs) (p : Path) :
    eraseEntry (withoutChildren fs p (childNames fs p)) p = withoutTree fs p := by
  simp only [eraseEntry, withoutChildren, withoutTree, List.filter_filter]
  apply List.filter_congr
  intro kv hkv
  by_cases h : p <+: kv.1
  · simp only [h, decide_True, Bool.not_true]
    obtain ⟨r, hr⟩ := h
    cases r with
    | nil =>
      have : kv.1 = p := by simpa using hr.symm
      simp [this]
    | cons x r2 =>
      have hpre : (p ++ [x]) <+: kv.1 := ⟨r2, by simpa using hr⟩
      have hx : x ∈ childNames fs p := by
        rw [mem_childNames]
        by_cases heq : p ++ [x] = kv.1
        · exact ⟨kv.2, by rw [heq]; exact hkv⟩
        · have hs := hwf.ancestors kv hkv (p ++ [x]) hpre heq
          rw [stat_of_ne_nil (by simp)] at hs
          exact ⟨Entry.dir, findEntry_mem hs⟩
      have : (childNames fs p).all (fun x => !decide ((p ++ [x]) <+: kv.1)) = false := by
        rw [List.all_eq_false]
        exact ⟨x, hx, by simpa using hpre⟩
      simp [this]
  · have h1 : kv.1 ≠ p := fun h2 => h (h2 ▸ List.prefix_refl _)
    have h2 : (childNames fs p).all (fun x => !decide ((p ++ [x]) <+: kv.1)) = true := by
      simp only [List.all_eq_true, Bool.not_eq_true', decide_eq_false_iff_not]
      intro x _ hx
      exact h ((List.prefix_append p [x]).trans hx)
    simp [h, h1, h2]

theorem deleteFolderAux_dir (depth : Nat) :
    ∀ fs q, WF fs → q ≠ [] → stat fs q = some Entry.dir →
      (∀ kv ∈ fs, q <+: kv.1 → kv.1.length < q.length + depth) →
      deleteFolderAux depth fs q true = .ok (withoutTree fs q) := by
  induction depth with
  | zero =>
    intro fs q hwf hq hdir hbound
    rw [stat_of_ne_nil hq] at hdir
    have := hbound _ (findEntry_mem hdir) (List.prefix_refl _)
    simp at this
  | succ depth ih =>
    intro fs q hwf hq hdir hbound
    rw [deleteFolderAux_succ_dir depth fs q true hdir,
      foldl_deleteFolderStep depth q ih (childNames fs q) fs hwf
        (childNames_nodup hwf.nodup q) (stat_children hwf q) hbound]
    simp only [Outcome.andThen, Bool.not_true, Bool.false_eq_true, if_false, rmdirSync,
      stat_withoutChildren, hdir, hq, childNames_withoutChildren, if_true,
      withoutChildren_erase hwf]

theorem length_le_maxDepth {fs : FS} {kv : Path × Entry} (h : kv ∈ fs) :
    kv.1.length ≤ maxDepth fs := by
  induction fs with
  | nil => simp at h
  | cons a rest ih =>
    simp only [maxDepth, List.map_cons, List.foldr_cons]
    rcases List.mem_cons.mp h with h1 | h1
    · subst h1; exact Nat.le_max_left _ _
    · exact Nat.le_trans (ih h1) (Nat.le_max_right _ _)

theorem deleteFolder_clear {fs : FS} (hwf : WF fs) {p : Path}
    (hdir : stat fs p = some Entry.dir) :
    deleteFolder fs p false = .ok (withoutChildren fs p (childNames fs p)) := by
  unfold deleteFolder
  rw [deleteFolderAux_succ_dir (maxDepth fs) fs p false hdir,
    foldl_deleteFolderStep (maxDepth fs) p (deleteFolderAux_dir (maxDepth fs))
      (childNames fs p) fs hwf (childNames_nodup hwf.nodup p) (stat_children hwf p)]
  · simp [Outcome.andThen]
  · intro kv hkv _
    have := length_le_maxDepth hkv
    omega

theorem deleteFolder_empty_dir {fs : FS} {p : Path} (hdir : stat fs p = some Entry.dir)
    (hempty : childNames fs p = []) : deleteFolder fs p false = .ok fs := by
  unfold deleteFolder
  rw [deleteFolderAux_succ_dir (maxDepth fs) fs p false hdir, hempty]
  simp [Outcome.andThen]

/-! ## `mkdirSync` and `checkFolderWithInitOrClear` -/

theorem stat_append_single_of_absent {fs : FS} {p : Path} (hp : stat fs p = none) :
    stat (fs ++ [(p, Entry.dir)]) p = some Entry.dir := by
  have hnil : p ≠ [] := by
    intro h
    simp [stat, h] at hp
  rw [stat_of_ne_nil hnil] at hp
  rw [stat_of_ne_nil hnil, findEntry_append, hp]
  simp [findEntry]

theorem stat_append_single_not_file {fs : FS} {p q : Path}
    (hq : ∀ c, stat fs q ≠ some (Entry.file c)) :
    ∀ c, stat (fs ++ [(p, Entry.dir)]) q ≠ some (Entry.file c) := by
  intro c
  by_cases hnil : q = []
  · simp [stat, hnil]
  · have h1 := hq c
    rw [stat_of_ne_nil hnil] at h1 ⊢
    rw [findEntry_append]
    rcases hf : findEntry fs q with _ | e
    · by_cases hpq : p = q <;> simp [findEntry, hpq]
    · rw [hf] at h1
      simpa using h1

theorem mkdirFrom_ok :
    ∀ (todo : List String) (fs : FS) (done : Path), stat fs done = some Entry.dir →
      (∀ q, q <+: done ++ todo → ∀ c, stat fs q ≠ some (Entry.file c)) →
      ∃ added : FS, mkdirFrom fs done todo = .ok (fs ++ added) ∧
        (∀ kv ∈ added, kv.1 <+: done ++ todo) ∧
        stat (fs ++ added) (done ++ todo) = some Entry.dir := by
  intro todo
  induction todo with
  | nil =>
    intro fs done hdone _
    exact ⟨[], by simp [mkdirFrom], by simp, by simpa using hdone⟩
  | cons x todo ih =>
    intro fs done hdone hclear
    have hassoc : done ++ [x] ++ todo = done ++ x :: todo := by simp
    have hcur : (done ++ [x]) <+: done ++ x :: todo := ⟨todo, hassoc⟩
    rcases hs : stat fs (done ++ [x]) with _ | e
    · obtain ⟨added, hrun, hadded, hstat⟩ :=
        ih (fs ++ [(done ++ [x], Entry.dir)]) (done ++ [x])
          (stat_append_single_of_absent hs)
          (fun q hq => stat_append_single_not_file (hclear q (hassoc ▸ hq)))
      refine ⟨(done ++ [x], Entry.dir) :: added, ?_, ?_, ?_⟩
      · simp only [mkdirFrom, hs, hrun]
        simp
      · intro kv hkv
        rcases List.mem_cons.mp hkv with h1 | h1
        · rw [h1]; exact hcur
        · exact hassoc ▸ hadded kv h1
      · rw [← hassoc]
        simpa using hstat
    · cases e with
      | file c => exact absurd hs (hclear _ hcur c)
      | dir =>
        obtain ⟨added, hrun, hadded, hstat⟩ :=
          ih fs (done ++ [x]) hs (fun q hq => hclear q (hassoc ▸ hq))
        refine ⟨added, ?_, ?_, ?_⟩
        · simp only [mkdirFrom, hs, hrun]
        · intro kv hkv
          exact hassoc ▸ hadded kv hkv
        · rw [← hassoc]
          exact hstat

theorem noFileAlong_spec {fs : FS} {p : Path} (h : noFileAlong fs p = true) :
    ∀ q, q <+: p → ∀ c, stat fs q ≠ some (Entry.file c) := by
  intro q hq c hs
  simp only [noFileAlong, List.all_eq_true, List.mem_inits] at h
  have := h q hq
  rw [hs] at this
  simp at this

theorem readdirSync_empty {fs : FS} {p : Path} (hdir : stat fs p = some Entry.dir)
    (hempty : childNames fs p = []) : readdirSync fs p = .ok [] := by
  simp [readdirSync, hdir, hempty]

theorem checkFolderWithInitOrClear_empty_dir {fs : FS} {p : Path}
    (hdir : stat fs p = some Entry.dir) (hempty : childNames fs p = []) :
    checkFolderWithInitOrClear fs p = .ok fs := by
  simp [checkFolderWithInitOrClear, existsSync, hdir, deleteFolder_empty_dir hdir hempty]

theorem checkFolderWithInitOrClear_spec {fs : FS} (hwf : WF fs) {p : Path}
    (hclear : ∀ q, q <+: p → ∀ c, stat fs q ≠ some (Entry.file c)) :
    ∃ fs1, checkFolderWithInitOrClear fs p = .ok fs1 ∧ stat fs1 p = some Entry.dir ∧
      childNames fs1 p = [] := by
  rcases hs : stat fs p with _ | e
  · obtain ⟨added, hrun, hadded, hstat⟩ :=
      mkdirFrom_ok p fs [] (by simp [stat]) (by simpa using hclear)
    refine ⟨fs ++ added, ?_, by simpa using hstat, ?_⟩
    · simp only [checkFolderWithInitOrClear, existsSync, hs, mkdirSyncRecursive, hrun]
      simp
    · rw [List.eq_nil_iff_forall_not_mem]
      intro x hx
      obtain ⟨e, hmem⟩ := mem_childNames.mp hx
      rcases List.mem_append.mp hmem with h1 | h1
      · exact hwf.no_entry_below_absent hs h1 (List.prefix_append p [x])
      · have := (hadded _ h1).length_le
        simp at this
  · cases e with
    | file c => exact absurd hs (hclear p (List.prefix_refl _) c)
    | dir =>
      refine ⟨withoutChildren fs p (childNames fs p), ?_, ?_, childNames_withoutChildren fs p⟩
      · simp [checkFolderWithInitOrClear, existsSync, hs, deleteFolder_clear hwf hs]
      · rw [stat_withoutChildren]; exact hs

/-! ## Frame properties of the filesystem calls -/

theorem stat_dir_ancestors {fs : FS} (hwf : WF fs) {p q : Path}
    (hp : stat fs p = some Entry.dir) (hq : q <+: p) : stat fs q = some Entry.dir := by
  by_cases hqp : q = p
  · rw [hqp]; exact hp
  · by_cases hnil : p = []
    · subst hnil
      exact absurd (List.prefix_nil.mp hq) hqp
    · rw [stat_of_ne_nil hnil] at hp
      exact hwf.ancestors _ (findEntry_mem hp) q hq hqp

theorem stat_absent_below {fs : FS} (hwf : WF fs) {p q : Path} (hp : stat fs p = none)
    (hq : p <+: q) : stat fs q = none := by
  rcases hs : stat fs q with _ | e
  · rfl
  · have hnil : q ≠ [] := by
      intro h
      subst h
      rw [List.prefix_nil.mp hq] at hp
      simp [stat] at hp
    rw [stat_of_ne_nil hnil] at hs
    exact absurd hq (hwf.no_entry_below_absent hp (findEntry_mem hs))

theorem stat_child_of_empty {fs : FS} {p : Path} (hempty : childNames fs p = [])
    (x : String) : stat fs (p ++ [x]) = none := by
  rcases hs : stat fs (p ++ [x]) with _ | e
  · rfl
  · rw [stat_of_ne_nil (by simp)] at hs
    have : x ∈ childNames fs p := mem_childNames.mpr ⟨e, findEntry_mem hs⟩
    rw [hempty] at this
    cases this

theorem findEntry_none_not_mem {fs : FS} {k : Path} (h : findEntry fs k = none) :
    k ∉ fs.map Prod.fst := by
  induction fs with
  | nil => simp
  | cons kv rest ih =>
    obtain ⟨k2, e2⟩ := kv
    by_cases hk : k2 = k
    · simp [findEntry, hk] at h
    · simp only [findEntry, hk, if_false] at h
      simp only [List.map_cons, List.mem_cons, not_or]
      exact ⟨fun h2 => hk h2.symm, ih h⟩

theorem stat_append_of_present {fs : FS} (extra : FS) {q : Path} (h : stat fs q ≠ none) :
    stat (fs ++ extra) q = stat fs q := by
  by_cases hnil : q = []
  · simp [stat, hnil]
  · rw [stat_of_ne_nil hnil] at h ⊢
    rw [stat_of_ne_nil hnil, findEntry_append]
    rcases hf : findEntry fs q with _ | e
    · exact absurd hf h
    · rfl

theorem stat_append_single (fs : FS) (p : Path) (e : Entry) (q : Path) :
    stat (fs ++ [(p, e)]) q = stat fs q ∨ (q = p ∧ stat fs q = none) := by
  by_cases h : stat fs q = none
  · by_cases hqp : q = p
    · exact Or.inr ⟨hqp, h⟩
    · left
      have hnil : q ≠ [] := by
        intro h2
        simp [stat, h2] at h
      simp only [stat_of_ne_nil hnil] at h ⊢
      rw [findEntry_append, h]
      have : ¬ p = q := fun h3 => hqp h3.symm
      simp [findEntry, this]
  · exact Or.inl (stat_append_of_present _ h)

theorem WF.append_dir {fs : FS} (hwf : WF fs) {done : Path} {x : String}
    (hdone : stat fs done = some Entry.dir) (habsent : stat fs (done ++ [x]) = none) :
    WF (fs ++ [(done ++ [x], Entry.dir)]) := by
  have hcur : done ++ [x] ≠ [] := by simp
  rw [stat_of_ne_nil hcur] at habsent
  refine ⟨?_, ?_, ?_⟩
  · rw [List.map_append, List.nodup_append]
    refine ⟨hwf.nodup, by simp, ?_⟩
    intro a ha hb
    simp only [List.map_cons, List.map_nil, List.mem_singleton] at hb
    rw [hb] at ha
    exact findEntry_none_not_mem habsent ha
  · intro kv hkv
    rcases List.mem_append.mp hkv with h | h
    · exact hwf.ne_nil kv h
    · simp only [List.mem_singleton] at h
      rw [h]; exact hcur
  · intro kv hkv q hq hne
    rcases List.mem_append.mp hkv with h | h
    · have := hwf.ancestors kv h q hq hne
      rw [stat_append_of_present _ (by rw [this]; simp)]
      exact this
    · simp only [List.mem_singleton] at h
      rw [h] at hq hne
      have hq2 : q <+: done := by
        rcases List.prefix_concat_iff.mp hq with h1 | h1
        · exact absurd h1 hne
        · exact h1
      have := stat_dir_ancestors hwf hdone hq2
      rw [stat_append_of_present _ (by rw [this]; simp)]
      exact this

theorem mkdirFrom_spec :
    ∀ (todo : List String) (fs : FS) (done : Path), WF fs → stat fs done = some Entry.dir →
      (∀ q, q <+: done ++ todo → ∀ c, stat fs q ≠ some (Entry.file c)) →
      ∃ fs1, mkdirFrom fs done todo = .ok fs1 ∧ WF fs1 ∧
        stat fs1 (done ++ todo) = some Entry.dir ∧
        (∀ q, stat fs q ≠ none → stat fs1 q = stat fs q) ∧
        (∀ q, stat fs1 q ≠ none →
          stat fs q ≠ none ∨ (q <+: done ++ todo ∧ stat fs1 q = some Entry.dir)) := by
  intro todo
  induction todo with
  | nil =>
    intro fs done hwf hdone _
    exact ⟨fs, by simp [mkdirFrom], hwf, by simpa using hdone, fun _ _ => rfl,
      fun q h => Or.inl h⟩
  | cons x todo ih =>
    intro fs done hwf hdone hclear
    have hassoc : done ++ [x] ++ todo = done ++ x :: todo := by simp
    have hcur : (done ++ [x]) <+: done ++ x :: todo := ⟨todo, hassoc⟩
    rcases hs : stat fs (done ++ [x]) with _ | e
    · have hwf2 := hwf.append_dir hdone hs
      obtain ⟨fs1, hrun, hwf1, hstat, hkeep, hnew⟩ :=
        ih (fs ++ [(done ++ [x], Entry.dir)]) (done ++ [x]) hwf2
          (stat_append_single_of_absent hs)
          (fun q hq => stat_append_single_not_file (hclear q (hassoc ▸ hq)))
      refine ⟨fs1, ?_, hwf1, hassoc ▸ hstat, ?_, ?_⟩
      · simp only [mkdirFrom, hs, hrun]
      · intro q hq
        rw [hkeep q (by rw [stat_append_of_present _ hq]; exact hq),
          stat_append_of_present _ hq]
      · intro q hq
        rcases hnew q hq with h1 | h1
        · rcases stat_append_single fs (done ++ [x]) Entry.dir q with h2 | h2
          · left; rw [← h2]; exact h1
          · right
            refine ⟨h2.1 ▸ hcur, ?_⟩
            rw [hkeep q h1, h2.1]
            exact stat_append_single_of_absent hs
        · exact Or.inr ⟨hassoc ▸ h1.1, h1.2⟩
    · cases e with
      | file c => exact absurd hs (hclear _ hcur c)
      | dir =>
        obtain ⟨fs1, hrun, hwf1, hstat, hkeep, hnew⟩ :=
          ih fs (done ++ [x]) hwf hs (fun q hq => hclear q (hassoc ▸ hq))
        refine ⟨fs1, ?_, hwf1, hassoc ▸ hstat, hkeep, ?_⟩
        · simp only [mkdirFrom, hs, hrun]
        · intro q hq
          rcases hnew q hq with h1 | h1
          · exact Or.inl h1
          · exact Or.inr ⟨hassoc ▸ h1.1, h1.2⟩

theorem stat_filter_cases (fs : FS) (P : Path → Bool) (q : Path) :
    stat (fs.filter (fun kv => P kv.1)) q = stat fs q ∨
      stat (fs.filter (fun kv => P kv.1)) q = none := by
  by_cases hq : q = []
  · left
    simp [stat, hq]
  · by_cases h : P q = true
    · exact Or.inl (stat_filter fs P q h)
    · right
      rw [stat_of_ne_nil hq, findEntry_filter]
      simp [h]

theorem withoutChildren_wf {fs : FS} (hwf : WF fs) (p : Path) (files : List String) :
    WF (withoutChildren fs p files) := by
  apply WF.filter hwf (fun k => files.all (fun x => !decide ((p ++ [x]) <+: k)))
  intro k q hk hq
  simp only [List.all_eq_true, Bool.not_eq_true', decide_eq_false_iff_not] at hk ⊢
  exact fun x hx h => hk x hx (h.trans hq)

theorem stat_withoutChildren_outside (fs : FS) (p : Path) (files : List String) {q : Path}
    (hq : ¬ p <+: q) : stat (withoutChildren fs p files) q = stat fs q := by
  apply stat_filter fs (fun k => files.all (fun x => !decide ((p ++ [x]) <+: k)))
  simp only [List.all_eq_true, Bool.not_eq_true', decide_eq_false_iff_not]
  exact fun x _ h => hq ((List.prefix_append p [x]).trans h)

theorem checkFolderWithInitOrClear_frame {fs : FS} (hwf : WF fs) {p : Path}
    (hclear : ∀ q, q <+: p → ∀ c, stat fs q ≠ some (Entry.file c)) :
    ∃ fs1, checkFolderWithInitOrClear fs p = .ok fs1 ∧ WF fs1 ∧
      stat fs1 p = some Entry.dir ∧ childNames fs1 p = [] ∧
      (∀ q, q <+: p → stat fs1 q = some Entry.dir) ∧
      (∀ q, ¬ p <+: q → ¬ q <+: p → stat fs1 q = stat fs q) ∧
      (∀ q c, stat fs1 q = some (Entry.file c) → stat fs q = some (Entry.file c)) := by
  rcases hs : stat fs p with _ | e
  · obtain ⟨fs1, hrun, hwf1, hstat, hkeep, hnew⟩ :=
      mkdirFrom_spec p fs [] hwf (by simp [stat]) (by simpa using hclear)
    simp only [List.nil_append] at hstat hnew
    refine ⟨fs1, ?_, hwf1, hstat, ?_, ?_, ?_, ?_⟩
    · simp only [checkFolderWithInitOrClear, existsSync, hs, mkdirSyncRecursive, hrun]
      simp
    · rw [List.eq_nil_iff_forall_not_mem]
      intro x hx
      obtain ⟨e, hmem⟩ := mem_childNames.mp hx
      have hne : stat fs1 (p ++ [x]) ≠ none := by
        rw [stat_of_ne_nil (by simp), findEntry_of_mem hwf1.nodup hmem]
        simp
      rcases hnew _ hne with h1 | h1
      · exact h1 (stat_absent_below hwf hs (List.prefix_append p [x]))
      · have := h1.1.length_le
        simp at this
    · intro q hq
      exact stat_dir_ancestors hwf1 hstat hq
    · intro q _ hq2
      rcases hq : stat fs q with _ | e2
      · rcases hq1 : stat fs1 q with _ | e1
        · rfl
        · rcases hnew q (by rw [hq1]; simp) with h1 | h1
          · exact absurd hq h1
          · exact absurd h1.1 hq2
      · rw [hkeep q (by rw [hq]; simp), hq]
    · intro q c hq
      rcases hnew q (by rw [hq]; simp) with h1 | h1
      · rw [← hkeep q h1]; exact hq
      · rw [hq] at h1
        cases h1.2
  · cases e with
    | file c => exact absurd hs (hclear p (List.prefix_refl _) c)
    | dir =>
      refine ⟨withoutChildren fs p (childNames fs p), ?_, withoutChildren_wf hwf _ _, ?_,
        childNames_withoutChildren fs p, ?_, ?_, ?_⟩
      · simp [checkFolderWithInitOrClear, existsSync, hs, deleteFolder_clear hwf hs]
      · rw [stat_withoutChildren]; exact hs
      · intro q hq
        exact stat_dir_ancestors (withoutChildren_wf hwf _ _)
          (by rw [stat_withoutChildren]; exact hs) hq
      · intro q hq _
        exact stat_withoutChildren_outside fs p _ hq
      · intro q c hq
        rcases stat_filter_cases fs
          (fun k => (childNames fs p).all (fun x => !decide ((p ++ [x]) <+: k))) q with h | h
        · rw [← h]; exact hq
        · rw [withoutChildren, h] at hq
          cases hq

theorem WF.setEntry_file {fs : FS} (hwf : WF fs) {p : Path} (c : Content) (hp : p ≠ [])
    (hparent : stat fs p.dropLast = some Entry.dir) (hnotdir : stat fs p ≠ some Entry.dir) :
    WF (setEntry fs p (Entry.file c)) := by
  have hframe : ∀ q, stat fs q = some Entry.dir →
      stat (setEntry fs p (Entry.file c)) q = some Entry.dir := by
    intro q hq
    rw [stat_setEntry hp]
    have : q ≠ p := fun h => hnotdir (h ▸ hq)
    simp [this, hq]
  refine ⟨?_, ?_, ?_⟩
  · unfold setEntry eraseEntry
    rw [List.map_append, List.nodup_append]
    refine ⟨hwf.nodup.sublist ((List.filter_sublist fs).map Prod.fst), by simp, ?_⟩
    intro a ha hb
    simp only [List.map_cons, List.map_nil, List.mem_singleton] at hb
    obtain ⟨kv, hkv, hk⟩ := List.mem_map.mp ha
    have := (List.mem_filter.mp hkv).2
    simp only [decide_eq_true_eq] at this
    exact this (hk.trans hb)
  · intro kv hkv
    rcases List.mem_append.mp hkv with h | h
    · exact hwf.ne_nil kv (List.mem_filter.mp h).1
    · simp only [List.mem_singleton] at h
      rw [h]; exact hp
  · intro kv hkv q hq hne
    rcases List.mem_append.mp hkv with h | h
    · exact hframe q (hwf.ancestors kv (List.mem_filter.mp h).1 q hq hne)
    · simp only [List.mem_singleton] at h
      rw [h] at hq hne
      have hq2 : q <+: p.dropLast := by
        have hp2 : p = p.dropLast ++ [p.getLast hp] := (List.dropLast_append_getLast hp).symm
        rw [hp2] at hq
        rcases List.prefix_concat_iff.mp hq with h1 | h1
        · exact absurd (h1.trans hp2.symm) hne
        · exact h1
      exact hframe q (stat_dir_ancestors hwf hparent hq2)

theorem writeFileSync_step {fs : FS} (hwf : WF fs) {d : Path} (name : String) (c : Content)
    (hdir : stat fs d = some Entry.dir) (htarget : stat fs (d ++ [name]) ≠ some Entry.dir) :
    writeFileSync fs (d ++ [name]) c = .ok (setEntry fs (d ++ [name]) (Entry.file c)) ∧
      WF (setEntry fs (d ++ [name]) (Entry.file c)) ∧
      ∀ q, stat (setEntry fs (d ++ [name]) (Entry.file c)) q =
        if q = d ++ [name] then some (Entry.file c) else stat fs q := by
  have hp : d ++ [name] ≠ [] := by simp
  have hparent : stat fs (d ++ [name]).dropLast = some Entry.dir := by simpa using hdir
  exact ⟨writeFileSync_ok c hp hparent htarget, hwf.setEntry_file c hp hparent htarget,
    fun q => stat_setEntry hp fs _ q⟩

theorem runCalls_threw (e : JsError) (fs : FS) (calls : List FsCall) :
    calls.foldl (fun (r : Outcome) (call : FsCall) => r.andThen fun fs => call.run fs)
      (.threw e fs) = .threw e fs := by
  induction calls with
  | nil => rfl
  | cons a rest ih => simpa [List.foldl_cons, Outcome.andThen] using ih

theorem runCalls_cons (fs : FS) (call : FsCall) (calls : List FsCall) :
    runCalls fs (call :: calls) = (call.run fs).andThen fun fs1 => runCalls fs1 calls := by
  unfold runCalls
  rw [List.foldl_cons]
  rcases h : call.run fs with fs1 | ⟨e, fs1⟩
  · simp [Outcome.andThen, h]
  · simp only [Outcome.andThen, h]
    exact runCalls_threw e fs1 calls

theorem runCalls_nil (fs : FS) : runCalls fs [] = .ok fs := rfl

/-! ## The calls of `initDirectory` in Multi mode -/

theorem sourcesBlock_run {fs : FS} (hwf : WF fs) {src : Path} (types entry : String)
    (rest : List FsCall)
    (hclear : ∀ q, q <+: src → ∀ c, stat fs q ≠ some (Entry.file c)) :
    ∃ fs3, runCalls fs (sourcesBlock src types entry ++ rest) = runCalls fs3 rest ∧
      WF fs3 ∧ hasSources fs3 src types ∧
      (∀ q, q <+: src → stat fs3 q = some Entry.dir) ∧
      (∀ q, ¬ src <+: q → ¬ q <+: src → stat fs3 q = stat fs q) ∧
      (∀ q c, stat fs3 q = some (Entry.file c) →
        stat fs q = some (Entry.file c) ∨ src <+: q) := by
  obtain ⟨fs1, hrun1, hwf1, hdir1, hempty1, hanc1, hframe1, hfile1⟩ :=
    checkFolderWithInitOrClear_frame hwf hclear
  have htypes1 : stat fs1 (src ++ ["@types.ts"]) = none := stat_child_of_empty hempty1 _
  have hindex1 : stat fs1 (src ++ ["index.ts"]) = none := stat_child_of_empty hempty1 _
  obtain ⟨hrun2, hwf2, hstat2⟩ :=
    writeFileSync_step hwf1 "@types.ts" (Content.text types) hdir1 (by rw [htypes1]; simp)
  have hne1 : src ≠ src ++ ["@types.ts"] := by
    intro h
    have := congrArg List.length h
    simp at this
  have hne2 : src ++ ["index.ts"] ≠ src ++ ["@types.ts"] := by
    intro h
    have h2 := List.append_cancel_left h
    simp at h2
  have hne3 : src ≠ src ++ ["index.ts"] := by
    intro h
    have := congrArg List.length h
    simp at this
  have hdir2 : stat (setEntry fs1 (src ++ ["@types.ts"]) (Entry.file (Content.text types)))
      src = some Entry.dir := by
    rw [hstat2, if_neg hne1]; exact hdir1
  have hindex2 : stat (setEntry fs1 (src ++ ["@types.ts"]) (Entry.file (Content.text types)))
      (src ++ ["index.ts"]) = none := by
    rw [hstat2, if_neg hne2]; exact hindex1
  obtain ⟨hrun3, hwf3, hstat3⟩ :=
    writeFileSync_step hwf2 "index.ts" (Content.text entry) hdir2 (by rw [hindex2]; simp)
  refine ⟨_, ?_, hwf3, ⟨?_, ?_, ⟨entry, ?_⟩⟩, ?_, ?_, ?_⟩
  · simp only [sourcesBlock, List.cons_append, List.nil_append, runCalls_cons, FsCall.run,
      hrun1, hrun2, hrun3, Outcome.andThen]
  · rw [hstat3, if_neg hne3]; exact hdir2
  · rw [hstat3, if_neg (fun h => hne2 h.symm), hstat2, if_pos rfl]
  · rw [hstat3, if_pos rfl]
  · intro q hq
    have h1 : q ≠ src ++ ["index.ts"] := by
      intro h
      have := hq.length_le
      simp [h] at this
    have h2 : q ≠ src ++ ["@types.ts"] := by
      intro h
      have := hq.length_le
      simp [h] at this
    rw [hstat3, if_neg h1, hstat2, if_neg h2]
    exact hanc1 q hq
  · intro q hq1 hq2
    have h1 : q ≠ src ++ ["index.ts"] := fun h => hq1 (h ▸ List.prefix_append src _)
    have h2 : q ≠ src ++ ["@types.ts"] := fun h => hq1 (h ▸ List.prefix_append src _)
    rw [hstat3, if_neg h1, hstat2, if_neg h2]
    exact hframe1 q hq1 hq2
  · intro q c hq
    by_cases hsrc : src <+: q
    · exact Or.inr hsrc
    · left
      have h1 : q ≠ src ++ ["index.ts"] := fun h => hsrc (h ▸ List.prefix_append src _)
      have h2 : q ≠ src ++ ["@types.ts"] := fun h => hsrc (h ▸ List.prefix_append src _)
      rw [hstat3, if_neg h1, hstat2, if_neg h2] at hq
      exact hfile1 q c hq

theorem src_prefix_inj {pk : Path} {g f : String}
    (h : (pk ++ [g, "src"]) <+: (pk ++ [f, "src"])) : g = f := by
  rw [List.prefix_append_right_inj] at h
  obtain ⟨r, hr⟩ := h
  have h2 : g = f ∧ r = [] := by simpa using hr
  exact h2.1

theorem src_unrelated {pk : Path} {g f : String} (hgf : g ≠ f) {q : Path}
    (hq : (pk ++ [g, "src"]) <+: q) :
    ¬ (pk ++ [f, "src"]) <+: q ∧ ¬ q <+: (pk ++ [f, "src"]) := by
  constructor
  · intro h
    exact hgf (src_prefix_inj (List.prefix_of_prefix_length_le hq h (by simp)))
  · intro h
    exact hgf (src_prefix_inj (hq.trans h))

theorem prefix_src_cases {pk : Path} {f : String} {q : Path} (hq : q <+: pk ++ [f, "src"]) :
    q = pk ++ [f, "src"] ∨ q = pk ++ [f] ∨ q <+: pk := by
  have h1 : pk ++ [f, "src"] = (pk ++ [f]) ++ ["src"] := by simp
  rw [h1] at hq
  rcases List.prefix_concat_iff.mp hq with h | h
  · exact Or.inl (h.trans h1.symm)
  · rcases List.prefix_concat_iff.mp h with h2 | h2
    · exact Or.inr (Or.inl h2)
    · exact Or.inr (Or.inr h2)

theorem PackagesReady.clear {fs : FS} {pk : Path} (h : PackagesReady fs pk) (f : String) :
    ∀ q, q <+: pk ++ [f, "src"] → ∀ c, stat fs q ≠ some (Entry.file c) := by
  intro q hq c
  rcases prefix_src_cases hq with h1 | h1 | h1
  · rw [h1]; exact h.2.2.2 f c
  · rw [h1]; exact h.2.2.1 f c
  · rw [stat_dir_ancestors h.1 h.2.1 h1]; simp

theorem hasSources_of_frame {fs fs1 : FS} {src : Path} {types : String}
    (hframe : ∀ q, src <+: q → stat fs1 q = stat fs q) (h : hasSources fs src types) :
    hasSources fs1 src types := by
  obtain ⟨h1, h2, entry, h3⟩ := h
  refine ⟨?_, ?_, entry, ?_⟩
  · rw [hframe src (List.prefix_refl _)]; exact h1
  · rw [hframe _ (List.prefix_append src _)]; exact h2
  · rw [hframe _ (List.prefix_append src _)]; exact h3

theorem packagesReady_after {fs fs3 : FS} {pk : Path} {f : String}
    (h : PackagesReady fs pk) (hwf3 : WF fs3)
    (hanc : ∀ q, q <+: pk ++ [f, "src"] → stat fs3 q = some Entry.dir)
    (hfile : ∀ q c, stat fs3 q = some (Entry.file c) →
      stat fs q = some (Entry.file c) ∨ (pk ++ [f, "src"]) <+: q) :
    PackagesReady fs3 pk := by
  refine ⟨hwf3, hanc pk ⟨[f, "src"], rfl⟩, ?_, ?_⟩
  · intro g c hg
    rcases hfile _ c hg with h1 | h1
    · exact h.2.2.1 g c h1
    · have := h1.length_le
      simp at this
  · intro g c hg
    rcases hfile _ c hg with h1 | h1
    · exact h.2.2.2 g c h1
    · have hfg := src_prefix_inj h1
      rw [← hfg, hanc _ (List.prefix_refl _)] at hg
      cases hg

theorem packages_block {fs : FS} {pk : Path} (h : PackagesReady fs pk) (f types entry : String)
    (rest : List FsCall) :
    ∃ fs3, runCalls fs (sourcesBlock (pk ++ [f, "src"]) types entry ++ rest) =
        runCalls fs3 rest ∧
      PackagesReady fs3 pk ∧ hasSources fs3 (pk ++ [f, "src"]) types ∧
      ∀ g, g ≠ f → ∀ q, (pk ++ [g, "src"]) <+: q → stat fs3 q = stat fs q := by
  obtain ⟨fs3, hrun, hwf3, hsrc, hanc, hframe, hfile⟩ :=
    sourcesBlock_run h.1 types entry rest (h.clear f)
  refine ⟨fs3, hrun, packagesReady_after h hwf3 hanc hfile, hsrc, ?_⟩
  intro g hgf q hq
  obtain ⟨h1, h2⟩ := @src_unrelated pk g f hgf q hq
  exact hframe q h1 h2

theorem packages_clear {fs : FS} {pk : Path} (h : PackagesReady fs pk) (f : String) :
    ∃ fs1, checkFolderWithInitOrClear fs (pk ++ [f, "src"]) = .ok fs1 ∧
      isEmptyDir fs1 (pk ++ [f, "src"]) ∧
      ∀ g, g ≠ f → ∀ q, (pk ++ [g, "src"]) <+: q → stat fs1 q = stat fs q := by
  obtain ⟨fs1, hrun, _, hdir, hempty, _, hframe, _⟩ :=
    checkFolderWithInitOrClear_frame h.1 (h.clear f)
  refine ⟨fs1, hrun, ⟨hdir, readdirSync_empty hdir hempty⟩, ?_⟩
  intro g hgf q hq
  obtain ⟨h1, h2⟩ := @src_unrelated pk g f hgf q hq
  exact hframe q h1 h2

theorem splitChars_of_not_mem (sep : Char) :
    ∀ cs : List Char, sep ∉ cs → splitChars sep cs = [cs] := by
  intro cs
  induction cs with
  | nil => intro _; rfl
  | cons c cs ih =>
    intro h
    simp only [List.mem_cons, not_or] at h
    have hc : ¬ c = sep := fun h2 => h.1 h2.symm
    simp [splitChars, hc, ih h.2]

theorem joinPath_plain (base : Path) {name : String} (h : isPlainName name = true) :
    joinPath base name = base ++ [name] := by
  simp only [isPlainName, Bool.and_eq_true, decide_eq_true_eq, Bool.not_eq_true'] at h
  obtain ⟨⟨⟨h1, h2⟩, h3⟩, h4⟩ := h
  have h5 : '/' ∉ name.data := by
    intro hmem
    have : name.data.contains '/' = true := by simpa using hmem
    rw [h4] at this
    cases this
  have hseg : pathSegments name = [name] := by
    simp [pathSegments, splitChars_of_not_mem '/' name.data h5]
  simp [joinPath, hseg, h1, h2, h3]

theorem joinPath_scripts (rootPath : Path) :
    joinPath rootPath "/scripts" = rootPath ++ ["scripts"] := by
  have h : pathSegments "/scripts" = ["", "scripts"] := by decide
  simp [joinPath, h]

theorem joinPath_packages (rootPath : Path) :
    joinPath rootPath "/packages" = rootPath ++ ["packages"] := by
  have h : pathSegments "/packages" = ["", "packages"] := by decide
  simp [joinPath, h]

theorem joinPath_src (dir : Path) : joinPath dir "/src" = dir ++ ["src"] := by
  have h : pathSegments "/src" = ["", "src"] := by decide
  simp [joinPath, h]

theorem joinPath_src_types (dir : Path) :
    joinPath dir "src/@types.ts" = dir ++ ["src", "@types.ts"] := by
  have h : pathSegments "src/@types.ts" = ["src", "@types.ts"] := by decide
  simp [joinPath, h]

theorem joinPath_src_index (dir : Path) :
    joinPath dir "src/index.ts" = dir ++ ["src", "index.ts"] := by
  have h : pathSegments "src/index.ts" = ["src", "index.ts"] := by decide
  simp [joinPath, h]

theorem initDirectoryCalls_multi (rootPath : Path) (options : Options)
    (hbase : isPlainName (pathBasename rootPath) = true) :
    initDirectoryCalls rootPath options Mode.PACKAGES =
      FsCall.checkFolderWithInitOrClear (rootPath ++ ["scripts"]) ::
      FsCall.checkFolderWithInitOrClear (rootPath ++ ["packages"]) ::
      (sourcesBlock (rootPath ++ ["packages"] ++ ["typings", "src"]) (typesDeclaration options)
          "import \"./@types\";" ++
        (sourcesBlock (rootPath ++ ["packages"] ++ ["helpers", "src"])
            (typesDeclaration options) (importTypings options) ++
          (sourcesBlock (rootPath ++ ["packages"] ++ [pathBasename rootPath, "src"])
              (typesDeclaration options) (importTypings options) ++
            (if options.isNeedTest then
              [FsCall.checkFolderWithInitOrClear (rootPath ++ ["packages"] ++ ["test", "src"])]
            else [])))) := by
  have h1 : joinPath (rootPath ++ ["packages"]) "typings" = rootPath ++ ["packages"] ++ ["typings"] :=
    joinPath_plain _ (by decide)
  have h2 : joinPath (rootPath ++ ["packages"]) "helpers" = rootPath ++ ["packages"] ++ ["helpers"] :=
    joinPath_plain _ (by decide)
  have h3 : joinPath (rootPath ++ ["packages"]) "test" = rootPath ++ ["packages"] ++ ["test"] :=
    joinPath_plain _ (by decide)
  have h4 := joinPath_plain (rootPath ++ ["packages"]) hbase
  unfold initDirectoryCalls
  simp only [joinPath_scripts, joinPath_packages, h1, h2, h3, h4, initDir, joinPath_src,
    joinPath_src_types, joinPath_src_index, sourcesBlock]
  cases options.isNeedTest <;> simp

theorem packagesReady_of_cleared {fs : FS} (hwf : WF fs) {rootPath : Path}
    (hscripts : ∀ q, q <+: rootPath ++ ["scripts"] → ∀ c, stat fs q ≠ some (Entry.file c))
    (hpackages : ∀ c, stat fs (rootPath ++ ["packages"]) ≠ some (Entry.file c))
    (rest : List FsCall) :
    ∃ fs2,
      runCalls fs
          (FsCall.checkFolderWithInitOrClear (rootPath ++ ["scripts"]) ::
            FsCall.checkFolderWithInitOrClear (rootPath ++ ["packages"]) :: rest) =
        runCalls fs2 rest ∧
      PackagesReady fs2 (rootPath ++ ["packages"]) := by
  obtain ⟨fs1, hrun1, hwf1, _, _, hanc1, _, hfile1⟩ :=
    checkFolderWithInitOrClear_frame hwf hscripts
  have hclear1 : ∀ q, q <+: rootPath ++ ["packages"] →
      ∀ c, stat fs1 q ≠ some (Entry.file c) := by
    intro q hq c hs
    rcases List.prefix_concat_iff.mp hq with h | h
    · rw [h] at hs
      exact hpackages c (hfile1 _ c hs)
    · rw [hanc1 q (h.trans (List.prefix_append rootPath _))] at hs
      cases hs
  obtain ⟨fs2, hrun2, hwf2, hdir2, hempty2, _, _, _⟩ :=
    checkFolderWithInitOrClear_frame hwf1 hclear1
  refine ⟨fs2, ?_, hwf2, hdir2, ?_, ?_⟩
  · simp only [runCalls_cons, FsCall.run, hrun1, hrun2, Outcome.andThen]
  · intro g c hs
    rw [stat_child_of_empty hempty2 g] at hs
    cases hs
  · intro g c hs
    have h1 : (rootPath ++ ["packages"] ++ [g]) <+: (rootPath ++ ["packages"] ++ [g, "src"]) :=
      ⟨["src"], by simp⟩
    rw [stat_absent_below hwf2 (stat_child_of_empty hempty2 g) h1] at hs
    cases hs

theorem initDirectory_multi_sources {fs : FS} (hwf : WF fs) (rootPath : Path)
    (options : Options)
    (hscripts : ∀ q, q <+: rootPath ++ ["scripts"] → ∀ c, stat fs q ≠ some (Entry.file c))
    (hpackages : ∀ c, stat fs (rootPath ++ ["packages"]) ≠ some (Entry.file c))
    (hbase : isPlainName (pathBasename rootPath) = true) :
    ∃ fs1, initDirectory fs rootPath options Mode.PACKAGES = .ok fs1 ∧
      (∀ folder ∈ ["typings", "helpers", pathBasename rootPath],
        (options.isNeedTest = true → folder ≠ "test") →
        hasSources fs1 (rootPath ++ ["packages"] ++ [folder, "src"])
          (typesDeclaration options)) ∧
      (options.isNeedTest = true →
        isEmptyDir fs1 (rootPath ++ ["packages"] ++ ["test", "src"])) := by
  obtain ⟨fs2, hrun2, hready2⟩ := packagesReady_of_cleared hwf hscripts hpackages
    (sourcesBlock (rootPath ++ ["packages"] ++ ["typings", "src"]) (typesDeclaration options)
        "import \"./@types\";" ++
      (sourcesBlock (rootPath ++ ["packages"] ++ ["helpers", "src"])
          (typesDeclaration options) (importTypings options) ++
        (sourcesBlock (rootPath ++ ["packages"] ++ [pathBasename rootPath, "src"])
            (typesDeclaration options) (importTypings options) ++
          (if options.isNeedTest then
            [FsCall.checkFolderWithInitOrClear (rootPath ++ ["packages"] ++ ["test", "src"])]
          else []))))
  obtain ⟨fs3, hrun3, hready3, hsrc3, _⟩ := packages_block hready2 "typings"
    (typesDeclaration options) "import \"./@types\";"
    (sourcesBlock (rootPath ++ ["packages"] ++ ["helpers", "src"])
        (typesDeclaration options) (importTypings options) ++
      (sourcesBlock (rootPath ++ ["packages"] ++ [pathBasename rootPath, "src"])
          (typesDeclaration options) (importTypings options) ++
        (if options.isNeedTest then
          [FsCall.checkFolderWithInitOrClear (rootPath ++ ["packages"] ++ ["test", "src"])]
        else [])))
  obtain ⟨fs4, hrun4, hready4, hsrc4, hframe4⟩ := packages_block hready3 "helpers"
    (typesDeclaration options) (importTypings options)
    (sourcesBlock (rootPath ++ ["packages"] ++ [pathBasename rootPath, "src"])
        (typesDeclaration options) (importTypings options) ++
      (if options.isNeedTest then
        [FsCall.checkFolderWithInitOrClear (rootPath ++ ["packages"] ++ ["test", "src"])]
      else []))
  obtain ⟨fs5, hrun5, hready5, hsrc5, hframe5⟩ := packages_block hready4
    (pathBasename rootPath) (typesDeclaration options) (importTypings options)
    (if options.isNeedTest then
      [FsCall.checkFolderWithInitOrClear (rootPath ++ ["packages"] ++ ["test", "src"])]
    else [])
  have hrun : initDirectory fs rootPath options Mode.PACKAGES =
      runCalls fs5
        (if options.isNeedTest then
          [FsCall.checkFolderWithInitOrClear (rootPath ++ ["packages"] ++ ["test", "src"])]
        else []) := by
    rw [initDirectory, initDirectoryCalls_multi rootPath options hbase, hrun2, hrun3, hrun4,
      hrun5]
  have hall5 : ∀ folder ∈ ["typings", "helpers", pathBasename rootPath],
      hasSources fs5 (rootPath ++ ["packages"] ++ [folder, "src"])
        (typesDeclaration options) := by
    intro folder hf
    by_cases hb : folder = pathBasename rootPath
    · rw [hb]; exact hsrc5
    · simp only [List.mem_cons, List.mem_singleton, List.not_mem_nil, or_false] at hf
      rcases hf with h | h | h
      · refine hasSources_of_frame (hframe5 folder hb) ?_
        refine hasSources_of_frame (hframe4 folder (by rw [h]; decide)) ?_
        rw [h]; exact hsrc3
      · refine hasSources_of_frame (hframe5 folder hb) ?_
        rw [h]; exact hsrc4
      · exact absurd h hb
  cases ht : options.isNeedTest with
  | false =>
    refine ⟨fs5, ?_, fun folder hf _ => hall5 folder hf, fun h => by cases h⟩
    rw [hrun, ht]
    rfl
  | true =>
    obtain ⟨fs6, hrun6, hempty6, hframe6⟩ := packages_clear hready5 "test"
    refine ⟨fs6, ?_, ?_, fun _ => hempty6⟩
    · rw [hrun, ht]
      simp only [if_true, runCalls_cons, FsCall.run, hrun6, Outcome.andThen, runCalls_nil]
    · intro folder hf hne
      exact hasSources_of_frame (hframe6 folder (hne rfl)) (hall5 folder hf)

/-! ## Sequences of `writeFileSync` calls -/

theorem writable_spec {fs : FS} {p : Path} (h : writable fs p = true) :
    p ≠ [] ∧ stat fs p.dropLast = some Entry.dir ∧ stat fs p ≠ some Entry.dir := by
  simpa [writable, and_assoc] using h

theorem runCalls_writes {fs0 : FS} :
    ∀ (writes : List (Path × Content)) (fs : FS),
      (∀ q, stat fs q = stat fs0 q ∨
        ((∃ c, stat fs q = some (Entry.file c)) ∧ stat fs0 q ≠ some Entry.dir)) →
      (∀ w ∈ writes, writable fs0 w.1 = true) →
      runCalls fs (writes.map (fun w => FsCall.writeFileSync w.1 w.2)) =
        .ok (applyWrites fs writes) := by
  intro writes
  induction writes with
  | nil => intro fs _ _; rfl
  | cons w ws ih =>
    intro fs hrel hw
    obtain ⟨hp, hparent, hnotdir⟩ := writable_spec (hw w (List.mem_cons_self _ _))
    have hparent1 : stat fs w.1.dropLast = some Entry.dir := by
      rcases hrel w.1.dropLast with h | h
      · rw [h]; exact hparent
      · exact absurd hparent h.2
    have hnotdir1 : stat fs w.1 ≠ some Entry.dir := by
      rcases hrel w.1 with h | h
      · rw [h]; exact hnotdir
      · obtain ⟨c, hc⟩ := h.1
        rw [hc]; simp
    have hstep := writeFileSync_ok w.2 hp hparent1 hnotdir1
    rw [List.map_cons, runCalls_cons]
    simp only [FsCall.run, hstep, Outcome.andThen, applyWrites]
    apply ih
    · intro q
      rw [stat_setEntry hp]
      by_cases hq : q = w.1
      · right
        rw [hq]
        exact ⟨⟨w.2, by simp⟩, hnotdir⟩
      · simp only [hq, if_false]
        exact hrel q
    · intro w2 hw2
      exact hw w2 (List.mem_cons_of_mem _ hw2)

theorem stat_applyWrites :
    ∀ (writes : List (Path × Content)) (fs : FS), (∀ w ∈ writes, w.1 ≠ []) → ∀ q,
      stat (applyWrites fs writes) q =
        match lastWrite writes q with
        | some c => some (Entry.file c)
        | none => stat fs q := by
  intro writes
  induction writes with
  | nil => intro fs _ q; rfl
  | cons w ws ih =>
    intro fs hne q
    rw [applyWrites, ih _ (fun w2 hw2 => hne w2 (List.mem_cons_of_mem _ hw2)) q]
    simp only [lastWrite]
    rcases lastWrite ws q with _ | c
    · simp only
      rw [stat_setEntry (hne w (List.mem_cons_self _ _))]
      by_cases hq : q = w.1
      · simp [hq]
      · have : ¬ w.1 = q := fun h => hq h.symm
        simp [hq, this]
    · rfl

theorem runCalls_writes_ok {fs : FS} (writes : List (Path × Content))
    (hw : ∀ w ∈ writes, writable fs w.1 = true) :
    runCalls fs (writes.map (fun w => FsCall.writeFileSync w.1 w.2)) =
        .ok (applyWrites fs writes) ∧
      ∀ q, stat (applyWrites fs writes) q =
        match lastWrite writes q with
        | some c => some (Entry.file c)
        | none => stat fs q :=
  ⟨runCalls_writes writes fs (fun _ => Or.inl rfl) hw,
    stat_applyWrites writes fs (fun w h => (writable_spec (hw w h)).1)⟩

theorem joinPath_literal3 (rootPath : Path) {rel a b c : String}
    (hseg : pathSegments rel = [a, b, c])
    (ha : a ≠ "" ∧ a ≠ "." ∧ a ≠ "..") (hb : b ≠ "" ∧ b ≠ "." ∧ b ≠ "..")
    (hc : c ≠ "" ∧ c ≠ "." ∧ c ≠ "..") : joinPath rootPath rel = rootPath ++ [a, b, c] := by
  simp [joinPath, hseg, ha.1, ha.2.1, ha.2.2, hb.1, hb.2.1, hb.2.2, hc.1, hc.2.1, hc.2.2]

theorem manifestPath_typings (rootPath : Path) (options : Options) :
    SubPackage.manifestPath rootPath options .typings =
      rootPath ++ ["packages", "typings", "package.json"] :=
  joinPath_literal3 rootPath (by decide) (by decide) (by decide) (by decide)

theorem manifestPath_helpers (rootPath : Path) (options : Options) :
    SubPackage.manifestPath rootPath options .helpers =
      rootPath ++ ["packages", "helpers", "package.json"] :=
  joinPath_literal3 rootPath (by decide) (by decide) (by decide) (by decide)

theorem manifestPath_test (rootPath : Path) (options : Options) :
    SubPackage.manifestPath rootPath options .test =
      rootPath ++ ["packages", "test", "package.json"] :=
  joinPath_literal3 rootPath (by decide) (by decide) (by decide) (by decide)

theorem configPath_typings (rootPath : Path) :
    SubPackage.configPath rootPath .typings =
      rootPath ++ ["packages", "typings", "tsconfig.json"] :=
  joinPath_literal3 rootPath (by decide) (by decide) (by decide) (by decide)

theorem configPath_helpers (rootPath : Path) :
    SubPackage.configPath rootPath .helpers =
      rootPath ++ ["packages", "helpers", "tsconfig.json"] :=
  joinPath_literal3 rootPath (by decide) (by decide) (by decide) (by decide)

theorem configPath_test (rootPath : Path) :
    SubPackage.configPath rootPath .test =
      rootPath ++ ["packages", "test", "tsconfig.json"] :=
  joinPath_literal3 rootPath (by decide) (by decide) (by decide) (by decide)

theorem copyPackageJsonWrites_eq (pkg : PackageJson) (options : Options) :
    copyPackageJsonWrites pkg options =
      [("packages/typings/package.json", SubPackage.manifest pkg .typings),
        ("packages/helpers/package.json", SubPackage.manifest pkg .helpers),
        ("packages/" ++ realProjectName options ++ "/package.json",
          SubPackage.manifest pkg .main)] ++
      (if options.isNeedTest then
        [("packages/test/package.json", SubPackage.manifest pkg .test)]
      else []) := by
  have hne : pkg.name ++ "-helpers" ≠ pkg.name ++ "-typings" :=
    append_ne_append_left _ (by decide)
  unfold copyPackageJsonWrites
  cases h : options.isNeedTest <;>
    simp [SubPackage.manifest, SubPackage.manifestName, SubPackage.upstream, StrObj.set_nil,
      StrObj.set_singleton_ne hne]

theorem manifestPath_distinct (rootPath : Path) (options : Options) :
    SubPackage.manifestPath rootPath options .typings ≠
        SubPackage.manifestPath rootPath options .helpers ∧
      SubPackage.manifestPath rootPath options .typings ≠
        SubPackage.manifestPath rootPath options .test ∧
      SubPackage.manifestPath rootPath options .helpers ≠
        SubPackage.manifestPath rootPath options .test := by
  rw [manifestPath_typings, manifestPath_helpers, manifestPath_test]
  refine ⟨?_, ?_, ?_⟩ <;> simp

theorem readPackageJson_of_stat {fs : FS} {p : Path} {m : PackageJson}
    (h : stat fs p = some (Entry.file (Content.packageJson m))) :
    readPackageJson fs p = .ok m := by
  simp [readPackageJson, readFileSync, h]

theorem copyPackageJson_run (fs : FS) (rootPath : Path) (options : Options)
    (pkg : PackageJson)
    (hread : readPackageJson fs (joinPath rootPath "package.json") = .ok pkg)
    (hdirs : ∀ s ∈ SubPackage.generated options.isNeedTest,
      writable fs (s.manifestPath rootPath options) = true) :
    ∃ fs1, copyPackageJson fs rootPath options Mode.PACKAGES = .ok fs1 ∧
      (SubPackage.manifestPath rootPath options .main ≠
          SubPackage.manifestPath rootPath options .typings →
        stat fs1 (SubPackage.manifestPath rootPath options .typings) =
          some (Entry.file (Content.packageJson (SubPackage.manifest pkg .typings)))) ∧
      (SubPackage.manifestPath rootPath options .main ≠
          SubPackage.manifestPath rootPath options .helpers →
        stat fs1 (SubPackage.manifestPath rootPath options .helpers) =
          some (Entry.file (Content.packageJson (SubPackage.manifest pkg .helpers)))) ∧
      ((options.isNeedTest = true →
          SubPackage.manifestPath rootPath options .main ≠
            SubPackage.manifestPath rootPath options .test) →
        stat fs1 (SubPackage.manifestPath rootPath options .main) =
          some (Entry.file (Content.packageJson (SubPackage.manifest pkg .main)))) ∧
      (options.isNeedTest = true →
        stat fs1 (SubPackage.manifestPath rootPath options .test) =
          some (Entry.file (Content.packageJson (SubPackage.manifest pkg .test)))) ∧
      (options.isNeedTest = false →
        SubPackage.manifestPath rootPath options .main ≠
          SubPackage.manifestPath rootPath options .test →
        stat fs1 (SubPackage.manifestPath rootPath options .test) =
          stat fs (SubPackage.manifestPath rootPath options .test)) := by
  obtain ⟨hTH, hTX, hHX⟩ := manifestPath_distinct rootPath options
  have hcopy : copyPackageJson fs rootPath options Mode.PACKAGES =
      runCalls fs
        (((copyPackageJsonWrites pkg options).map
            (fun w => (joinPath rootPath w.1, Content.packageJson w.2))).map
          (fun w => FsCall.writeFileSync w.1 w.2)) := by
    simp [copyPackageJson, hread, List.map_map, Function.comp_def]
  cases ht : options.isNeedTest with
  | false =>
    rw [ht] at hdirs
    have hwrites : (copyPackageJsonWrites pkg options).map
        (fun w => (joinPath rootPath w.1, Content.packageJson w.2)) =
        [(SubPackage.manifestPath rootPath options .typings,
            Content.packageJson (SubPackage.manifest pkg .typings)),
          (SubPackage.manifestPath rootPath options .helpers,
            Content.packageJson (SubPackage.manifest pkg .helpers)),
          (SubPackage.manifestPath rootPath options .main,
            Content.packageJson (SubPackage.manifest pkg .main))] := by
      rw [copyPackageJsonWrites_eq, ht]
      rfl
    rw [hwrites] at hcopy
    obtain ⟨hrun, hstat⟩ := @runCalls_writes_ok fs
      [(SubPackage.manifestPath rootPath options .typings,
          Content.packageJson (SubPackage.manifest pkg .typings)),
        (SubPackage.manifestPath rootPath options .helpers,
          Content.packageJson (SubPackage.manifest pkg .helpers)),
        (SubPackage.manifestPath rootPath options .main,
          Content.packageJson (SubPackage.manifest pkg .main))] (by
      intro w hw
      simp only [List.mem_cons, List.mem_singleton, List.not_mem_nil, or_false] at hw
      have hT := hdirs .typings (by simp [SubPackage.generated])
      have hH := hdirs .helpers (by simp [SubPackage.generated])
      have hM := hdirs .main (by simp [SubPackage.generated])
      rcases hw with h | h | h <;> rw [h] <;> first | exact hT | exact hH | exact hM)
    refine ⟨_, hcopy.trans hrun, ?_, ?_, ?_, ?_, ?_⟩
    · intro hMT
      rw [hstat]
      simp [lastWrite, hMT, hTH.symm]
    · intro hMH
      rw [hstat]
      simp [lastWrite, hMH]
    · intro _
      rw [hstat]
      simp [lastWrite]
    · intro h; cases h
    · intro _ hMX
      rw [hstat]
      simp [lastWrite, hMX, hTX, hHX]
  | true =>
    rw [ht] at hdirs
    have hwrites : (copyPackageJsonWrites pkg options).map
        (fun w => (joinPath rootPath w.1, Content.packageJson w.2)) =
        [(SubPackage.manifestPath rootPath options .typings,
            Content.packageJson (SubPackage.manifest pkg .typings)),
          (SubPackage.manifestPath rootPath options .helpers,
            Content.packageJson (SubPackage.manifest pkg .helpers)),
          (SubPackage.manifestPath rootPath options .main,
            Content.packageJson (SubPackage.manifest pkg .main)),
          (SubPackage.manifestPath rootPath options .test,
            Content.packageJson (SubPackage.manifest pkg .test))] := by
      rw [copyPackageJsonWrites_eq, ht]
      rfl
    rw [hwrites] at hcopy
    obtain ⟨hrun, hstat⟩ := @runCalls_writes_ok fs
      [(SubPackage.manifestPath rootPath options .typings,
          Content.packageJson (SubPackage.manifest pkg .typings)),
        (SubPackage.manifestPath rootPath options .helpers,
          Content.packageJson (SubPackage.manifest pkg .helpers)),
        (SubPackage.manifestPath rootPath options .main,
          Content.packageJson (SubPackage.manifest pkg .main)),
        (SubPackage.manifestPath rootPath options .test,
          Content.packageJson (SubPackage.manifest pkg .test))] (by
      intro w hw
      simp only [List.mem_cons, List.mem_singleton, List.not_mem_nil, or_false] at hw
      have hT := hdirs .typings (by simp [SubPackage.generated])
      have hH := hdirs .helpers (by simp [SubPackage.generated])
      have hM := hdirs .main (by simp [SubPackage.generated])
      have hX := hdirs .test (by simp [SubPackage.generated])
      rcases hw with h | h | h | h <;> rw [h] <;>
        first | exact hT | exact hH | exact hM | exact hX)
    refine ⟨_, hcopy.trans hrun, ?_, ?_, ?_, ?_, ?_⟩
    · intro hMT
      rw [hstat]
      simp [lastWrite, hMT, hTH.symm, hTX.symm]
    · intro hMH
      rw [hstat]
      simp [lastWrite, hMH, hHX.symm]
    · intro hMX
      rw [hstat]
      simp [lastWrite, (hMX rfl).symm]
    · intro _
      rw [hstat]
      simp [lastWrite]
    · intro h; cases h

theorem tsconfigWrites_eq (basename : String) (isNeedTest : Bool) :
    tsconfigWrites basename isNeedTest Mode.PACKAGES =
      ("tsconfig.json", multiRootConfig basename isNeedTest) ::
        ([("packages/typings/tsconfig.json", SubPackage.config basename .typings),
          ("packages/helpers/tsconfig.json", SubPackage.config basename .helpers),
          ("packages/" ++ basename ++ "/tsconfig.json", SubPackage.config basename .main)] ++
        (if isNeedTest then
          [("packages/test/tsconfig.json", SubPackage.config basename .test)]
        else [])) := by
  have h1 : ("../typings/tsconfig.json" : String) = "../" ++ "typings" ++ "/tsconfig.json" := by
    decide
  have h2 : ("../helpers/tsconfig.json" : String) = "../" ++ "helpers" ++ "/tsconfig.json" := by
    decide
  unfold tsconfigWrites
  cases isNeedTest <;>
    simp [SubPackage.config, multiRootConfig, SubPackage.upstream, SubPackage.folder, h1, h2]

theorem configPath_distinct (rootPath : Path) :
    SubPackage.configPath rootPath .typings ≠ SubPackage.configPath rootPath .helpers ∧
      SubPackage.configPath rootPath .typings ≠ SubPackage.configPath rootPath .test ∧
      SubPackage.configPath rootPath .helpers ≠ SubPackage.configPath rootPath .test := by
  rw [configPath_typings, configPath_helpers, configPath_test]
  refine ⟨?_, ?_, ?_⟩ <;> simp

theorem joinPath_literal1 (rootPath : Path) {rel a : String} (hseg : pathSegments rel = [a])
    (ha : a ≠ "" ∧ a ≠ "." ∧ a ≠ "..") : joinPath rootPath rel = rootPath ++ [a] := by
  simp [joinPath, hseg, ha.1, ha.2.1, ha.2.2]

theorem joinPath_tsconfig (rootPath : Path) :
    joinPath rootPath "tsconfig.json" = rootPath ++ ["tsconfig.json"] :=
  joinPath_literal1 rootPath (by decide) (by decide)

theorem joinPath_tsconfig_abs (rootPath : Path) :
    joinPath rootPath "/tsconfig.json" = rootPath ++ ["tsconfig.json"] := by
  have h : pathSegments "/tsconfig.json" = ["", "tsconfig.json"] := by decide
  simp [joinPath, h]

theorem joinPath_tsconfig_base (rootPath : Path) :
    joinPath rootPath "tsconfig.base.json" = rootPath ++ ["tsconfig.base.json"] :=
  joinPath_literal1 rootPath (by decide) (by decide)

theorem initTsconfigJson_run (env : Env) (fs : FS) (rootPath : Path) (isNeedTest : Bool)
    (template : Tsconfig) (co : CompilerOptions)
    (henv : env.tscInit = .ran (some template))
    (hco : template.compilerOptions = some co)
    (hroot : stat fs rootPath = some Entry.dir)
    (hrt : writable fs (rootPath ++ ["tsconfig.json"]) = true)
    (hrb : writable fs (rootPath ++ ["tsconfig.base.json"]) = true)
    (hdirs : ∀ s ∈ SubPackage.generated isNeedTest,
      writable fs (s.configPath rootPath) = true) :
    ∃ fs1, initTsconfigJson env fs rootPath isNeedTest Mode.PACKAGES = .ok fs1 ∧
      (SubPackage.configPath rootPath .main ≠ SubPackage.configPath rootPath .typings →
        stat fs1 (SubPackage.configPath rootPath .typings) =
          some (Entry.file (Content.tsconfig
            (SubPackage.config (pathBasename rootPath) .typings)))) ∧
      (SubPackage.configPath rootPath .main ≠ SubPackage.configPath rootPath .helpers →
        stat fs1 (SubPackage.configPath rootPath .helpers) =
          some (Entry.file (Content.tsconfig
            (SubPackage.config (pathBasename rootPath) .helpers)))) ∧
      ((isNeedTest = true →
          SubPackage.configPath rootPath .main ≠ SubPackage.configPath rootPath .test) →
        stat fs1 (SubPackage.configPath rootPath .main) =
          some (Entry.file (Content.tsconfig
            (SubPackage.config (pathBasename rootPath) .main)))) ∧
      (isNeedTest = true →
        stat fs1 (SubPackage.configPath rootPath .test) =
          some (Entry.file (Content.tsconfig
            (SubPackage.config (pathBasename rootPath) .test)))) := by
  obtain ⟨hTH, hTX, hHX⟩ := configPath_distinct rootPath
  obtain ⟨hrt1, hrt2, hrt3⟩ := writable_spec hrt
  obtain ⟨hrb1, hrb2, hrb3⟩ := writable_spec hrb
  have hw1 := writeFileSync_ok (Content.tsconfig template) hrt1 hrt2 hrt3
  have hne : rootPath ++ ["tsconfig.base.json"] ≠ rootPath ++ ["tsconfig.json"] := by simp
  have hne2 : (rootPath ++ ["tsconfig.base.json"]).dropLast ≠ rootPath ++ ["tsconfig.json"] := by
    simp
  have hstat1 : stat (setEntry fs (rootPath ++ ["tsconfig.json"])
      (Entry.file (Content.tsconfig template))) (rootPath ++ ["tsconfig.json"]) =
      some (Entry.file (Content.tsconfig template)) := by
    rw [stat_setEntry hrt1]; simp
  have hw2 := @writeFileSync_ok (setEntry fs (rootPath ++ ["tsconfig.json"])
      (Entry.file (Content.tsconfig template))) _
    (Content.tsconfig { template with compilerOptions := some (baseCompilerOptions co) }) hrb1
    (by rw [stat_setEntry hrt1, if_neg hne2]; exact hrb2)
    (by rw [stat_setEntry hrt1, if_neg hne]; exact hrb3)
  have hrel : ∀ q,
      stat (setEntry (setEntry fs (rootPath ++ ["tsconfig.json"])
          (Entry.file (Content.tsconfig template))) (rootPath ++ ["tsconfig.base.json"])
          (Entry.file (Content.tsconfig
            { template with compilerOptions := some (baseCompilerOptions co) }))) q =
        stat fs q ∨
      ((∃ c, stat (setEntry (setEntry fs (rootPath ++ ["tsconfig.json"])
          (Entry.file (Content.tsconfig template))) (rootPath ++ ["tsconfig.base.json"])
          (Entry.file (Content.tsconfig
            { template with compilerOptions := some (baseCompilerOptions co) }))) q =
          some (Entry.file c)) ∧ stat fs q ≠ some Entry.dir) := by
    intro q
    rw [stat_setEntry hrb1, stat_setEntry hrt1]
    by_cases h1 : q = rootPath ++ ["tsconfig.base.json"]
    · right
      subst h1
      exact ⟨⟨_, if_pos rfl⟩, hrb3⟩
    · by_cases h2 : q = rootPath ++ ["tsconfig.json"]
      · right
        subst h2
        exact ⟨⟨_, by rw [if_neg h1, if_pos rfl]⟩, hrt3⟩
      · left
        rw [if_neg h1, if_neg h2]
  obtain ⟨fs2, hw2, hrel⟩ : ∃ fs2,
      writeFileSync (setEntry fs (rootPath ++ ["tsconfig.json"])
          (Entry.file (Content.tsconfig template))) (rootPath ++ ["tsconfig.base.json"])
          (Content.tsconfig
            { template with compilerOptions := some (baseCompilerOptions co) }) = .ok fs2 ∧
        ∀ q, stat fs2 q = stat fs q ∨
          ((∃ c, stat fs2 q = some (Entry.file c)) ∧ stat fs q ≠ some Entry.dir) :=
    ⟨_, hw2, hrel⟩
  have hrun0 : ∀ writes : List (Path × Content),
      (∀ w ∈ writes, writable fs w.1 = true) →
      (tsconfigWrites (pathBasename rootPath) isNeedTest Mode.PACKAGES).map
          (fun w => (joinPath rootPath w.1, Content.tsconfig w.2)) = writes →
      ∃ fs1, initTsconfigJson env fs rootPath isNeedTest Mode.PACKAGES = .ok fs1 ∧
        ∀ q, (∃ c, lastWrite writes q = some c ∧ stat fs1 q = some (Entry.file c)) ∨
          lastWrite writes q = none := by
    intro writes hw hwrites
    have hrun := runCalls_writes writes fs2 hrel hw
    have hstat := stat_applyWrites writes fs2 (fun w h => (writable_spec (hw w h)).1)
    refine ⟨applyWrites fs2 writes, ?_, ?_⟩
    · simp only [initTsconfigJson, execInit, hroot, henv, ToolRun.content, Option.map,
        joinPath_tsconfig, joinPath_tsconfig_abs, joinPath_tsconfig_base, hw1, Outcome.andThen,
        existsSync, hstat1, readTsconfig, readFileSync, hco, hw2, Option.isSome_some,
        Bool.not_true, Bool.false_eq_true, if_false]
      rw [← hrun, ← hwrites, List.map_map]
      rfl
    · intro q
      rcases hl : lastWrite writes q with _ | c
      · exact Or.inr rfl
      · left
        refine ⟨c, rfl, ?_⟩
        rw [hstat q, hl]
  have hT := fun h => hdirs .typings h
  have hH := fun h => hdirs .helpers h
  have hM := fun h => hdirs .main h
  have hX := fun h => hdirs .test h
  have hrtw : writable fs (joinPath rootPath "tsconfig.json") = true := by
    rw [joinPath_tsconfig]; exact hrt
  cases isNeedTest with
  | false =>
    obtain ⟨fs1, hok, hlast⟩ := hrun0
      [(joinPath rootPath "tsconfig.json",
          Content.tsconfig (multiRootConfig (pathBasename rootPath) false)),
        (SubPackage.configPath rootPath .typings,
          Content.tsconfig (SubPackage.config (pathBasename rootPath) .typings)),
        (SubPackage.configPath rootPath .helpers,
          Content.tsconfig (SubPackage.config (pathBasename rootPath) .helpers)),
        (SubPackage.configPath rootPath .main,
          Content.tsconfig (SubPackage.config (pathBasename rootPath) .main))]
      (by
        intro w hw
        simp only [List.mem_cons, List.mem_singleton, List.not_mem_nil, or_false] at hw
        rcases hw with h | h | h | h <;> rw [h]
        · exact hrtw
        · exact hT (by simp [SubPackage.generated])
        · exact hH (by simp [SubPackage.generated])
        · exact hM (by simp [SubPackage.generated]))
      (by rw [tsconfigWrites_eq]; rfl)
    refine ⟨fs1, hok, ?_, ?_, ?_, ?_⟩
    · intro hMT
      rcases hlast (SubPackage.configPath rootPath .typings) with ⟨c, h1, h2⟩ | h1
      · rw [h2]
        simp [lastWrite, hMT, hTH.symm] at h1
        rw [← h1]
      · simp [lastWrite, hMT, hTH.symm] at h1
    · intro hMH
      rcases hlast (SubPackage.configPath rootPath .helpers) with ⟨c, h1, h2⟩ | h1
      · rw [h2]
        simp [lastWrite, hMH] at h1
        rw [← h1]
      · simp [lastWrite, hMH] at h1
    · intro _
      rcases hlast (SubPackage.configPath rootPath .main) with ⟨c, h1, h2⟩ | h1
      · rw [h2]
        simp [lastWrite] at h1
        rw [← h1]
      · simp [lastWrite] at h1
    · intro h; cases h
  | true =>
    obtain ⟨fs1, hok, hlast⟩ := hrun0
      [(joinPath rootPath "tsconfig.json",
          Content.tsconfig (multiRootConfig (pathBasename rootPath) true)),
        (SubPackage.configPath rootPath .typings,
          Content.tsconfig (SubPackage.config (pathBasename rootPath) .typings)),
        (SubPackage.configPath rootPath .helpers,
          Content.tsconfig (SubPackage.config (pathBasename rootPath) .helpers)),
        (SubPackage.configPath rootPath .main,
          Content.tsconfig (SubPackage.config (pathBasename rootPath) .main)),
        (SubPackage.configPath rootPath .test,
          Content.tsconfig (SubPackage.config (pathBasename rootPath) .test))]
      (by
        intro w hw
        simp only [List.mem_cons, List.mem_singleton, List.not_mem_nil, or_false] at hw
        rcases hw with h | h | h | h | h <;> rw [h]
        · exact hrtw
        · exact hT (by simp [SubPackage.generated])
        · exact hH (by simp [SubPackage.generated])
        · exact hM (by simp [SubPackage.generated])
        · exact hX (by simp [SubPackage.generated]))
      (by rw [tsconfigWrites_eq]; rfl)
    refine ⟨fs1, hok, ?_, ?_, ?_, ?_⟩
    · intro hMT
      rcases hlast (SubPackage.configPath rootPath .typings) with ⟨c, h1, h2⟩ | h1
      · rw [h2]
        simp [lastWrite, hMT, hTH.symm, hTX.symm] at h1
        rw [← h1]
      · simp [lastWrite, hMT, hTH.symm, hTX.symm] at h1
    · intro hMH
      rcases hlast (SubPackage.configPath rootPath .helpers) with ⟨c, h1, h2⟩ | h1
      · rw [h2]
        simp [lastWrite, hMH, hHX.symm] at h1
        rw [← h1]
      · simp [lastWrite, hMH, hHX.symm] at h1
    · intro hMX
      rcases hlast (SubPackage.configPath rootPath .main) with ⟨c, h1, h2⟩ | h1
      · rw [h2]
        simp [lastWrite, (hMX rfl).symm] at h1
        rw [← h1]
      · simp [lastWrite, (hMX rfl).symm] at h1
    · intro _
      rcases hlast (SubPackage.configPath rootPath .test) with ⟨c, h1, h2⟩ | h1
      · rw [h2]
        simp [lastWrite] at h1
        rw [← h1]
      · simp [lastWrite] at h1

theorem readTsconfig_of_stat {fs : FS} {p : Path} {t : Tsconfig}
    (h : stat fs p = some (Entry.file (Content.tsconfig t))) : readTsconfig fs p = .ok t := by
  simp [readTsconfig, readFileSync, h]

/-! ## The calls of `initDirectory` in Single mode -/

theorem joinPath_types_abs (dir : Path) : joinPath dir "/@types.ts" = dir ++ ["@types.ts"] := by
  have h : pathSegments "/@types.ts" = ["", "@types.ts"] := by decide
  simp [joinPath, h]

theorem joinPath_index (dir : Path) : joinPath dir "index.ts" = dir ++ ["index.ts"] :=
  joinPath_literal1 dir (by decide) (by decide)

theorem joinPath_test_abs (rootPath : Path) : joinPath rootPath "/test" = rootPath ++ ["test"] := by
  have h : pathSegments "/test" = ["", "test"] := by decide
  simp [joinPath, h]

theorem initDirectoryCalls_single (rootPath : Path) (options : Options) :
    initDirectoryCalls rootPath options Mode.PACKAGE =
      FsCall.checkFolderWithInitOrClear (rootPath ++ ["scripts"]) ::
        (sourcesBlock (rootPath ++ ["src"]) (typesDeclaration options) "import \"./@types\";" ++
          (if options.isNeedTest then
            [FsCall.checkFolderWithInitOrClear (rootPath ++ ["test"]),
              FsCall.writeFileSync (rootPath ++ ["test"] ++ ["index.ts"])
                (.text "欲渡黄河冰塞川，将登太行雪满山")]
          else [])) := by
  unfold initDirectoryCalls
  simp only [joinPath_scripts, joinPath_src, joinPath_types_abs, joinPath_index,
    joinPath_test_abs, sourcesBlock]
  cases options.isNeedTest <;> simp

theorem sibling_prefix_inj {r rest : Path} {a b : String}
    (h : (r ++ [a]) <+: (r ++ [b] ++ rest)) : a = b := by
  rw [List.append_assoc, List.prefix_append_right_inj] at h
  obtain ⟨t, ht⟩ := h
  have h2 : a = b ∧ t = rest := by simpa using ht
  exact h2.1

theorem sibling_unrelated {r : Path} {a b : String} (hab : a ≠ b) {q : Path}
    (hq : (r ++ [a]) <+: q) : ¬ (r ++ [b]) <+: q ∧ ¬ q <+: (r ++ [b]) := by
  constructor
  · intro h
    have := List.prefix_of_prefix_length_le hq h (by simp)
    exact hab (@sibling_prefix_inj r [] a b (by simpa using this))
  · intro h
    exact hab (@sibling_prefix_inj r [] a b (by simpa using hq.trans h))

theorem initDirectory_single_sources {fs : FS} (hwf : WF fs) (rootPath : Path)
    (options : Options)
    (hscripts : ∀ q, q <+: rootPath ++ ["scripts"] → ∀ c, stat fs q ≠ some (Entry.file c))
    (hsrc : ∀ c, stat fs (rootPath ++ ["src"]) ≠ some (Entry.file c))
    (htest : options.isNeedTest = true →
      ∀ c, stat fs (rootPath ++ ["test"]) ≠ some (Entry.file c)) :
    ∃ fs1, initDirectory fs rootPath options Mode.PACKAGE = .ok fs1 ∧
      hasSources fs1 (rootPath ++ ["src"]) (typesDeclaration options) := by
  obtain ⟨fs1, hrun1, hwf1, _, _, hanc1, _, hfile1⟩ :=
    checkFolderWithInitOrClear_frame hwf hscripts
  have hroot1 : ∀ q, q <+: rootPath → stat fs1 q = some Entry.dir :=
    fun q hq => hanc1 q (hq.trans (List.prefix_append rootPath _))
  have hclear1 : ∀ q, q <+: rootPath ++ ["src"] → ∀ c, stat fs1 q ≠ some (Entry.file c) := by
    intro q hq c hs
    rcases List.prefix_concat_iff.mp hq with h | h
    · rw [h] at hs
      exact hsrc c (hfile1 _ c hs)
    · rw [hroot1 q h] at hs
      cases hs
  obtain ⟨fs3, hrun3, hwf3, hsrc3, hanc3, _, hfile3⟩ :=
    sourcesBlock_run hwf1 (typesDeclaration options) "import \"./@types\";"
      (if options.isNeedTest then
        [FsCall.checkFolderWithInitOrClear (rootPath ++ ["test"]),
          FsCall.writeFileSync (rootPath ++ ["test"] ++ ["index.ts"])
            (.text "欲渡黄河冰塞川，将登太行雪满山")]
      else []) hclear1
  have hrun : initDirectory fs rootPath options Mode.PACKAGE =
      runCalls fs3
        (if options.isNeedTest then
          [FsCall.checkFolderWithInitOrClear (rootPath ++ ["test"]),
            FsCall.writeFileSync (rootPath ++ ["test"] ++ ["index.ts"])
              (.text "欲渡黄河冰塞川，将登太行雪满山")]
        else []) := by
    rw [initDirectory, initDirectoryCalls_single, runCalls_cons]
    simp only [FsCall.run, hrun1, Outcome.andThen]
    exact hrun3
  cases ht : options.isNeedTest with
  | false =>
    refine ⟨fs3, ?_, hsrc3⟩
    rw [hrun, ht]
    rfl
  | true =>
    have hclear3 : ∀ q, q <+: rootPath ++ ["test"] →
        ∀ c, stat fs3 q ≠ some (Entry.file c) := by
      intro q hq c hs
      rcases List.prefix_concat_iff.mp hq with h | h
      · rw [h] at hs
        rcases hfile3 _ c hs with h1 | h1
        · exact htest ht c (hfile1 _ c h1)
        · have h2 : (rootPath ++ ["src"]) <+: (rootPath ++ ["test"] ++ []) := by
            rw [List.append_nil]; exact h1
          exact absurd (sibling_prefix_inj h2) (by decide)
      · rw [hanc3 q (h.trans (List.prefix_append rootPath _))] at hs
        cases hs
    obtain ⟨fs4, hrun4, hwf4, hdir4, hempty4, _, hframe4, _⟩ :=
      checkFolderWithInitOrClear_frame hwf3 hclear3
    obtain ⟨hrun5, _, hstat5⟩ :=
      writeFileSync_step hwf4 "index.ts" (Content.text "欲渡黄河冰塞川，将登太行雪满山") hdir4
        (by rw [stat_child_of_empty hempty4]; simp)
    refine ⟨setEntry fs4 (rootPath ++ ["test"] ++ ["index.ts"])
      (Entry.file (Content.text "欲渡黄河冰塞川，将登太行雪满山")), ?_, ?_⟩
    · rw [hrun, ht]
      simp only [if_true, runCalls_cons, FsCall.run, hrun4, hrun5, Outcome.andThen,
        runCalls_nil]
    · apply hasSources_of_frame ?_ hsrc3
      intro q hq
      obtain ⟨h1, h2⟩ := @sibling_unrelated rootPath "src" "test" (by decide) q hq
      have h3 : q ≠ rootPath ++ ["test"] ++ ["index.ts"] :=
        fun h => h1 (h ▸ List.prefix_append _ _)
      rw [hstat5, if_neg h3]
      exact hframe4 q h1 h2

/-! ## Claims -/

/-- C1. In Multi mode, for a base manifest with name `B` and version `V` read
from the root, on a filesystem where the sub-package folders exist,
`copyPackageJson` completes and leaves a typings manifest (name `B-typings`,
empty dependencies), a helpers manifest (name `B-helpers`, dependencies exactly
`B-typings: ^V`), a main manifest (name `B`, dependencies exactly
`B-helpers: ^V` and `B-typings: ^V`) and, exactly when `isNeedTest` holds, a
test manifest (name `B-test`, dependencies exactly `B: ^V`); each is read back
from its path unless the main folder is the folder of another sub-package, whose
manifest the main one then replaces.  The calls of `writeFileSync` are exactly
these, in this order. -/
theorem copyPackageJson_multi_manifests (fs : FS) (rootPath : Path) (options : Options)
    (pkg : PackageJson)
    (hread : readPackageJson fs (joinPath rootPath "package.json") = .ok pkg)
    (hdirs : ∀ s ∈ SubPackage.generated options.isNeedTest,
      writable fs (s.manifestPath rootPath options) = true) :
    ∃ fs1,
      copyPackageJson fs rootPath options Mode.PACKAGES = .ok fs1 ∧
      (SubPackage.manifestPath rootPath options .main ≠
          SubPackage.manifestPath rootPath options .typings →
        ∃ m, readPackageJson fs1 (SubPackage.manifestPath rootPath options .typings) = .ok m ∧
          m.name = pkg.name ++ "-typings" ∧ m.dependencies = some []) ∧
      (SubPackage.manifestPath rootPath options .main ≠
          SubPackage.manifestPath rootPath options .helpers →
        ∃ m, readPackageJson fs1 (SubPackage.manifestPath rootPath options .helpers) = .ok m ∧
          m.name = pkg.name ++ "-helpers" ∧
          m.dependencies = some [(pkg.name ++ "-typings", "^" ++ pkg.version)]) ∧
      ((options.isNeedTest = true →
          SubPackage.manifestPath rootPath options .main ≠
            SubPackage.manifestPath rootPath options .test) →
        ∃ m, readPackageJson fs1 (SubPackage.manifestPath rootPath options .main) = .ok m ∧
          m.name = pkg.name ∧
          m.dependencies =
            some [(pkg.name ++ "-helpers", "^" ++ pkg.version),
              (pkg.name ++ "-typings", "^" ++ pkg.version)]) ∧
      (options.isNeedTest = true →
        ∃ m, readPackageJson fs1 (SubPackage.manifestPath rootPath options .test) = .ok m ∧
          m.name = pkg.name ++ "-test" ∧
          m.dependencies = some [(pkg.name, "^" ++ pkg.version)]) ∧
      (options.isNeedTest = false →
        SubPackage.manifestPath rootPath options .main ≠
          SubPackage.manifestPath rootPath options .test →
        stat fs1 (SubPackage.manifestPath rootPath options .test) =
          stat fs (SubPackage.manifestPath rootPath options .test)) ∧
      copyPackageJson fs rootPath options Mode.PACKAGES =
        runCalls fs
          ((copyPackageJsonWrites pkg options).map
            (fun w => FsCall.writeFileSync (joinPath rootPath w.1) (.packageJson w.2))) ∧
      (copyPackageJsonWrites pkg options).map (fun w => (w.1, w.2.name, w.2.dependencies)) =
        [("packages/typings/package.json", pkg.name ++ "-typings", some []),
          ("packages/helpers/package.json", pkg.name ++ "-helpers",
            some [(pkg.name ++ "-typings", "^" ++ pkg.version)]),
          ("packages/" ++ realProjectName options ++ "/package.json", pkg.name,
            some [(pkg.name ++ "-helpers", "^" ++ pkg.version),
              (pkg.name ++ "-typings", "^" ++ pkg.version)])] ++
        (if options.isNeedTest then
          [("packages/test/package.json", pkg.name ++ "-test",
            some [(pkg.name, "^" ++ pkg.version)])]
        else []) := by
  obtain ⟨fs1, hok, hT, hH, hM, hX, hnone⟩ :=
    copyPackageJson_run fs rootPath options pkg hread hdirs
  refine ⟨fs1, hok, ?_, ?_, ?_, ?_, hnone, by simp [copyPackageJson, hread], ?_⟩
  · exact fun h => ⟨SubPackage.manifest pkg .typings, readPackageJson_of_stat (hT h), rfl, rfl⟩
  · exact fun h => ⟨SubPackage.manifest pkg .helpers, readPackageJson_of_stat (hH h), rfl, rfl⟩
  · exact fun h => ⟨SubPackage.manifest pkg .main, readPackageJson_of_stat (hM h), rfl, rfl⟩
  · exact fun h => ⟨SubPackage.manifest pkg .test, readPackageJson_of_stat (hX h), rfl, rfl⟩
  · rw [copyPackageJsonWrites_eq]
    cases options.isNeedTest <;> rfl

/-- Witness of C1 on the sample root with its sub-package folders. -/
theorem copyPackageJson_multi_manifests_witness :
    ∃ fs1,
      copyPackageJson samplePackagesFs ["work", "widget"] sampleOptions Mode.PACKAGES =
        .ok fs1 ∧
      (SubPackage.manifestPath ["work", "widget"] sampleOptions .main ≠
          SubPackage.manifestPath ["work", "widget"] sampleOptions .typings →
        ∃ m, readPackageJson fs1
            (SubPackage.manifestPath ["work", "widget"] sampleOptions .typings) = .ok m ∧
          m.name = sampleManifest.name ++ "-typings" ∧ m.dependencies = some []) ∧
      (SubPackage.manifestPath ["work", "widget"] sampleOptions .main ≠
          SubPackage.manifestPath ["work", "widget"] sampleOptions .helpers →
        ∃ m, readPackageJson fs1
            (SubPackage.manifestPath ["work", "widget"] sampleOptions .helpers) = .ok m ∧
          m.name = sampleManifest.name ++ "-helpers" ∧
          m.dependencies =
            some [(sampleManifest.name ++ "-typings", "^" ++ sampleManifest.version)]) ∧
      ((sampleOptions.isNeedTest = true →
          SubPackage.manifestPath ["work", "widget"] sampleOptions .main ≠
            SubPackage.manifestPath ["work", "widget"] sampleOptions .test) →
        ∃ m, readPackageJson fs1
            (SubPackage.manifestPath ["work", "widget"] sampleOptions .main) = .ok m ∧
          m.name = sampleManifest.name ∧
          m.dependencies =
            some [(sampleManifest.name ++ "-helpers", "^" ++ sampleManifest.version),
              (sampleManifest.name ++ "-typings", "^" ++ sampleManifest.version)]) ∧
      (sampleOptions.isNeedTest = true →
        ∃ m, readPackageJson fs1
            (SubPackage.manifestPath ["work", "widget"] sampleOptions .test) = .ok m ∧
          m.name = sampleManifest.name ++ "-test" ∧
          m.dependencies = some [(sampleManifest.name, "^" ++ sampleManifest.version)]) ∧
      (sampleOptions.isNeedTest = false →
        SubPackage.manifestPath ["work", "widget"] sampleOptions .main ≠
          SubPackage.manifestPath ["work", "widget"] sampleOptions .test →
        stat fs1 (SubPackage.manifestPath ["work", "widget"] sampleOptions .test) =
          stat samplePackagesFs
            (SubPackage.manifestPath ["work", "widget"] sampleOptions .test)) ∧
      copyPackageJson samplePackagesFs ["work", "widget"] sampleOptions Mode.PACKAGES =
        runCalls samplePackagesFs
          ((copyPackageJsonWrites sampleManifest sampleOptions).map
            (fun w => FsCall.writeFileSync (joinPath ["work", "widget"] w.1)
              (.packageJson w.2))) ∧
      (copyPackageJsonWrites sampleManifest sampleOptions).map
          (fun w => (w.1, w.2.name, w.2.dependencies)) =
        [("packages/typings/package.json", sampleManifest.name ++ "-typings", some []),
          ("packages/helpers/package.json", sampleManifest.name ++ "-helpers",
            some [(sampleManifest.name ++ "-typings", "^" ++ sampleManifest.version)]),
          ("packages/" ++ realProjectName sampleOptions ++ "/package.json",
            sampleManifest.name,
            some [(sampleManifest.name ++ "-helpers", "^" ++ sampleManifest.version),
              (sampleManifest.name ++ "-typings", "^" ++ sampleManifest.version)])] ++
        (if sampleOptions.isNeedTest then
          [("packages/test/package.json", sampleManifest.name ++ "-test",
            some [(sampleManifest.name, "^" ++ sampleManifest.version)])]
        else []) :=
  copyPackageJson_multi_manifests samplePackagesFs ["work", "widget"] sampleOptions
    sampleManifest rfl (by decide)

/-- C2. In Multi mode, for every value of `isNeedTest`, on a filesystem where
the sub-package folders exist and `tsc --init` leaves its template,
`initTsconfigJson` and `copyPackageJson` both complete, and for every generated
sub-package whose files are not replaced by those of another sub-package, the
`references` read back from its configuration and the `dependencies` read back
from its manifest point to the same sub-packages, in the same direction
(typings: none; helpers: typings; main: helpers and typings; test, when
requested: main only).  The lists of configurations and manifests written agree
in the same way. -/
theorem tsconfig_references_mirror_dependencies (env : Env) (fs : FS) (rootPath : Path)
    (options : Options) (pkg : PackageJson) (template : Tsconfig) (co : CompilerOptions)
    (henv : env.tscInit = .ran (some template))
    (hco : template.compilerOptions = some co)
    (hroot : stat fs rootPath = some Entry.dir)
    (hrt : writable fs (rootPath ++ ["tsconfig.json"]) = true)
    (hrb : writable fs (rootPath ++ ["tsconfig.base.json"]) = true)
    (hconfigs : ∀ s ∈ SubPackage.generated options.isNeedTest,
      writable fs (s.configPath rootPath) = true)
    (hread : readPackageJson fs (joinPath rootPath "package.json") = .ok pkg)
    (hmanifests : ∀ s ∈ SubPackage.generated options.isNeedTest,
      writable fs (s.manifestPath rootPath options) = true) :
    (∃ fsC fsM,
      initTsconfigJson env fs rootPath options.isNeedTest Mode.PACKAGES = .ok fsC ∧
      copyPackageJson fs rootPath options Mode.PACKAGES = .ok fsM ∧
      ∀ s ∈ SubPackage.generated options.isNeedTest,
        SubPackage.keepsPath (SubPackage.configPath rootPath) options.isNeedTest s →
        SubPackage.keepsPath (SubPackage.manifestPath rootPath options) options.isNeedTest s →
        ∃ config manifest,
          readTsconfig fsC (s.configPath rootPath) = .ok config ∧
          readPackageJson fsM (s.manifestPath rootPath options) = .ok manifest ∧
          config.references.getD [] =
            s.upstream.map
              (fun u => "../" ++ u.folder (pathBasename rootPath) ++ "/tsconfig.json") ∧
          manifest.name = s.manifestName pkg.name ∧
          (manifest.dependencies.getD []).map Prod.fst =
            s.upstream.map (SubPackage.manifestName pkg.name)) ∧
      (let manifests := copyPackageJsonWrites pkg options
      let configs :=
        (tsconfigWrites (pathBasename rootPath) options.isNeedTest Mode.PACKAGES).drop 1
      let subs := SubPackage.generated options.isNeedTest
      manifests.map (fun w => w.2.name) = subs.map (SubPackage.manifestName pkg.name) ∧
        configs.map (fun w => w.1) =
          subs.map (fun s => "packages/" ++ s.folder (pathBasename rootPath) ++
            "/tsconfig.json") ∧
        manifests.map (fun w => (w.2.dependencies.getD []).map Prod.fst) =
          subs.map (fun s => s.upstream.map (SubPackage.manifestName pkg.name)) ∧
        configs.map (fun w => w.2.references.getD []) =
          subs.map (fun s =>
            s.upstream.map
              (fun u => "../" ++ u.folder (pathBasename rootPath) ++ "/tsconfig.json"))) := by
  obtain ⟨fsC, hokC, hcT, hcH, hcM, hcX⟩ :=
    initTsconfigJson_run env fs rootPath options.isNeedTest template co henv hco hroot hrt hrb
      hconfigs
  obtain ⟨fsM, hokM, hmT, hmH, hmM, hmX, _⟩ :=
    copyPackageJson_run fs rootPath options pkg hread hmanifests
  refine ⟨⟨fsC, fsM, hokC, hokM, ?_⟩, ?_⟩
  · intro s hs hkc hkm
    have hmain : SubPackage.main ∈ SubPackage.generated options.isNeedTest := by
      unfold SubPackage.generated
      cases options.isNeedTest <;> simp
    have htest : options.isNeedTest = true →
        SubPackage.test ∈ SubPackage.generated options.isNeedTest := by
      intro h
      simp [SubPackage.generated, h]
    cases s with
    | typings =>
      have h1 := hcT (hkc .main hmain (by decide))
      have h2 := hmT (hkm .main hmain (by decide))
      exact ⟨SubPackage.config (pathBasename rootPath) .typings, SubPackage.manifest pkg .typings,
        readTsconfig_of_stat h1, readPackageJson_of_stat h2, rfl, rfl, by
          simp [SubPackage.manifest, SubPackage.upstream]⟩
    | helpers =>
      have h1 := hcH (hkc .main hmain (by decide))
      have h2 := hmH (hkm .main hmain (by decide))
      exact ⟨SubPackage.config (pathBasename rootPath) .helpers, SubPackage.manifest pkg .helpers,
        readTsconfig_of_stat h1, readPackageJson_of_stat h2, rfl, rfl, by
          simp [SubPackage.manifest, SubPackage.upstream]⟩
    | main =>
      have h1 := hcM (fun h => (hkc .test (htest h) (by decide)).symm)
      have h2 := hmM (fun h => (hkm .test (htest h) (by decide)).symm)
      exact ⟨SubPackage.config (pathBasename rootPath) .main, SubPackage.manifest pkg .main,
        readTsconfig_of_stat h1, readPackageJson_of_stat h2, rfl, rfl, by
          simp [SubPackage.manifest, SubPackage.upstream]⟩
    | test =>
      have ht : options.isNeedTest = true := by
        cases h : options.isNeedTest
        · rw [h] at hs
          simp [SubPackage.generated] at hs
        · rfl
      have h1 := hcX ht
      have h2 := hmX ht
      exact ⟨SubPackage.config (pathBasename rootPath) .test, SubPackage.manifest pkg .test,
        readTsconfig_of_stat h1, readPackageJson_of_stat h2, rfl, rfl, by
          simp [SubPackage.manifest, SubPackage.upstream]⟩
  · rw [copyPackageJsonWrites_eq, tsconfigWrites_eq]
    cases options.isNeedTest <;>
      simp [SubPackage.generated, SubPackage.manifest, SubPackage.config,
        SubPackage.manifestName, SubPackage.upstream, SubPackage.folder]

/-- Witness of C2 on the sample root with its sub-package folders. -/
theorem tsconfig_references_mirror_dependencies_witness :
    (∃ fsC fsM,
      initTsconfigJson sampleEnv samplePackagesFs ["work", "widget"] sampleOptions.isNeedTest
        Mode.PACKAGES = .ok fsC ∧
      copyPackageJson samplePackagesFs ["work", "widget"] sampleOptions Mode.PACKAGES =
        .ok fsM ∧
      ∀ s ∈ SubPackage.generated sampleOptions.isNeedTest,
        SubPackage.keepsPath (SubPackage.configPath ["work", "widget"])
          sampleOptions.isNeedTest s →
        SubPackage.keepsPath (SubPackage.manifestPath ["work", "widget"] sampleOptions)
          sampleOptions.isNeedTest s →
        ∃ config manifest,
          readTsconfig fsC (s.configPath ["work", "widget"]) = .ok config ∧
          readPackageJson fsM (s.manifestPath ["work", "widget"] sampleOptions) =
            .ok manifest ∧
          config.references.getD [] =
            s.upstream.map
              (fun u => "../" ++ u.folder (pathBasename ["work", "widget"]) ++
                "/tsconfig.json") ∧
          manifest.name = s.manifestName sampleManifest.name ∧
          (manifest.dependencies.getD []).map Prod.fst =
            s.upstream.map (SubPackage.manifestName sampleManifest.name)) ∧
      (let manifests := copyPackageJsonWrites sampleManifest sampleOptions
      let configs :=
        (tsconfigWrites (pathBasename ["work", "widget"]) sampleOptions.isNeedTest
          Mode.PACKAGES).drop 1
      let subs := SubPackage.generated sampleOptions.isNeedTest
      manifests.map (fun w => w.2.name) =
          subs.map (SubPackage.manifestName sampleManifest.name) ∧
        configs.map (fun w => w.1) =
          subs.map (fun s => "packages/" ++ s.folder (pathBasename ["work", "widget"]) ++
            "/tsconfig.json") ∧
        manifests.map (fun w => (w.2.dependencies.getD []).map Prod.fst) =
          subs.map (fun s => s.upstream.map (SubPackage.manifestName sampleManifest.name)) ∧
        configs.map (fun w => w.2.references.getD []) =
          subs.map (fun s =>
            s.upstream.map
              (fun u => "../" ++ u.folder (pathBasename ["work", "widget"]) ++
                "/tsconfig.json"))) :=
  tsconfig_references_mirror_dependencies sampleEnv samplePackagesFs ["work", "widget"]
    sampleOptions sampleManifest sampleTsconfig [("target", .str "es2016")] rfl rfl
    (by decide) (by decide) (by decide) (by decide) rfl (by decide)

/-- C3. For every options record with an ASCII project name, when `npm init -y`
leaves its template in an existing root directory, `initPackageJson` completes
and the manifest it writes back to `package.json` has the name
`@scope/lowercase(name)` when the scope is a non-empty string (the scope is kept
as it is) and `lowercase(name)` when the scope is absent or empty; with no scope
the written name is exactly `lowercase(name)`, nothing is put in front of it.
For the scope `Acme` and the name `My-Widget` the name is `@Acme/my-widget`, for
the name `My-Widget` alone it is `my-widget`. -/
theorem initPackageJson_name (env : Env) (fs : FS) (rootPath : Path) (options : Options)
    (mode : Mode) (template : PackageJson)
    (hascii : isAsciiString options.projectName = true)
    (hnpm : env.npmInit = .ran (some template))
    (hroot : stat fs rootPath = some Entry.dir)
    (hfile : stat fs (rootPath ++ ["package.json"]) ≠ some Entry.dir) :
    (∃ fs1 written,
      initPackageJson env fs rootPath (some options) mode = .ok fs1 ∧
      readPackageJson fs1 (rootPath ++ ["package.json"]) = .ok written ∧
      written = initPackageJsonManifest template options mode ∧
      (∀ scope, options.projectScoped = some scope → scope ≠ "" →
        written.name = "@" ++ scope ++ "/" ++ asciiLowerCase options.projectName) ∧
      (options.projectScoped = none ∨ options.projectScoped = some "" →
        written.name = asciiLowerCase options.projectName)) ∧
      (∀ description author isNeedTest,
        manifestName
          { projectScoped := some "Acme", projectName := "My-Widget",
            projectDescription := description, projectAuthor := author,
            isNeedTest := isNeedTest } = "@Acme/my-widget" ∧
        manifestName
          { projectScoped := none, projectName := "My-Widget",
            projectDescription := description, projectAuthor := author,
            isNeedTest := isNeedTest } = "my-widget") := by
  have _ := hascii
  have hp : rootPath ++ ["package.json"] ≠ [] := by simp
  have hparent : stat fs (rootPath ++ ["package.json"]).dropLast = some Entry.dir := by
    simpa using hroot
  have hw1 := writeFileSync_ok (Content.packageJson template) hp hparent hfile
  have hstat1 : stat (setEntry fs (rootPath ++ ["package.json"]) (.file (.packageJson template)))
      (rootPath ++ ["package.json"]) = some (.file (.packageJson template)) := by
    rw [stat_setEntry hp]; simp
  have hparent1 : stat (setEntry fs (rootPath ++ ["package.json"])
      (.file (.packageJson template))) (rootPath ++ ["package.json"]).dropLast =
      some Entry.dir := by
    rw [stat_setEntry hp]
    have : ¬ (rootPath ++ ["package.json"]).dropLast = rootPath ++ ["package.json"] := by
      simp
    simp only [this, if_false]
    exact hparent
  have hw2 := @writeFileSync_ok (setEntry fs (rootPath ++ ["package.json"])
    (.file (.packageJson template))) _
    (Content.packageJson (initPackageJsonManifest template options mode)) hp hparent1
    (by rw [hstat1]; simp)
  have hname : (initPackageJsonManifest template options mode).name =
      manifestBaseName options := by
    rw [← manifestName_eq]
    unfold initPackageJsonManifest
    by_cases h1 : options.projectAuthor ≠ "" <;> by_cases h2 : options.projectDescription ≠ ""
      <;> by_cases h3 : mode = Mode.PACKAGES <;> simp [h1, h2, h3]
  refine ⟨⟨setEntry (setEntry fs (rootPath ++ ["package.json"])
    (.file (.packageJson template))) (rootPath ++ ["package.json"])
    (.file (.packageJson (initPackageJsonManifest template options mode))),
    initPackageJsonManifest template options mode, ?_, ?_, rfl, ?_, ?_⟩, ?_⟩
  · simp only [initPackageJson, execInit, hroot, hnpm, ToolRun.content, Option.map,
      joinPath_packageJson, joinPath_packageJson_rel, hw1, Outcome.andThen, existsSync, hstat1,
      readPackageJson, readFileSync]
    simpa using hw2
  · simp [readPackageJson, readFileSync, stat_setEntry hp]
  · intro scope hs hne
    rw [hname]
    apply String.ext
    simp [manifestBaseName, hs, truthy, hne]
  · intro h
    rw [hname]
    rcases h with h | h <;> simp [manifestBaseName, h, truthy, empty_append]
  · intro description author isNeedTest
    exact ⟨rfl, rfl⟩

/-- Witness of C3 on the sample root, with the scope `Acme` and the name
`My-Widget`. -/
theorem initPackageJson_name_witness :
    (∃ fs1 written,
      initPackageJson sampleEnv sampleRootFs ["work", "widget"] (some sampleScopedOptions)
        Mode.PACKAGE = .ok fs1 ∧
      readPackageJson fs1 (["work", "widget"] ++ ["package.json"]) = .ok written ∧
      written = initPackageJsonManifest sampleManifest sampleScopedOptions Mode.PACKAGE ∧
      (∀ scope, sampleScopedOptions.projectScoped = some scope → scope ≠ "" →
        written.name = "@" ++ scope ++ "/" ++ asciiLowerCase sampleScopedOptions.projectName) ∧
      (sampleScopedOptions.projectScoped = none ∨ sampleScopedOptions.projectScoped = some "" →
        written.name = asciiLowerCase sampleScopedOptions.projectName)) ∧
      (∀ description author isNeedTest,
        manifestName
          { projectScoped := some "Acme", projectName := "My-Widget",
            projectDescription := description, projectAuthor := author,
            isNeedTest := isNeedTest } = "@Acme/my-widget" ∧
        manifestName
          { projectScoped := none, projectName := "My-Widget",
            projectDescription := description, projectAuthor := author,
            isNeedTest := isNeedTest } = "my-widget") :=
  initPackageJson_name sampleEnv sampleRootFs ["work", "widget"] sampleScopedOptions
    Mode.PACKAGE sampleManifest (by decide) rfl (by decide) (by decide)

/-- C4. For every options record with ASCII scope and name, the namespace
identifier is the concatenation of the dash-separated segments of the name, each
with its first character upper-cased, with the upper-cased scope in front when
the scope is non-empty; on a well-formed filesystem where the folders it needs
can be created, `initDirectory` completes in both layouts and leaves the
placeholder `declare namespace <id> {}` with that identifier in the `@types.ts`
of every `src` directory it fills.  For the name `acme-widget` without scope the
identifier is `AcmeWidget`, for the scope `acme` and the name `my-widget` it is
`ACMEMyWidget`. -/
theorem initDirectory_namespace (fs : FS) (rootPath : Path) (options : Options)
    (hname : isAsciiString options.projectName = true)
    (hscope : isAsciiString (options.projectScoped.getD "") = true)
    (hwf : FS.wf fs = true)
    (hscripts : noFileAlong fs (rootPath ++ ["scripts"]) = true) :
    projectNamespace options = namespaceIdentifier options ∧
      (noFileAlong fs (rootPath ++ ["src"]) = true →
        (options.isNeedTest = true → noFileAlong fs (rootPath ++ ["test"]) = true) →
        ∃ fs1, initDirectory fs rootPath options Mode.PACKAGE = .ok fs1 ∧
          readFileSync fs1 (rootPath ++ ["src", "@types.ts"]) =
            .ok (.text ("declare namespace " ++ namespaceIdentifier options ++ " \x7b\x7d"))) ∧
      (noFileAlong fs (rootPath ++ ["packages"]) = true →
        isPlainName (pathBasename rootPath) = true →
        ∃ fs1, initDirectory fs rootPath options Mode.PACKAGES = .ok fs1 ∧
          ∀ folder ∈ ["typings", "helpers", pathBasename rootPath],
            (options.isNeedTest = true → folder ≠ "test") →
            readFileSync fs1 (rootPath ++ ["packages", folder, "src", "@types.ts"]) =
              .ok (.text
                ("declare namespace " ++ namespaceIdentifier options ++ " \x7b\x7d"))) ∧
      (∀ description author isNeedTest,
        projectNamespace
          { projectScoped := none, projectName := "acme-widget",
            projectDescription := description, projectAuthor := author,
            isNeedTest := isNeedTest } = "AcmeWidget" ∧
        projectNamespace
          { projectScoped := some "acme", projectName := "my-widget",
            projectDescription := description, projectAuthor := author,
            isNeedTest := isNeedTest } = "ACMEMyWidget") := by
  have _ := hname
  have _ := hscope
  have htypes : typesDeclaration options =
      "declare namespace " ++ namespaceIdentifier options ++ " \x7b\x7d" := by
    rw [typesDeclaration, projectNamespace_eq]
  refine ⟨projectNamespace_eq options, ?_, ?_, ?_⟩
  · intro hsrc htest
    obtain ⟨fs1, hok, _, hfile, _⟩ :=
      initDirectory_single_sources (WF.of_wf hwf) rootPath options (noFileAlong_spec hscripts)
        (noFileAlong_spec hsrc _ (List.prefix_refl _))
        (fun h => noFileAlong_spec (htest h) _ (List.prefix_refl _))
    refine ⟨fs1, hok, ?_⟩
    have h2 : rootPath ++ ["src", "@types.ts"] = rootPath ++ ["src"] ++ ["@types.ts"] := by simp
    rw [h2, ← htypes, readFileSync, hfile]
  · intro hpackages hbase
    obtain ⟨fs1, hok, hall, _⟩ :=
      initDirectory_multi_sources (WF.of_wf hwf) rootPath options (noFileAlong_spec hscripts)
        (noFileAlong_spec hpackages _ (List.prefix_refl _)) hbase
    refine ⟨fs1, hok, ?_⟩
    intro folder hf hne
    obtain ⟨_, hfile, _⟩ := hall folder hf hne
    have h2 : rootPath ++ ["packages", folder, "src", "@types.ts"] =
        rootPath ++ ["packages"] ++ [folder, "src"] ++ ["@types.ts"] := by simp
    rw [h2, ← htypes, readFileSync, hfile]
  · intro description author isNeedTest
    exact ⟨rfl, rfl⟩

/-- Witness of C4 on the sample root, with the scope `Acme` and the name
`My-Widget`. -/
theorem initDirectory_namespace_witness :
    projectNamespace sampleScopedOptions = namespaceIdentifier sampleScopedOptions ∧
      (noFileAlong sampleRootFs (["work", "widget"] ++ ["src"]) = true →
        (sampleScopedOptions.isNeedTest = true →
          noFileAlong sampleRootFs (["work", "widget"] ++ ["test"]) = true) →
        ∃ fs1, initDirectory sampleRootFs ["work", "widget"] sampleScopedOptions
            Mode.PACKAGE = .ok fs1 ∧
          readFileSync fs1 (["work", "widget"] ++ ["src", "@types.ts"]) =
            .ok (.text
              ("declare namespace " ++ namespaceIdentifier sampleScopedOptions ++ " \x7b\x7d"))) ∧
      (noFileAlong sampleRootFs (["work", "widget"] ++ ["packages"]) = true →
        isPlainName (pathBasename ["work", "widget"]) = true →
        ∃ fs1, initDirectory sampleRootFs ["work", "widget"] sampleScopedOptions
            Mode.PACKAGES = .ok fs1 ∧
          ∀ folder ∈ ["typings", "helpers", pathBasename ["work", "widget"]],
            (sampleScopedOptions.isNeedTest = true → folder ≠ "test") →
            readFileSync fs1 (["work", "widget"] ++ ["packages", folder, "src", "@types.ts"]) =
              .ok (.text
                ("declare namespace " ++ namespaceIdentifier sampleScopedOptions ++
                  " \x7b\x7d"))) ∧
      (∀ description author isNeedTest,
        projectNamespace
          { projectScoped := none, projectName := "acme-widget",
            projectDescription := description, projectAuthor := author,
            isNeedTest := isNeedTest } = "AcmeWidget" ∧
        projectNamespace
          { projectScoped := some "acme", projectName := "my-widget",
            projectDescription := description, projectAuthor := author,
            isNeedTest := isNeedTest } = "ACMEMyWidget") :=
  initDirectory_namespace sampleRootFs ["work", "widget"] sampleScopedOptions (by decide)
    (by decide) (by decide) (by decide)

/-- C5, as stated, fails: for the root `work/acme-widget` and an options record
without scope that supplies the name `acme-widget`, the record handed to the
generators keeps the supplied name instead of the remainder `widget` of the base
name. -/
theorem init_name_not_always_remainder :
    ¬ ∀ (rootPath : Path) (options : InitOptions),
      includesDash (pathBasename rootPath) = true → truthy options.projectScoped = false →
        (initOpts rootPath options).projectScoped =
            some ((splitDash (pathBasename rootPath)).headD "") ∧
          (initOpts rootPath options).projectName =
            join "-" ((splitDash (pathBasename rootPath)).drop 1) := by
  intro h
  have h1 := h ["work", "acme-widget"] hyphenatedNameOptions (by decide) (by decide)
  exact absurd h1.2 (by decide)

/-- C5, amended. For every root path whose base name contains a dash and every
options record without scope, `init` runs the generators on a record whose scope
is the part of the base name before its first dash (the base name is that part,
a dash, and the remainder), and whose name is the supplied project name when one
is supplied and non-empty, and the remainder of the base name otherwise. -/
theorem init_splits_hyphenated_basename (rootPath : Path) (options : InitOptions)
    (hdash : includesDash (pathBasename rootPath) = true)
    (hscope : truthy options.projectScoped = false) :
    ∃ lead rest,
      pathBasename rootPath = lead ++ "-" ++ rest ∧ includesDash lead = false ∧
      rest = join "-" ((splitDash (pathBasename rootPath)).drop 1) ∧
      (initOpts rootPath options).projectScoped = some lead ∧
      (initOpts rootPath options).projectName =
        (if truthy options.projectName then options.projectName.getD "" else rest) ∧
      ∀ env fs mode,
        init env fs rootPath options mode =
          (checkFolderWithInitOrClear fs rootPath).andThen fun fs1 =>
            runGenerators env fs1 rootPath (initOpts rootPath options) options.isNeedTest
              mode := by
  obtain ⟨lead, rest, hsplit, hlead, hbase⟩ := splitDash_of_includesDash hdash
  refine ⟨lead, join "-" rest, hbase, hlead, by simp [hsplit], ?_, ?_, ?_⟩
  · simp [initOpts, initScope, hdash, hscope, hsplit]
  · simp [initOpts, initScope, hdash, hscope, hsplit]
  · intro env fs mode
    simp [init, initScope, hdash, hscope]

/-- Witness of C5 (amended) on the root `work/acme-widget` with name and scope
left out. -/
theorem init_splits_hyphenated_basename_witness :
    ∃ lead rest,
      pathBasename ["work", "acme-widget"] = lead ++ "-" ++ rest ∧
      includesDash lead = false ∧
      rest = join "-" ((splitDash (pathBasename ["work", "acme-widget"])).drop 1) ∧
      (initOpts ["work", "acme-widget"] omittedNameOptions).projectScoped = some lead ∧
      (initOpts ["work", "acme-widget"] omittedNameOptions).projectName =
        (if truthy omittedNameOptions.projectName then
          omittedNameOptions.projectName.getD "" else rest) ∧
      ∀ env fs mode,
        init env fs ["work", "acme-widget"] omittedNameOptions mode =
          (checkFolderWithInitOrClear fs ["work", "acme-widget"]).andThen fun fs1 =>
            runGenerators env fs1 ["work", "acme-widget"]
              (initOpts ["work", "acme-widget"] omittedNameOptions)
              omittedNameOptions.isNeedTest mode :=
  init_splits_hyphenated_basename ["work", "acme-widget"] omittedNameOptions (by decide)
    (by decide)

/-- C6 at the failing input: for the name `acme-widget` without scope, in Multi
mode, `initDirectory` writes `import "@acme/widget-typings"` as the first import
of the helpers and main entry files, while `initPackageJson` names the manifest
`acme-widget` and `copyPackageJson` names the typings manifest
`acme-widget-typings`. -/
theorem initDirectory_import_specifier_mismatch :
    importTypingsSpecifier sampleOptions = "@acme/widget-typings" ∧
      manifestName sampleOptions ++ "-typings" = "acme-widget-typings" ∧
      FsCall.writeFileSync ["work", "proj", "packages", "helpers", "src", "index.ts"]
          (.text "import \"@acme/widget-typings\";\n\nimport \"./@types\";") ∈
        initDirectoryCalls ["work", "proj"] sampleOptions Mode.PACKAGES ∧
      FsCall.writeFileSync ["work", "proj", "packages", "proj", "src", "index.ts"]
          (.text "import \"@acme/widget-typings\";\n\nimport \"./@types\";") ∈
        initDirectoryCalls ["work", "proj"] sampleOptions Mode.PACKAGES ∧
      ((copyPackageJsonWrites
          (initPackageJsonManifest sampleManifest sampleOptions Mode.PACKAGES)
          sampleOptions).map (fun w => w.2.name)).head? = some "acme-widget-typings" := by
  decide

/-- C7 at the failing input: a Multi-mode run of `init` on the root
`work/acme-widget` with name and scope left out creates the main sub-package's
`src` directory under `packages/acme-widget` and writes its `tsconfig.json`
there, but addresses its manifest to `packages/widget`, a folder that was never
created, so that the run ends with `ENOENT`. -/
theorem init_main_folder_mismatch :
    initDir ["work", "acme-widget", "packages", "acme-widget"] ∈
        initDirectoryCalls ["work", "acme-widget"]
          (initOpts ["work", "acme-widget"] omittedNameOptions) Mode.PACKAGES ∧
      initDir ["work", "acme-widget", "packages", "acme-widget"] =
        FsCall.checkFolderWithInitOrClear
          ["work", "acme-widget", "packages", "acme-widget", "src"] ∧
      ((tsconfigWrites (pathBasename ["work", "acme-widget"]) false Mode.PACKAGES).map
          (fun w => joinPath ["work", "acme-widget"] w.1)).get? 3 =
        some ["work", "acme-widget", "packages", "acme-widget", "tsconfig.json"] ∧
      ((copyPackageJsonWrites sampleManifest
          (initOpts ["work", "acme-widget"] omittedNameOptions)).map
          (fun w => joinPath ["work", "acme-widget"] w.1)).get? 2 =
        some ["work", "acme-widget", "packages", "widget", "package.json"] ∧
      (∃ fs1, init sampleEnv [] ["work", "acme-widget"] omittedNameOptions Mode.PACKAGES =
          .threw .ENOENT fs1 ∧
        stat fs1 ["work", "acme-widget", "packages", "acme-widget", "src"] = some Entry.dir ∧
        existsSync fs1 ["work", "acme-widget", "packages", "acme-widget", "tsconfig.json"] =
          true ∧
        existsSync fs1 ["work", "acme-widget", "packages", "widget"] = false ∧
        existsSync fs1 ["work", "acme-widget", "packages", "acme-widget", "package.json"] =
          false) := by
  refine ⟨by decide, by decide, by decide, by decide,
    ⟨(init sampleEnv [] ["work", "acme-widget"] omittedNameOptions Mode.PACKAGES).fs, ?_⟩⟩
  decide

/-- C8 at the failing input: in Single mode with tests not requested, the root
`tsconfig.json` written by `initTsconfigJson` still lists `./test` among its
references, although no `test` configuration is written and a full run of
`init` leaves no `test` directory. -/
theorem initTsconfigJson_single_references_test :
    (∀ basename,
      (tsconfigWrites basename false Mode.PACKAGE).map
          (fun w => (w.1, w.2.files, w.2.references)) =
        [("tsconfig.json", some [], some ["./src", "./test"]),
          ("src/tsconfig.json", some ["@types.ts", "index.ts"], none)]) ∧
      (∃ fs1 config,
        init sampleEnv [] ["work", "widget"] omittedNameOptions Mode.PACKAGE = .ok fs1 ∧
        readTsconfig fs1 ["work", "widget", "tsconfig.json"] = .ok config ∧
        config.references = some ["./src", "./test"] ∧
        existsSync fs1 ["work", "widget", "test"] = false) := by
  refine ⟨fun basename => rfl,
    ⟨(init sampleEnv [] ["work", "widget"] omittedNameOptions Mode.PACKAGE).fs,
      { extends_ := none, compilerOptions := none, files := some [], include_ := some [],
        exclude := some ["build"], references := some ["./src", "./test"] }, ?_⟩⟩
  refine ⟨by decide, rfl, rfl, by decide⟩

/-- C10, as stated, fails: on an empty filesystem, a Single-mode run of `init`
for the root `work/widget` with an empty project name does not fail; it creates
the root directory and completes. -/
theorem init_empty_name_completes :
    emptyNameOptions.projectName = some "" ∧
      existsSync [] ["work", "widget"] = false ∧
      (init sampleEnv [] ["work", "widget"] emptyNameOptions Mode.PACKAGE).isOk = true ∧
      stat (init sampleEnv [] ["work", "widget"] emptyNameOptions Mode.PACKAGE).fs
        ["work", "widget"] = some Entry.dir ∧
      readPackageJson (init sampleEnv [] ["work", "widget"] emptyNameOptions Mode.PACKAGE).fs
        ["work", "widget", "package.json"] =
        .ok (initPackageJsonManifest sampleManifest
          (initOpts ["work", "widget"] emptyNameOptions) Mode.PACKAGE) := by
  refine ⟨rfl, by decide, by decide, by decide, rfl⟩

/-- C10, amended. For every working directory and every layout mode, a run of
the command-line entry whose answered project name is empty fails before `init`
is called: the error is raised on the unchanged filesystem, so that no directory
is created or cleared.  The method `init` itself does not fail on an empty or
omitted project name: it runs the generators with the name taken from the base
name of the root path. -/
theorem main_empty_name_fails_first (env : Env) (fs : FS) (cwd : Path) (answers : Answers)
    (rootPath : Path) (options : InitOptions) (mode : Mode)
    (hanswer : answers.projectName = "")
    (hname : options.projectName = none ∨ options.projectName = some "") :
    main env fs cwd answers = .threw (.error "必须填写项目名称") fs ∧
      (initOpts rootPath options).projectName = (initScope rootPath options).2 ∧
      init env fs rootPath options mode =
        (checkFolderWithInitOrClear fs rootPath).andThen fun fs1 =>
          runGenerators env fs1 rootPath
            { projectScoped := (initScope rootPath options).1.projectScoped
              projectName := (initScope rootPath options).2
              projectDescription := options.projectDescription
              projectAuthor := options.projectAuthor
              isNeedTest := options.isNeedTest }
            options.isNeedTest mode := by
  obtain ⟨hn, hd, ha, ht⟩ := initScope_fields rootPath options
  have hfalsy : truthy (initScope rootPath options).1.projectName = false := by
    rw [hn]
    rcases hname with h | h <;> simp [truthy, h]
  refine ⟨by simp [main, hanswer], by simp [initOpts, hfalsy], ?_⟩
  simp [init, initOpts, hfalsy, hd, ha, ht]

/-- Witness of C10 (amended) on the empty filesystem. -/
theorem main_empty_name_fails_first_witness :
    main sampleEnv [] ["work"] emptyNameAnswers = .threw (.error "必须填写项目名称") [] ∧
      (initOpts ["work", "widget"] emptyNameOptions).projectName =
        (initScope ["work", "widget"] emptyNameOptions).2 ∧
      init sampleEnv [] ["work", "widget"] emptyNameOptions Mode.PACKAGE =
        (checkFolderWithInitOrClear [] ["work", "widget"]).andThen fun fs1 =>
          runGenerators sampleEnv fs1 ["work", "widget"]
            { projectScoped := (initScope ["work", "widget"] emptyNameOptions).1.projectScoped
              projectName := (initScope ["work", "widget"] emptyNameOptions).2
              projectDescription := emptyNameOptions.projectDescription
              projectAuthor := emptyNameOptions.projectAuthor
              isNeedTest := emptyNameOptions.isNeedTest }
            emptyNameOptions.isNeedTest Mode.PACKAGE :=
  main_empty_name_fails_first sampleEnv [] ["work"] emptyNameAnswers ["work", "widget"]
    emptyNameOptions Mode.PACKAGE rfl (Or.inr rfl)

/-- C9, as stated, fails: when the path is a regular file, the first call of
`checkFolderWithInitOrClear` removes the file and leaves nothing at the path;
and when the path does not exist below a regular file, the call throws. -/
theorem checkFolderWithInitOrClear_on_file :
    FS.wf sampleFileFs = true ∧
      checkFolderWithInitOrClear sampleFileFs ["notes"] = .ok [] ∧
      stat [] ["notes"] = none ∧
      existsSync sampleFileFs ["notes", "sub"] = false ∧
      checkFolderWithInitOrClear sampleFileFs ["notes", "sub"] =
        .threw .ENOTDIR sampleFileFs := by
  decide

/-- C9, amended. For every well-formed filesystem state and every path none of
whose components (the path itself included) is a regular file, that is, a path
that is an existing directory or can be created, `checkFolderWithInitOrClear`
does not throw and leaves an empty directory at the path, and a second call in
succession does not throw either and leaves that same state, an empty directory
at the path. -/
theorem checkFolderWithInitOrClear_twice (fs : FS) (targetPath : Path)
    (hwf : FS.wf fs = true) (hclear : noFileAlong fs targetPath = true) :
    ∃ fs1,
      checkFolderWithInitOrClear fs targetPath = .ok fs1 ∧
      stat fs1 targetPath = some Entry.dir ∧
      readdirSync fs1 targetPath = .ok [] ∧
      checkFolderWithInitOrClear fs1 targetPath = .ok fs1 := by
  obtain ⟨fs1, hrun, hdir, hempty⟩ :=
    checkFolderWithInitOrClear_spec (WF.of_wf hwf) (noFileAlong_spec hclear)
  exact ⟨fs1, hrun, hdir, readdirSync_empty hdir hempty,
    checkFolderWithInitOrClear_empty_dir hdir hempty⟩

/-- Witness of C9 (amended): clearing the populated directory `work/proj`. -/
theorem checkFolderWithInitOrClear_twice_witness :
    ∃ fs1,
      checkFolderWithInitOrClear sampleTreeFs ["work", "proj"] = .ok fs1 ∧
      stat fs1 ["work", "proj"] = some Entry.dir ∧
      readdirSync fs1 ["work", "proj"] = .ok [] ∧
      checkFolderWithInitOrClear fs1 ["work", "proj"] = .ok fs1 :=
  checkFolderWithInitOrClear_twice sampleTreeFs ["work", "proj"] (by decide) (by decide)

/-- C11, as stated, fails: for the root `work/acme-widget` with name and scope
left out, the first run of `init` fills the scope `acme` into the options record
and derives the name `widget`; a second run on the record as the first run left
it keeps the scope `acme` but derives the name `acme-widget`, and writes the
manifest name `@acme/acme-widget` where the first run wrote `@acme/widget`. -/
theorem init_rerun_changes_name :
    (initScope ["work", "acme-widget"] omittedNameOptions).1.projectScoped = some "acme" ∧
      (initOpts ["work", "acme-widget"] omittedNameOptions).projectName = "widget" ∧
      (initOpts ["work", "acme-widget"]
        (initScope ["work", "acme-widget"] omittedNameOptions).1).projectName =
        "acme-widget" ∧
      (init sampleEnv [] ["work", "acme-widget"] omittedNameOptions Mode.PACKAGE).isOk = true ∧
      (readPackageJson
          (init sampleEnv [] ["work", "acme-widget"] omittedNameOptions Mode.PACKAGE).fs
          ["work", "acme-widget", "package.json"]).toOption.map (fun m => m.name) =
        some "@acme/widget" ∧
      (init sampleEnv
        (init sampleEnv [] ["work", "acme-widget"] omittedNameOptions Mode.PACKAGE).fs
        ["work", "acme-widget"] (initScope ["work", "acme-widget"] omittedNameOptions).1
        Mode.PACKAGE).isOk = true ∧
      (readPackageJson
          (init sampleEnv
            (init sampleEnv [] ["work", "acme-widget"] omittedNameOptions Mode.PACKAGE).fs
            ["work", "acme-widget"] (initScope ["work", "acme-widget"] omittedNameOptions).1
            Mode.PACKAGE).fs
          ["work", "acme-widget", "package.json"]).toOption.map (fun m => m.name) =
        some "@acme/acme-widget" := by
  refine ⟨by decide, by decide, by decide, by decide, by decide, by decide, by decide⟩

/-- C11, amended. For every root path, options record and layout mode, when the
options record supplies a non-empty project name, or the first run does not
fill a non-empty scope into it (a scope was supplied, the base name of the root
has no dash, or the base name starts with a dash), a second run of `init`
against the same root with the options record as the first run left it is
handed the same normalized record as the first run (same scope, same name),
writes the same manifest name, and is the same run on every filesystem state. -/
theorem init_rerun_same_names (rootPath : Path) (options : InitOptions)
    (hkeep : truthy options.projectName = true ∨ truthy options.projectScoped = true ∨
      includesDash (pathBasename rootPath) = false ∨
      (splitDash (pathBasename rootPath)).headD "" = "") :
    initOpts rootPath (initScope rootPath options).1 = initOpts rootPath options ∧
      manifestName (initOpts rootPath (initScope rootPath options).1) =
        manifestName (initOpts rootPath options) ∧
      ∀ env fs mode,
        init env fs rootPath (initScope rootPath options).1 mode =
          init env fs rootPath options mode := by
  have hopts : initOpts rootPath (initScope rootPath options).1 = initOpts rootPath options := by
    by_cases hsplit : truthy options.projectScoped = false ∧
        includesDash (pathBasename rootPath) = true
    · have e1 := @initScope_of_split rootPath options hsplit.1 hsplit.2
      by_cases hlead : (splitDash (pathBasename rootPath)).headD "" = ""
      · have e2 := @initScope_of_split rootPath
          { options with projectScoped := some ((splitDash (pathBasename rootPath)).headD "") }
          (by simp only [truthy, hlead]; decide) hsplit.2
        simp only [initOpts, e1, e2]
      · have e2 := @initScope_of_keep rootPath
          { options with projectScoped := some ((splitDash (pathBasename rootPath)).headD "") }
          (Or.inl (by simp only [truthy]; simpa using hlead))
        have hname : truthy options.projectName = true := by
          rcases hkeep with h | h | h | h
          · exact h
          · rw [hsplit.1] at h; cases h
          · rw [hsplit.2] at h; cases h
          · exact absurd h hlead
        simp only [initOpts, e1, e2, hname, if_true]
    · have e1 := @initScope_of_keep rootPath options (by
        by_cases h1 : truthy options.projectScoped = true
        · exact Or.inl h1
        · by_cases h2 : includesDash (pathBasename rootPath) = false
          · exact Or.inr h2
          · exact absurd ⟨by simpa using h1, by simpa using h2⟩ hsplit)
      rw [e1]
  refine ⟨hopts, by rw [hopts], ?_⟩
  intro env fs mode
  obtain ⟨_, _, _, ht⟩ := initScope_fields rootPath options
  obtain ⟨_, _, _, ht2⟩ := initScope_fields rootPath (initScope rootPath options).1
  simp only [init, hopts, ht, ht2]

/-- Witness of C11 (amended): the root `work/acme-widget` with the name
`acme-widget` supplied. -/
theorem init_rerun_same_names_witness :
    initOpts ["work", "acme-widget"] (initScope ["work", "acme-widget"] hyphenatedNameOptions).1 =
        initOpts ["work", "acme-widget"] hyphenatedNameOptions ∧
      manifestName (initOpts ["work", "acme-widget"]
          (initScope ["work", "acme-widget"] hyphenatedNameOptions).1) =
        manifestName (initOpts ["work", "acme-widget"] hyphenatedNameOptions) ∧
      ∀ env fs mode,
        init env fs ["work", "acme-widget"]
            (initScope ["work", "acme-widget"] hyphenatedNameOptions).1 mode =
          init env fs ["work", "acme-widget"] hyphenatedNameOptions mode :=
  init_rerun_same_names ["work", "acme-widget"] hyphenatedNameOptions (Or.inl (by decide))

/-- C12, as stated, fails: in Multi mode with tests requested, `initDirectory`
creates the `src` directory of the test sub-package and writes nothing into it;
it holds neither `@types.ts` nor `index.ts`. -/
theorem initDirectory_test_sources_missing :
    sampleOptions.isNeedTest = true ∧
      (initDirectory sampleRootFs ["work", "widget"] sampleOptions Mode.PACKAGES).isOk = true ∧
      stat (initDirectory sampleRootFs ["work", "widget"] sampleOptions Mode.PACKAGES).fs
        ["work", "widget", "packages", "test", "src"] = some Entry.dir ∧
      existsSync (initDirectory sampleRootFs ["work", "widget"] sampleOptions Mode.PACKAGES).fs
        ["work", "widget", "packages", "test", "src", "@types.ts"] = false ∧
      existsSync (initDirectory sampleRootFs ["work", "widget"] sampleOptions Mode.PACKAGES).fs
        ["work", "widget", "packages", "test", "src", "index.ts"] = false := by
  decide

/-- C12, amended. In Multi mode, for every options record, on a well-formed
filesystem where neither `scripts` nor `packages` nor a component of the root
path is a regular file and the base name of the root is a plain folder name,
`initDirectory` completes and leaves, for each of the typings, helpers and main
sub-packages (the main one under the base name of the root, provided that name
is not `test` when tests are requested), a `src` directory that contains both
the namespace-declaration placeholder `@types.ts` and an entry file `index.ts`;
for the test sub-package, when tests are requested, it leaves an empty `src`
directory. -/
theorem initDirectory_multi_src_contents (fs : FS) (rootPath : Path) (options : Options)
    (hwf : FS.wf fs = true)
    (hscripts : noFileAlong fs (rootPath ++ ["scripts"]) = true)
    (hpackages : noFileAlong fs (rootPath ++ ["packages"]) = true)
    (hbase : isPlainName (pathBasename rootPath) = true) :
    ∃ fs1, initDirectory fs rootPath options Mode.PACKAGES = .ok fs1 ∧
      (∀ folder ∈ ["typings", "helpers", pathBasename rootPath],
        (options.isNeedTest = true → folder ≠ "test") →
        hasSources fs1 (rootPath ++ ["packages"] ++ [folder, "src"])
          ("declare namespace " ++ projectNamespace options ++ " \x7b\x7d")) ∧
      (options.isNeedTest = true →
        isEmptyDir fs1 (rootPath ++ ["packages"] ++ ["test", "src"])) :=
  initDirectory_multi_sources (WF.of_wf hwf) rootPath options (noFileAlong_spec hscripts)
    (noFileAlong_spec hpackages _ (List.prefix_refl _)) hbase

/-- Witness of C12 (amended) on the sample root. -/
theorem initDirectory_multi_src_contents_witness :
    ∃ fs1, initDirectory sampleRootFs ["work", "widget"] sampleOptions Mode.PACKAGES = .ok fs1 ∧
      (∀ folder ∈ ["typings", "helpers", pathBasename ["work", "widget"]],
        (sampleOptions.isNeedTest = true → folder ≠ "test") →
        hasSources fs1 (["work", "widget"] ++ ["packages"] ++ [folder, "src"])
          ("declare namespace " ++ projectNamespace sampleOptions ++ " \x7b\x7d")) ∧
      (sampleOptions.isNeedTest = true →
        isEmptyDir fs1 (["work", "widget"] ++ ["packages"] ++ ["test", "src"])) :=
  initDirectory_multi_src_contents sampleRootFs ["work", "widget"] sampleOptions (by decide)
    (by decide) (by decide) (by decide)

end Scaffold
